import Mathlib

/-!
Replay log of `src/replay.cpp`.

A shallow embedding of the command log (`replay`), its undo engine
(`replay::undo_cut`, `fix_rename_command`), `replay::remove_command` and
`replay::get_data_range`, together with the properties of the specification
that concern them.

The document type `config`, `map_location` and `replay_recorder_base` are
declared in headers that are not part of `src/`; the small part of them that
`replay.cpp` relies on is modelled below and marked as such.
-/

namespace Replay

/-! ## Documents -/

/-- Modelled from the spec: `config::attribute_value` (config.hpp is not under
`src/`). A scalar field of a document. Text that reads as a boolean or as a
number is stored by the assignment operator as `bool` or `int`, so `str` only
ever holds text that is neither. -/
inductive attribute_value where
  | blank
  | bool (b : Bool)
  | int (i : Int)
  | str (s : String)
deriving DecidableEq, Repr

/-- Modelled from the spec: `attribute_value::to_bool(def)`: the stored boolean,
and the default `d` for every value that is not a boolean. -/
def attribute_value.to_bool (v : attribute_value) (d : Bool) : Bool :=
  match v with
  | .bool b => b
  | _ => d

/-- Modelled from the spec: `config` (config.hpp is not under `src/`): a
document with scalar fields and an ordered list of named child documents. -/
inductive config where
  | mk (values : List (String × attribute_value)) (children : List (String × config))

/-- The scalar fields of a document. -/
def config.values : config → List (String × attribute_value)
  | .mk v _ => v

/-- The named children of a document, in order. -/
def config.children : config → List (String × config)
  | .mk _ c => c

/-- The document `config()`. -/
def config.empty_config : config := .mk [] []

/-- Modelled from the spec: `config::empty()`: no field and no child. -/
def config.empty (c : config) : Bool :=
  c.values.isEmpty && c.children.isEmpty

/-- Modelled from the spec: `config::operator[] const`: the field `key`, blank
when the document has no such field (the document is not changed). -/
def config.get (c : config) (key : String) : attribute_value :=
  match c.values.lookup key with
  | some v => v
  | none => .blank

/-- Replaces the value stored under `key`, or adds the field at the end. -/
def set_value (key : String) (v : attribute_value) :
    List (String × attribute_value) → List (String × attribute_value)
  | [] => [(key, v)]
  | (k, w) :: rest => if k = key then (k, v) :: rest else (k, w) :: set_value key v rest

/-- Modelled from the spec: `c[key] = v` on a mutable document. -/
def config.set (c : config) (key : String) (v : attribute_value) : config :=
  .mk (set_value key v c.values) c.children

/-- Modelled from the spec: `config::child(key)`: the first child named `key`,
`none` for the invalid document returned when there is none. -/
def config.child (c : config) (key : String) : Option config :=
  c.children.lookup key

/-- Modelled from the spec: `config::child_range(key)`: the children named
`key`, in order. -/
def config.child_range (c : config) (key : String) : List config :=
  (c.children.filter (fun p => p.1 = key)).map Prod.snd

/-- Modelled from the spec: `config::add_child(key, val)`: a copy of `val`
becomes the last child. -/
def config.add_child (c : config) (key : String) (val : config) : config :=
  .mk c.values (c.children ++ [(key, val)])

/-- Position of the new child for `config::add_child_at`: just before the child
that is currently number `index` among those named `key`, at the very end when
there are exactly `index` of them, and an error when there are fewer. -/
def insert_child_at (key : String) (val : config) :
    Nat → List (String × config) → Option (List (String × config))
  | 0, [] => some [(key, val)]
  | _ + 1, [] => none
  | n, (k, c) :: rest =>
    if k = key then
      match n with
      | 0 => some ((key, val) :: (k, c) :: rest)
      | m + 1 => (insert_child_at key val m rest).map (fun l => (k, c) :: l)
    else (insert_child_at key val n rest).map (fun l => (k, c) :: l)

/-- Modelled from the spec: `config::add_child_at(key, val, index)`; `none` is
the `config::error` thrown for an illegal index. -/
def config.add_child_at (c : config) (key : String) (val : config) (index : Nat) :
    Option config :=
  (insert_child_at key val index c.children).map (fun l => .mk c.values l)

/-- Replaces the first child named `key`. -/
def replace_child (key : String) (val : config) :
    List (String × config) → List (String × config)
  | [] => []
  | (k, c) :: rest => if k = key then (k, val) :: rest else (k, c) :: replace_child key val rest

/-- Writing through the reference returned by `config::child(key)`: the first
child named `key` becomes `val`. -/
def config.with_child (c : config) (key : String) (val : config) : config :=
  .mk c.values (replace_child key val c.children)

/-! ## Board locations -/

/-- Modelled from the spec: `map_location` (map_location.hpp is not under
`src/`): a board location, zero-based. -/
structure map_location where
  x : Int
  y : Int
deriving DecidableEq, Repr

/-- One coordinate as `map_location(const config&)` reads it: documents hold
one-based coordinates; anything that is not a number leaves the initial value
`-1000`. -/
def read_coordinate : attribute_value → Int
  | .int i => i - 1
  | _ => -1000

/-- Modelled from the spec: the constructor `map_location(const config&)`, which
reads the fields `x` and `y`. -/
def map_location.of_config (cfg : config) : map_location :=
  ⟨read_coordinate (cfg.get "x"), read_coordinate (cfg.get "y")⟩

/-- Modelled from the spec: `map_location::write(config&)`, which stores the
one-based coordinates in the fields `x` and `y`. -/
def map_location.write (loc : map_location) (cfg : config) : config :=
  (cfg.set "x" (.int (loc.x + 1))).set "y" (.int (loc.y + 1))

/-! ## The recorder and the replay object -/

/-- Modelled from the spec: `replay_recorder_base` (replay_recorder_base.hpp is
not under `src/`): the ordered sequence of commands and the cursor `pos`. -/
structure replay_recorder_base where
  commands : List config
  pos : Nat

/-- Modelled from the spec: `replay_recorder_base::size()`. -/
def replay_recorder_base.size (b : replay_recorder_base) : Nat := b.commands.length

/-- Modelled from the spec: `replay_recorder_base::get_pos()`. -/
def replay_recorder_base.get_pos (b : replay_recorder_base) : Nat := b.pos

/-- Modelled from the spec: `replay_recorder_base::get_command_at(n)`; `none` is
the contract violation for an index that is out of bounds. -/
def replay_recorder_base.get_command_at (b : replay_recorder_base) (n : Nat) : Option config :=
  b.commands[n]?

/-- Modelled from the spec: `replay_recorder_base::remove_command(index)`:
deletes one command; a cursor that stood behind the deleted command moves back
with it, which keeps `pos <= len`. `none` for an index that is out of bounds. -/
def replay_recorder_base.remove_command (b : replay_recorder_base) (index : Nat) :
    Option replay_recorder_base :=
  if index < b.size then
    some { commands := b.commands.eraseIdx index, pos := if index < b.pos then b.pos - 1 else b.pos }
  else none

/-- Modelled from the spec: `replay_recorder_base::set_to_end()`. -/
def replay_recorder_base.set_to_end (b : replay_recorder_base) : replay_recorder_base :=
  { b with pos := b.size }

/-- The state of a `replay` object: the recorder `base_` and the recorded
offsets of chat messages, `message_locations`. -/
structure replay where
  base_ : replay_recorder_base
  message_locations : List Int

/-- `replay::ncommands`. -/
def replay.ncommands (r : replay) : Nat := r.base_.size

/-- `replay::command(n)`; `none` is the failed assertion. -/
def replay.command (r : replay) (n : Nat) : Option config := r.base_.get_command_at n

/-- Writing through the reference returned by `replay::command(n)`. -/
def replay.write_command (r : replay) (n : Nat) (c : config) : replay :=
  { r with base_ := { r.base_ with commands := r.base_.commands.set n c } }

/-- `replay::at_end`; `none` is the failed assertion `pos <= ncommands()`. -/
def replay.at_end (r : replay) : Option Bool :=
  if r.base_.get_pos ≤ r.ncommands then some (r.base_.get_pos == r.ncommands) else none

/-- `replay::set_to_end`. -/
def replay.set_to_end (r : replay) : replay := { r with base_ := r.base_.set_to_end }

/-- The loop of `replay::remove_command` over `message_locations.rbegin()` ..
`rend()`: walking from the back, every offset is decremented until the first one
that `index` is not below. The argument is the reversed vector. -/
def decrement_while_above (index : Int) : List Int → List Int
  | [] => []
  | loc :: rest => if index < loc then (loc - 1) :: decrement_while_above index rest else loc :: rest

/-- `replay::remove_command(index)`. -/
def replay.remove_command (r : replay) (index : Nat) : Option replay :=
  match r.base_.remove_command index with
  | none => none
  | some b =>
    some { base_ := b,
           message_locations := (decrement_while_above (index : Int) r.message_locations.reverse).reverse }

/-- The two filters of `replay::get_data_range`. -/
inductive DATA_TYPE where
  | ALL_DATA
  | NON_UNDO_DATA
deriving DecidableEq, Repr

/-- The `for` loop of `replay::get_data_range`: `n` iterations are left, `cmd` is
the loop variable, `res` the result built so far. -/
def get_data_range_loop (data_type : DATA_TYPE) :
    Nat → Nat → replay → config → Option (config × replay)
  | 0, _, r, res => some (res, r)
  | n + 1, cmd, r, res =>
    match r.command cmd with
    | none => none
    | some c =>
      if (data_type = DATA_TYPE.ALL_DATA ∨ ¬ (c.get "undo").to_bool true = true)
          ∧ ¬ (c.get "sent").to_bool false = true then
        let res1 := res.add_child "command" c
        let r1 := if data_type = DATA_TYPE.NON_UNDO_DATA then
            r.write_command cmd (c.set "sent" (.bool true)) else r
        get_data_range_loop data_type n (cmd + 1) r1 res1
      else get_data_range_loop data_type n (cmd + 1) r res

/-- `replay::get_data_range(cmd_start, cmd_end, data_type)`: the returned
document together with the replay object after the call. -/
def replay.get_data_range (r : replay) (cmd_start cmd_end : Nat) (data_type : DATA_TYPE) :
    Option (config × replay) :=
  get_data_range_loop data_type (cmd_end - cmd_start) cmd_start r config.empty_config

/-! ## Undo -/

/-- `fix_rename_command(c, async_child)`: whether the rename command is to be
removed, and `async_child` after the call. `read_locations` (map_location.hpp,
not under `src/`) yields the steps of a move; it is a parameter. -/
def fix_rename_command (read_locations : config → List map_location)
    (c async_child : config) : Bool × config :=
  match c.child "move" with
  | some child =>
    let steps := read_locations child
    match steps.head?, steps.getLast? with
    | some src, some dst =>
      if dst = map_location.of_config async_child then (false, src.write async_child)
      else (false, async_child)
    | _, _ => (false, async_child)
  | none =>
    let chld := match c.child "recruit" with
      | some ch => some ch
      | none => c.child "recall"
    match chld with
    | some ch =>
      if map_location.of_config ch = map_location.of_config async_child then (true, async_child)
      else (false, async_child)
    | none => (false, async_child)

/-- Outcome of the first loop of `replay::undo_cut`. -/
inductive undo_scan_result where
  | already_sent
  | found (cmd_index : Nat)
  | no_command
deriving DecidableEq, Repr

/-- The first loop of `replay::undo_cut`, which looks for the last synced user
action; the argument `k` is `cmd_index + 1`. -/
def undo_scan (r : replay) : Nat → Option undo_scan_result
  | 0 => some .no_command
  | k + 1 =>
    match r.command k with
    | none => none
    | some c =>
      if (c.get "undo").to_bool true = true ∧ ¬ (c.get "async").to_bool false = true
          ∧ ¬ (c.get "dependent").to_bool false = true then
        if (c.get "sent").to_bool false = true then some .already_sent
        else some (.found k)
      else undo_scan r k

/-- One iteration of the second loop of `replay::undo_cut`, at index `i`. -/
def undo_fix_step (read_locations : config → List map_location) (cmd_index i : Nat)
    (r : replay) (dst : config) : Option (replay × config) :=
  match r.command i with
  | none => none
  | some c =>
    if ¬ (c.get "undo").to_bool true = true then some (r, dst)
    else if (c.get "async").to_bool false = true then
      match c.child "rename" with
      | none => some (r, dst)
      | some rename =>
        match r.command cmd_index with
        | none => none
        | some cand =>
          let fixed := fix_rename_command read_locations cand rename
          let r1 := r.write_command i (c.with_child "rename" fixed.2)
          if fixed.1 = true then (r1.remove_command i).map (fun r2 => (r2, dst))
          else some (r1, dst)
    else if (c.get "dependent").to_bool false = true ∨ i = cmd_index then
      match dst.add_child_at "command" c 0 with
      | none => none
      | some dst1 => (r.remove_command i).map (fun r2 => (r2, dst1))
    else some (r, dst)

/-- The second loop of `replay::undo_cut`: `m` iterations are left, the next one
is at index `cmd_index + m - 1`. -/
def undo_fix (read_locations : config → List map_location) (cmd_index : Nat) :
    Nat → replay → config → Option (replay × config)
  | 0, r, dst => some (r, dst)
  | m + 1, r, dst =>
    match undo_fix_step read_locations cmd_index (cmd_index + m) r dst with
    | none => none
    | some (r1, dst1) => undo_fix read_locations cmd_index m r1 dst1

/-- `replay::undo_cut(dst)`: the replay object and `dst` after the call; `none`
is a failed assertion. -/
def replay.undo_cut (read_locations : config → List map_location) (r : replay) (dst : config) :
    Option (replay × config) :=
  if dst.empty = false then none
  else
    match r.at_end with
    | none => none
    | some false => none
    | some true =>
      match undo_scan r r.ncommands with
      | none => none
      | some .already_sent => some (r, dst)
      | some .no_command => some (r, dst)
      | some (.found cmd_index) =>
        match undo_fix read_locations cmd_index (r.ncommands - cmd_index) r dst with
        | none => none
        | some (r1, dst1) => some (r1.set_to_end, dst1)

/-- `replay::undo()`. -/
def replay.undo (read_locations : config → List map_location) (r : replay) : Option replay :=
  (r.undo_cut read_locations config.empty_config).map Prod.fst

/-! ## Vocabulary of the statements -/

/-- The test `c["undo"].to_bool(true)`: the command may be rolled back. -/
def config.undoable (c : config) : Bool := (c.get "undo").to_bool true

/-- The test `c["async"].to_bool(false)`. -/
def config.is_async (c : config) : Bool := (c.get "async").to_bool false

/-- The test `c["dependent"].to_bool(false)`. -/
def config.is_dependent (c : config) : Bool := (c.get "dependent").to_bool false

/-- The test `c["sent"].to_bool(false)`. -/
def config.is_sent (c : config) : Bool := (c.get "sent").to_bool false

/-- A command that undo may pick: undoable, and neither async nor dependent. -/
def config.undo_candidate (c : config) : Bool :=
  c.undoable && !c.is_async && !c.is_dependent

/-- A command of the class that undo hands back when it stands after the undone
command: undoable and not async (such a command is dependent when it is not
itself a candidate). -/
def config.handed_back (c : config) : Bool := c.undoable && !c.is_async

/-- The children of a document all of whose children are `command`s. -/
def command_children (l : List config) : List (String × config) :=
  l.map (fun d => ("command", d))

/-- What undoing `cand` leaves in the log of a command `d` standing after it:
`d` itself when it is not undoable; when it is async, `d` with its rename
repaired, or nothing when the repair asks for its removal; nothing when it is
dependent. -/
def undo_survivor (read_locations : config → List map_location) (cand d : config) :
    Option config :=
  if d.undoable = false then some d
  else if d.is_async = true then
    match d.child "rename" with
    | none => some d
    | some rename =>
      if (fix_rename_command read_locations cand rename).1 = true then none
      else some (d.with_child "rename" (fix_rename_command read_locations cand rename).2)
  else if d.is_dependent = true then none
  else some d

/-! ## Sample logs -/

/-- The source location of the sample move. -/
def loc_A : map_location := ⟨2, 3⟩

/-- The destination of the sample move. -/
def loc_B : map_location := ⟨5, 3⟩

/-- A path reader for the samples: the steps of the sample move. -/
def sample_read_locations : config → List map_location :=
  fun _ => [loc_A, ⟨3, 3⟩, ⟨4, 3⟩, loc_B]

/-- The command recorded by `replay::add_start`. -/
def start_command : config :=
  .mk [("sent", .bool true)] [("start", config.empty_config)]

/-- A move command as `replay::add_synced_command` records it. -/
def move_command : config :=
  .mk [("from_side", .int 1)] [("move", .mk [("x", .str "3,4,5,6"), ("y", .str "4,4,4,4")] [])]

/-- The same move, already transmitted. -/
def sent_move_command : config :=
  .mk [("from_side", .int 1), ("sent", .bool true)]
    [("move", .mk [("x", .str "3,4,5,6"), ("y", .str "4,4,4,4")] [])]

/-- A recruit command at `loc_B`. -/
def recruit_command : config :=
  .mk [("from_side", .int 1)] [("recruit", .mk [("type", .str "Spearman"), ("x", .int 6), ("y", .int 4)] [])]

/-- The target document of a rename of the unit at `loc` to `X`. -/
def rename_target (loc : map_location) : config :=
  .mk [("x", .int (loc.x + 1)), ("y", .int (loc.y + 1)), ("name", .str "X")] []

/-- The command recorded by `replay::add_rename("X", loc)`. -/
def rename_command (loc : map_location) : config :=
  .mk [("async", .bool true)] [("rename", rename_target loc)]

/-- A chat command as `replay::speak` records it. -/
def speak_command : config :=
  .mk [("undo", .bool false)] [("speak", .mk [("message", .str "hello")] [])]

/-- The answer to a user choice as `replay::user_input` records it. -/
def choice_command : config :=
  .mk [("dependent", .bool true), ("from_side", .int 1)] [("choose", .mk [("value", .int 2)] [])]

/-- A replay object at the end of the given log, with no recorded chat offset. -/
def log_at_end (l : List config) : replay :=
  { base_ := { commands := l, pos := l.length }, message_locations := [] }

/-! ## Vocabulary for removal and extraction -/

/-- An offset after the removal of the command at `index`, as the specification
words it: decremented when it is greater than `index`, unchanged otherwise. -/
def shift_offset (index : Int) (loc : Int) : Int :=
  if index < loc then loc - 1 else loc

/-- The commands of the log at the indices `cmd_start <= i < cmd_end`. -/
def range_commands (r : replay) (cmd_start cmd_end : Nat) : List config :=
  (r.base_.commands.drop cmd_start).take (cmd_end - cmd_start)

/-- The `command` children of the document returned by `get_data_range`. -/
def returned_commands (res : Option (config × replay)) : Option (List config) :=
  res.map (fun p => p.1.child_range "command")

/-- The test of `get_data_range`:
`(data_type == ALL_DATA || !cc["undo"].to_bool(true)) && !cc["sent"].to_bool(false)`. -/
def data_range_selects (data_type : DATA_TYPE) (c : config) : Bool :=
  (decide (data_type = DATA_TYPE.ALL_DATA) || !c.undoable) && !c.is_sent

/-- A command of the log after `get_data_range` went over it: stamped
`sent=true` when it was selected in the mode `NON_UNDO_DATA`. -/
def data_range_marks (data_type : DATA_TYPE) (c : config) : config :=
  if data_type = DATA_TYPE.NON_UNDO_DATA ∧ data_range_selects data_type c = true then
    c.set "sent" (.bool true)
  else c

/-- The selection the specification words for the mode `UNDOABLE_UNSENT`: the
`undo` field is not false and the `sent` field is not true. -/
def undoable_unsent (c : config) : Bool := c.undoable && !c.is_sent

/-- The selection the mode `NON_UNDO_DATA` makes: the `undo` field is false and
the `sent` field is not true. -/
def not_undoable_unsent (c : config) : Bool := !c.undoable && !c.is_sent

/-- The test `!cc["sent"].to_bool(false)`. -/
def unsent (c : config) : Bool := !c.is_sent

/-- The replay object with another sequence of commands. -/
def replay.with_commands (r : replay) (l : List config) : replay :=
  { r with base_ := { r.base_ with commands := l } }

/-- A log `[start][speak][move, sent][speak]` whose second chat message was
recorded while the log was at its end (offset 3) and whose first chat message
was recorded afterwards, when the log was replayed from the start (offset 1). -/
def replayed_chat_log : replay :=
  { base_ := { commands := [start_command, speak_command, sent_move_command, speak_command],
               pos := 2 },
    message_locations := [3, 1] }

/-- A log `[start][speak][move][speak]` with the chat offsets in recording
order. -/
def chat_log : replay :=
  { base_ := { commands := [start_command, speak_command, move_command, speak_command],
               pos := 4 },
    message_locations := [1, 3] }

/-! ## Appending, inserting and seeking -/

/-- Modelled from the spec: `replay_recorder_base::add_child()`: a new empty
command is placed at the cursor, which is the end of the log for the callers
in `replay.cpp`, and the cursor advances. -/
def replay_recorder_base.add_child (b : replay_recorder_base) : replay_recorder_base :=
  { commands := b.commands.take b.pos ++ config.empty_config :: b.commands.drop b.pos,
    pos := b.pos + 1 }

/-- Modelled from the spec: `replay_recorder_base::insert_command(index)`: a new
empty command is placed at `index`; a cursor that stood behind that place moves
forward with its command. `none` for an index beyond the end of the log. -/
def replay_recorder_base.insert_command (b : replay_recorder_base) (index : Nat) :
    Option replay_recorder_base :=
  if index ≤ b.size then
    some { commands := b.commands.take index ++ config.empty_config :: b.commands.drop index,
           pos := if index < b.pos then b.pos + 1 else b.pos }
  else none

/-- Modelled from the spec: `replay_recorder_base::set_pos(pos)`. -/
def replay_recorder_base.set_pos (b : replay_recorder_base) (p : Nat) : replay_recorder_base :=
  { b with pos := p }

/-- `replay::add_command`; `none` is the failed assertion `at_end()`. The
reference it returns is the command at the index `cursor - 1` of the result. -/
def replay.add_command (r : replay) : Option replay :=
  match r.at_end with
  | some true => some ({ r with base_ := r.base_.add_child } : replay).set_to_end
  | _ => none

/-- `replay::add_nonundoable_command`. The reference it returns is the command
at the index `cursor - 1` of the result. -/
def replay.add_nonundoable_command (r : replay) : Option replay :=
  match r.base_.insert_command r.base_.get_pos with
  | none => none
  | some b =>
    let r1 : replay := { r with base_ := b }
    match r1.command r.base_.get_pos with
    | none => none
    | some c =>
      let r2 := r1.write_command r.base_.get_pos (c.set "undo" (.bool false))
      some { r2 with base_ := r2.base_.set_pos (r2.base_.get_pos + 1) }

/-- `replay::start_replay`. -/
def replay.start_replay (r : replay) : replay := { r with base_ := r.base_.set_pos 0 }

/-- `replay::revert_action`. -/
def replay.revert_action (r : replay) : replay :=
  if r.base_.get_pos > 0 then { r with base_ := r.base_.set_pos (r.base_.get_pos - 1) } else r

/-- `replay::get_next_action`: the command fetched, `none` for the null pointer
returned at the end of the log, and the replay object after the call. The outer
`none` is a failed assertion. -/
def replay.get_next_action (r : replay) : Option (Option config × replay) :=
  match r.at_end with
  | none => none
  | some true => some (none, r)
  | some false =>
    match r.command r.base_.get_pos with
    | none => none
    | some c => some (some c, { r with base_ := r.base_.set_pos (r.base_.get_pos + 1) })

/-- `replay::add_chat_message_location`. -/
def replay.add_chat_message_location (r : replay) : replay :=
  { r with message_locations := r.message_locations ++ [(r.base_.get_pos : Int) - 1] }

/-- `replay::speak(cfg)`. -/
def replay.speak (r : replay) (cfg : config) : Option replay :=
  match r.add_nonundoable_command with
  | none => none
  | some r1 =>
    match r1.command (r1.base_.get_pos - 1) with
    | none => none
    | some cmd =>
      some (r1.write_command (r1.base_.get_pos - 1) (cmd.add_child "speak" cfg)).add_chat_message_location

/-- `replay::user_input(name, input, from_side)`. -/
def replay.user_input (r : replay) (name : String) (input : config) (from_side : Int) :
    Option replay :=
  match r.add_command with
  | none => none
  | some r1 =>
    match r1.command (r1.base_.get_pos - 1) with
    | none => none
    | some cmd =>
      let cmd1 := cmd.set "dependent" (.bool true)
      let cmd2 := if from_side = -1 then cmd1.set "from_side" (.str "server")
        else cmd1.set "from_side" (.int from_side)
      some (r1.write_command (r1.base_.get_pos - 1) (cmd2.add_child name input))

/-- The second argument of `replay::add_config`. -/
inductive MARK_SENT where
  | MARK_AS_UNSENT
  | MARK_AS_SENT
deriving DecidableEq, Repr

/-- The loop of `replay::add_config` over the `command` children. -/
def add_config_loop (mark : MARK_SENT) : List config → replay → Option replay
  | [], r => some r
  | cmd :: rest, r =>
    match r.base_.insert_command r.base_.size with
    | none => none
    | some b =>
      let c := if mark = MARK_SENT.MARK_AS_SENT then cmd.set "sent" (.bool true) else cmd
      add_config_loop mark rest (({ r with base_ := b } : replay).write_command r.base_.size c)

/-- `replay::add_config(cfg, mark)`. -/
def replay.add_config (r : replay) (cfg : config) (mark : MARK_SENT) : Option replay :=
  add_config_loop mark (cfg.child_range "command") r

/-- The loop of `replay::redo` over the `command` children. -/
def redo_loop : List config → replay → replay
  | [], r => r
  | cmd :: rest, r =>
    redo_loop rest
      (({ r with base_ := r.base_.add_child } : replay).write_command r.base_.pos cmd)

/-- `replay::redo(cfg)`; `none` is the failed assertion. -/
def replay.redo (r : replay) (cfg : config) : Option replay :=
  if r.base_.get_pos = r.ncommands then
    some (redo_loop (cfg.child_range "command") r).set_to_end
  else none

/-- The operations on the log that `replay` offers. -/
inductive log_operation where
  | add_command
  | add_nonundoable_command
  | get_next_action
  | revert_action
  | start_replay
  | set_to_end
  | add_config (cfg : config) (mark : MARK_SENT)
  | redo (cfg : config)
  | undo_cut (dst : config)

/-- The replay object after an operation; `none` when the operation fails an
assertion. -/
def log_operation.apply (rl : config → List map_location) :
    log_operation → replay → Option replay
  | .add_command, r => r.add_command
  | .add_nonundoable_command, r => r.add_nonundoable_command
  | .get_next_action, r => r.get_next_action.map Prod.snd
  | .revert_action, r => some r.revert_action
  | .start_replay, r => some r.start_replay
  | .set_to_end, r => some r.set_to_end
  | .add_config cfg mark, r => r.add_config cfg mark
  | .redo cfg, r => r.redo cfg
  | .undo_cut dst, r => (r.undo_cut rl dst).map Prod.fst

/-- A sequence of operations, each of which succeeds. -/
def run_operations (rl : config → List map_location) :
    List log_operation → replay → Option replay
  | [], r => some r
  | op :: rest, r =>
    match op.apply rl r with
    | none => none
    | some r1 => run_operations rl rest r1

/-- The command that `replay::add_nonundoable_command` leaves at the cursor. -/
def nonundoable_command : config := config.mk [("undo", .bool false)] []

/-- A replay object with the given log and cursor and no recorded chat offset. -/
def log_with_cursor (l : List config) (p : Nat) : replay :=
  { base_ := { commands := l, pos := p }, message_locations := [] }

/-! ## The desync verifier -/

/-- Modelled from the spec: `attribute_value::to_size_t()`: the stored number as
a 64-bit unsigned value, and 0 for every value that is not a number. -/
def attribute_value.to_size_t (v : attribute_value) : Nat :=
  match v with
  | .int i => (i % 2 ^ 64).toNat
  | _ => 0

/-- Modelled from the spec: `attribute_value::to_int(def)`: the stored number,
and the default `d` for every value that is not a number. -/
def attribute_value.to_int (v : attribute_value) (d : Int) : Int :=
  match v with
  | .int i => i
  | _ => d

/-- Modelled from the spec: `unit_map` (unit_map.hpp is not under `src/`): the
local units by board location, each unit as the document `unit::write` gives. -/
abbrev unit_map := List (map_location × config)

/-- The out-of-sync reports: one constructor for each place where `replay.cpp`
calls `replay::process_error`, with the data that goes into the message. -/
inductive oos_error where
  | unit_count (data_source local_count : Nat) (only_in_data only_local : List map_location)
  | no_local_unit (loc : map_location)
  | field_mismatch (loc : map_location) (fields : List String)
  | init_side_in_choice
  | end_turn_in_choice
  | illegal_countdown (team value : Int)
  | dependent_unsynced
  | command_in_choice (commandname : String)
  | choice_expected (name : String)
  | side_invalid
  | unexpected_side (from_side : Int) (name : String)
  | duplicate_answer (from_side : Int) (name : String)
  | not_synced
deriving DecidableEq, Repr

/-- The two ways in which `verify` ends when `process_error` returns to it: it
returns, or it reads the unit behind the iterator `units.end()`. Both carry the
reports made so far. -/
inductive verify_outcome where
  | passed (errors : List oos_error)
  | invalid_access (errors : List oos_error)
deriving DecidableEq, Repr

/-- The array `fields` of `verify`. -/
def verified_fields : List String := ["type", "hitpoints", "experience", "side"]

/-- The second loop of `verify`, over the `unit` children of the digest. -/
def verify_units (units : unit_map) : List config → List oos_error → verify_outcome
  | [], errors => .passed errors
  | un :: rest, errors =>
    let loc := map_location.of_config un
    match units.lookup loc with
    | none => .invalid_access (errors ++ [oos_error.no_local_unit loc])
    | some u =>
      let wrong := verified_fields.filter (fun field => decide (u.get field ≠ un.get field))
      if wrong.isEmpty = false then
        verify_units units rest (errors ++ [oos_error.field_mismatch loc wrong])
      else verify_units units rest errors

/-- `verify(units, cfg)`: `errors` are the reports made before the call. -/
def verify (units : unit_map) (cfg : config) (errors : List oos_error) : verify_outcome :=
  let nunits := (cfg.get "num_units").to_size_t
  let locs := (cfg.child_range "unit").map map_location.of_config
  let errors1 :=
    if nunits ≠ units.length then
      errors ++ [oos_error.unit_count nunits units.length
        (locs.filter (fun loc => (units.lookup loc).isNone))
        ((units.map Prod.fst).filter (fun loc => decide (loc ∉ locs)))]
    else errors
  verify_units units (cfg.child_range "unit") errors1

/-- The number of reports that `verify` adds. -/
def verify_outcome.errors : verify_outcome → List oos_error
  | .passed e => e
  | .invalid_access e => e

/-- A local unit as `unit::write` gives it. -/
def sample_unit (type : String) (hitpoints : Int) : config :=
  .mk [("type", .str type), ("hitpoints", .int hitpoints), ("experience", .int 0),
    ("side", .int 1)] []

/-- An entry of a digest for a unit at `loc`. -/
def digest_unit (loc : map_location) (type : String) (hitpoints : Int) : config :=
  .mk [("x", .int (loc.x + 1)), ("y", .int (loc.y + 1)), ("type", .str type),
    ("hitpoints", .int hitpoints), ("experience", .int 0), ("side", .int 1)] []

/-- Two local units, at `loc_A` and at `loc_B`. -/
def sample_units : unit_map :=
  [(loc_A, sample_unit "Spearman" 36), (loc_B, sample_unit "Mage" 24)]

/-- A digest of two units. -/
def sample_digest (first second : config) : config :=
  .mk [("num_units", .int 2)] [("unit", first), ("unit", second)]

/-! ## The execution loop -/

/-- The collaborators of the execution loop and of the user-choice routine that
are outside `replay.cpp`, as far as their answers are read there. They are taken
not to change while a routine of `replay.cpp` runs. -/
structure collaborators where
  /-- `resources::controller->current_side()`. -/
  current_side : Int
  /-- `resources::teams->size()`. -/
  nteams : Nat
  /-- `resources::controller->is_skipping_replay()`. -/
  is_skipping_replay : Bool
  /-- `network::nconnections()`. -/
  nconnections : Nat
  /-- `(*resources::teams)[side-1].is_local()`. -/
  is_local : Int → Bool
  /-- `(*resources::teams)[side-1].is_idle()`. -/
  is_idle : Int → Bool
  /-- `(*resources::teams)[side-1].is_empty()`. -/
  is_empty : Int → Bool
  /-- `uch.query_user(side)`. -/
  query_user : Int → config
  /-- `uch.random_choice(side)`. -/
  random_choice : Int → config
  /-- The units after `synced_context::run(commandname, data, ...)`. -/
  run_synced : String → config → unit_map → unit_map
  /-- The units after `resources::controller->do_init_side()`. -/
  do_init_side : unit_map → unit_map
  /-- `resources::controller->is_regular_game_end()`. -/
  is_regular_game_end : unit_map → Bool

/-- The calls to collaborators that have an effect outside the log. -/
inductive display_event where
  | add_chat_message (speak : config)
  | set_label (label : config)
  | clear_labels (child : config)
  | rename (loc : map_location) (name : attribute_value)
  | do_init_side
  | set_countdown_time (team value : Int)
  | synced_run (commandname : String) (data : config)
  | send_user_choice
  | pull_remote_user_input

/-- The calls to the resolver of a user choice. -/
inductive resolver_call where
  | query_user (side : Int)
  | random_choice (side : Int)
deriving DecidableEq, Repr

/-- The state that the execution loop and the user-choice routine work on: the
recorder, the local units, the flags of `synced_context`, what was reported,
verified, shown and asked so far, and the batches of commands that the network
layer has still to hand over. -/
structure game_state where
  recorder : replay
  units : unit_map
  is_synced : Bool
  is_simultaneously : Bool
  oos_errors : List oos_error
  verified : List config
  events : List display_event
  resolver_calls : List resolver_call
  incoming : List config

/-- `replay::process_error(msg)`, taken to return to its caller. -/
def game_state.process_error (s : game_state) (e : oos_error) : game_state :=
  { s with oos_errors := s.oos_errors ++ [e] }

/-- A call to a collaborator with an effect outside the log. -/
def game_state.emit (s : game_state) (e : display_event) : game_state :=
  { s with events := s.events ++ [e] }

/-- A call `verify(*resources::units, child)`; `none` when `verify` reads behind
the end of the unit map. -/
def game_state.verify (s : game_state) (child : config) : Option game_state :=
  match Replay.verify s.units child s.oos_errors with
  | .passed errors => some { s with oos_errors := errors, verified := s.verified ++ [child] }
  | .invalid_access _ => none

/-- The statement `if (const config &child = cfg->child("verify")) verify(...)`. -/
def game_state.verify_embedded (s : game_state) (cfg : config) : Option game_state :=
  match cfg.child "verify" with
  | some child => s.verify child
  | none => some s

/-- The values that `do_replay_handle` returns. -/
inductive REPLAY_RETURN where
  | REPLAY_RETURN_AT_END
  | REPLAY_FOUND_DEPENDENT
  | REPLAY_FOUND_END_TURN
  | REPLAY_FOUND_END_MOVE
  | REPLAY_FOUND_END_LEVEL
deriving DecidableEq, Repr

/-- How the chain of `if` and `else if` in the loop body of `do_replay_handle`
ends for one command: at the `verify` statement that closes the body, with
`continue`, or with `return`. -/
inductive branch_result where
  | fall_through (s : game_state)
  | continue_loop (s : game_state)
  | return_value (ret : REPLAY_RETURN) (s : game_state)

/-- The test `speaker_name.find("whisper: ") == 0`. -/
def is_whisper (speak : config) : Bool :=
  match speak.get "id" with
  | .str id => "whisper: ".toList.isPrefixOf id.toList
  | _ => false

/-- The unit map after `u->rename(name)` for the unit at `loc`. -/
def rename_unit (loc : map_location) (name : attribute_value) : unit_map → unit_map
  | [] => []
  | (l, u) :: rest =>
    if l = loc then (l, u.set "name" name) :: rest else (l, u) :: rename_unit loc name rest

/-- The chain of `if` and `else if` in the loop body of `do_replay_handle`, for
the command `cfg` that `get_next_action` has fetched. `none` is a failed
assertion or an invalid access. -/
def do_replay_branch (env : collaborators) (one_move : Bool) (cfg : config) (s : game_state) :
    Option branch_result :=
  if cfg.children.isEmpty = true ∨ (cfg.child "start").isSome = true then
    some (.fall_through s)
  else
    match cfg.child "speak" with
    | some child =>
      let s1 := { s with recorder := s.recorder.add_chat_message_location }
      if env.is_skipping_replay = false ∨ is_whisper child = true then
        some (.fall_through (s1.emit (.add_chat_message child)))
      else some (.fall_through s1)
    | none =>
    match cfg.child "label" with
    | some child => some (.fall_through (s.emit (.set_label child)))
    | none =>
    match cfg.child "clear_labels" with
    | some child => some (.fall_through (s.emit (.clear_labels child)))
    | none =>
    match cfg.child "rename" with
    | some child =>
      let loc := map_location.of_config child
      match s.units.lookup loc with
      | some u =>
        if (u.get "unrenamable").to_bool false = false then
          some (.fall_through
            ({ s with units := rename_unit loc (child.get "name") s.units }.emit
              (.rename loc (child.get "name"))))
        else some (.fall_through s)
      | none => some (.fall_through s)
    | none =>
    if (cfg.child "init_side").isSome = true then
      if s.is_synced = true then
        let s1 := s.process_error .init_side_in_choice
        some (.return_value .REPLAY_FOUND_DEPENDENT
          { s1 with recorder := s1.recorder.revert_action })
      else
        some (.fall_through
          ({ s with units := env.do_init_side s.units }.emit .do_init_side))
    else if (cfg.child "end_turn").isSome = true then
      if s.is_synced = true then
        let s1 := s.process_error .end_turn_in_choice
        some (.return_value .REPLAY_FOUND_DEPENDENT
          { s1 with recorder := s1.recorder.revert_action })
      else
        match s.verify_embedded cfg with
        | none => none
        | some s1 => some (.return_value .REPLAY_FOUND_END_TURN s1)
    else
    match cfg.child "countdown_update" with
    | some child =>
      let val := (child.get "value").to_int 0
      let tval := (child.get "team").to_int 0
      if tval ≤ 0 ∨ tval > (env.nteams : Int) then
        some (.fall_through (s.process_error (.illegal_countdown tval val)))
      else some (.fall_through (s.emit (.set_countdown_time tval val)))
    | none =>
    if (cfg.get "dependent").to_bool false = true then
      if s.is_synced = false then
        some (.continue_loop (s.process_error .dependent_unsynced))
      else if cfg.children.length ≠ 1 then none
      else
        some (.return_value .REPLAY_FOUND_DEPENDENT
          { s with recorder := s.recorder.revert_action })
    else
      match cfg.children.head? with
      | none => none
      | some (commandname, data) =>
        if s.is_synced = true then
          let s1 := s.process_error (.command_in_choice commandname)
          some (.return_value .REPLAY_FOUND_DEPENDENT
            { s1 with recorder := s1.recorder.revert_action })
        else
          let s1 := { s with units := env.run_synced commandname data s.units }.emit
            (.synced_run commandname data)
          if env.is_regular_game_end s1.units = true then
            some (.return_value .REPLAY_FOUND_END_LEVEL s1)
          else if one_move = true then some (.return_value .REPLAY_FOUND_END_MOVE s1)
          else some (.fall_through s1)

/-- The loop `while(true)` of `do_replay_handle`; `fuel` bounds the number of
commands fetched. -/
def do_replay_handle_loop (env : collaborators) (one_move : Bool) :
    Nat → game_state → Option (REPLAY_RETURN × game_state)
  | 0, _ => none
  | fuel + 1, s =>
    match s.recorder.get_next_action with
    | none => none
    | some (none, _) => some (.REPLAY_RETURN_AT_END, s)
    | some (some cfg, rec1) =>
      match do_replay_branch env one_move cfg { s with recorder := rec1 } with
      | none => none
      | some (.return_value ret s1) => some (ret, s1)
      | some (.continue_loop s1) => do_replay_handle_loop env one_move fuel s1
      | some (.fall_through s1) =>
        match s1.verify_embedded cfg with
        | none => none
        | some s2 => do_replay_handle_loop env one_move fuel s2

/-- `do_replay_handle(one_move)`. Every turn of its loop that does not return
fetches one command, and the collaborators add none, so the number of commands
from the cursor to the end of the log bounds the number of turns. -/
def do_replay_handle (env : collaborators) (one_move : Bool) (s : game_state) :
    Option (REPLAY_RETURN × game_state) :=
  do_replay_handle_loop env one_move (s.recorder.ncommands - s.recorder.base_.get_pos + 1) s

/-- What the execution loop never changes: the flags of `synced_context`, the
calls made to the resolver and the batches waiting in the network layer. -/
@[reducible] def game_state.same_context (s s1 : game_state) : Prop :=
  s1.is_synced = s.is_synced ∧ s1.is_simultaneously = s.is_simultaneously
    ∧ s1.resolver_calls = s.resolver_calls ∧ s1.incoming = s.incoming

/-- The calls `get_next_action()` and then `revert_action()`. -/
def fetch_then_revert (r : replay) : Option replay :=
  r.get_next_action.map (fun p => p.2.revert_action)

/-- The cursor after `get_next_action()` and then `revert_action()`. -/
def cursor_after_fetch_then_revert (r : replay) : Option Nat :=
  (fetch_then_revert r).map (fun r1 => r1.base_.pos)

/-- Collaborators for the samples: two sides, both occupied, local and not idle;
the resolver answers with the number of the side. -/
def sample_env : collaborators :=
  { current_side := 1
    nteams := 2
    is_skipping_replay := false
    nconnections := 0
    is_local := fun _ => true
    is_idle := fun _ => false
    is_empty := fun _ => false
    query_user := fun side => .mk [("value", .int side)] []
    random_choice := fun _ => .mk [("value", .int 0)] []
    run_synced := fun _ _ units => units
    do_init_side := fun units => units
    is_regular_game_end := fun _ => false }

/-- A state of the game around the replay object `r`, with the sample units and
nothing reported, verified, shown or asked yet. -/
def game_at (r : replay) (synced : Bool) : game_state :=
  { recorder := r
    units := sample_units
    is_synced := synced
    is_simultaneously := false
    oos_errors := []
    verified := []
    events := []
    resolver_calls := []
    incoming := [] }

/-! ## User-choice synchronization -/

/-- The assignment `retv[side] = value` on a `std::map<int, config>`, which is
kept in ascending order of its keys. -/
def map_insert : List (Int × config) → Int → config → List (Int × config)
  | [], side, value => [(side, value)]
  | (k, v) :: rest, side, value =>
    if side < k then (side, value) :: (k, v) :: rest
    else if side = k then (side, value) :: rest
    else (k, v) :: map_insert rest side value

/-- The loop of `get_user_choice_internal` that looks for a side in `sides` that
has no answer yet and is local and not idle: that side, or 0. -/
def find_local_side (env : collaborators) (retv : List (Int × config)) : List Int → Int
  | [] => 0
  | side :: rest =>
    if (retv.lookup side).isNone = true ∧ env.is_local side = true ∧ env.is_idle side = false then
      side
    else find_local_side env retv rest

/-- The loop of the fallback of `get_user_choice_internal`: every side that has
no answer yet gets the answer of `uch.query_user(side)`. -/
def query_missing_sides (env : collaborators) :
    List Int → List (Int × config) → game_state → List (Int × config) × game_state
  | [], retv, s => (retv, s)
  | side :: rest, retv, s =>
    if (retv.lookup side).isNone = true then
      query_missing_sides env rest (map_insert retv side (env.query_user side))
        { s with resolver_calls := s.resolver_calls ++ [resolver_call.query_user side] }
    else query_missing_sides env rest retv s

/-- The collaborator `synced_context::pull_remote_user_input()`: the network
layer hands over the next batch of commands, if it has one, through
`replay::add_config(cfg, MARK_AS_SENT)`. -/
def game_state.pull_remote_user_input (s : game_state) : Option game_state :=
  match s.incoming with
  | [] => some (s.emit .pull_remote_user_input)
  | batch :: rest =>
    match s.recorder.add_config batch MARK_SENT.MARK_AS_SENT with
    | none => none
    | some r => some ({ s with recorder := r, incoming := rest }.emit .pull_remote_user_input)

/-- The loop `while(retv.size() != sides.size())` of `get_user_choice_internal`;
`fuel` bounds the number of its turns, which the source does not bound (it
polls for as long as a remote answer is missing). `sides` is the set of sides
in ascending order. The guard `leave_synced_context` of the local choice has no
effect that outlasts its scope and is left out. `do_replay_handle()` is called
without argument; its default `one_move = false` is declared in replay.hpp,
which is not under `src/`. -/
def get_user_choice_loop (env : collaborators) (name : String) (sides : List Int) :
    Nat → List (Int × config) → game_state → Option (List (Int × config) × game_state)
  | 0, _, _ => none
  | fuel + 1, retv, s =>
    if retv.length = sides.length then some (retv, s)
    else
      match do_replay_handle env false s with
      | none => none
      | some (_, s1) =>
        let local_side := find_local_side env retv sides
        match s1.recorder.at_end with
        | none => none
        | some true =>
          if local_side ≠ 0 then
            let cfg := env.query_user local_side
            let s2 := { s1 with resolver_calls :=
              s1.resolver_calls ++ [resolver_call.query_user local_side] }
            match s2.recorder.user_input name cfg local_side with
            | none => none
            | some r =>
              let s3 := { s2 with recorder := r }
              let s4 := if s3.is_simultaneously = true ∨ env.current_side ≠ local_side then
                  s3.emit .send_user_choice else s3
              get_user_choice_loop env name sides fuel (map_insert retv local_side cfg) s4
          else if env.nconnections = 0 then none
          else
            match s1.pull_remote_user_input with
            | none => none
            | some s2 => get_user_choice_loop env name sides fuel retv s2
        | some false =>
          match s1.recorder.get_next_action with
          | none => none
          | some (none, _) => none
          | some (some action, r) =>
            let s2 := { s1 with recorder := r }
            if (action.child name).isSome = false ∨ (action.get "dependent").to_bool false = false
            then
              let s3 := s2.process_error (.choice_expected name)
              let s4 := { s3 with recorder := s3.recorder.revert_action }
              some (query_missing_sides env sides retv s4)
            else
              let from_side := (action.get "from_side").to_int 0
              let s3 := if (action.get "side_invalid").to_bool false = true then
                  s2.process_error .side_invalid else s2
              if from_side ∉ sides then
                get_user_choice_loop env name sides fuel retv
                  (s3.process_error (.unexpected_side from_side name))
              else
                let s4 := if (retv.lookup from_side).isSome = true then
                    s3.process_error (.duplicate_answer from_side name) else s3
                match action.child name with
                | none => none
                | some value =>
                  get_user_choice_loop env name sides fuel (map_insert retv from_side value) s4

/-- `get_user_choice_internal(name, uch, sides)`, with the bound `fuel` on the
turns of its loop; `none` is a failed assertion or an exhausted bound. -/
def get_user_choice_internal (fuel : Nat) (env : collaborators) (name : String)
    (sides : List Int) (s : game_state) : Option (List (Int × config) × game_state) :=
  if sides.all (fun side => decide (1 ≤ side ∧ side ≤ (env.nteams : Int))
      && !env.is_empty side) = false then none
  else
    let contains_other_side :=
      !sides.isEmpty && (sides.length != 1 || !sides.contains env.current_side)
    let s1 := if contains_other_side = true then { s with is_simultaneously := true } else s
    get_user_choice_loop env name sides fuel [] s1

/-! ## Vocabulary for user choices -/

/-- The command that `replay::user_input(name, input, side)` records for a side
other than the server. -/
def user_input_command (name : String) (input : config) (side : Int) : config :=
  config.mk [("dependent", .bool true), ("from_side", .int side)] [(name, input)]

/-- The command `c` is a recorded answer of `side` to the decision `name`, with
the value `value`: it is dependent, its `from_side` is `side`, and `value` is its
child named `name`. -/
def logged_answer (name : String) (side : Int) (value : config) (c : config) : Prop :=
  (c.get "dependent").to_bool false = true
    ∧ (c.get "from_side").to_int 0 = side
    ∧ c.child name = some value

/-- A chat or label command as `replay::speak`, `replay::add_label` and
`replay::clear_labels` record it: its one child is named `speak`, `label` or
`clear_labels`. -/
def is_chat_command (c : config) : Bool :=
  decide (c.children.map Prod.fst = ["speak"] ∨ c.children.map Prod.fst = ["label"]
    ∨ c.children.map Prod.fst = ["clear_labels"])

/-- The names of the commands that the execution loop consumes in synced mode
without looking at the field `dependent`. -/
def consumed_names : List String :=
  ["start", "speak", "label", "clear_labels", "rename", "countdown_update"]

/-- A stretch of the log that a resolution reads in one turn of its loop: chat
commands, and then the answer of `side` with the value `value`. -/
structure answer_segment where
  chats : List config
  answer : config
  side : Int
  value : config

/-- The stretch is well formed for the decision `name` and the requested
`sides`: chat commands, then a dependent command whose one child is `value`
under the name `name`, from a requested side. -/
def answer_segment.well_formed (name : String) (sides : List Int) (g : answer_segment) : Prop :=
  (∀ c ∈ g.chats, is_chat_command c = true)
    ∧ g.answer.children = [(name, g.value)]
    ∧ (g.answer.get "dependent").to_bool false = true
    ∧ (g.answer.get "from_side").to_int 0 = g.side
    ∧ g.side ∈ sides

/-- The commands of a sequence of stretches. -/
def segments_log : List answer_segment → List config
  | [] => []
  | g :: gs => g.chats ++ g.answer :: segments_log gs

/-- The mapping after the answers of the stretches have been recorded in it, one
after the other. -/
def answers_map : List (Int × config) → List answer_segment → List (Int × config)
  | retv, [] => retv
  | retv, g :: gs => answers_map (map_insert retv g.side g.value) gs

/-- The resolution reads all the stretches: before each of them an answer is
still missing in the mapping, and after the last one none is. -/
def reads_all (n : Nat) : List (Int × config) → List answer_segment → Prop
  | retv, [] => retv.length = n
  | retv, g :: gs => retv.length ≠ n ∧ reads_all n (map_insert retv g.side g.value) gs

/-- The mapping that `get_user_choice_internal` returns. -/
def returned_choices (res : Option (List (Int × config) × game_state)) :
    Option (List (Int × config)) :=
  res.map Prod.fst

/-- The log after `get_user_choice_internal`. -/
def log_after (res : Option (List (Int × config) × game_state)) : Option (List config) :=
  res.map (fun p => p.2.recorder.base_.commands)

/-- The out-of-sync reports after `get_user_choice_internal`. -/
def errors_after (res : Option (List (Int × config) × game_state)) : Option (List oos_error) :=
  res.map (fun p => p.2.oos_errors)

/-- The calls to the resolver after `get_user_choice_internal`. -/
def resolver_calls_after (res : Option (List (Int × config) × game_state)) :
    Option (List resolver_call) :=
  res.map (fun p => p.2.resolver_calls)

/-- An answer of `side` to the decision `name` with the value `value`, as
`replay::user_input` records it. -/
def sample_answer (name : String) (side value : Int) : config :=
  user_input_command name (.mk [("value", .int value)] []) side

/-- The replay object with other recorded chat offsets. -/
def replay.with_offsets (r : replay) (l : List Int) : replay :=
  { r with message_locations := l }

/-- The reports of a second answer that are due while the answers of the
stretches are recorded in the mapping, one after the other. -/
def duplicate_reports (name : String) :
    List (Int × config) → List answer_segment → List oos_error
  | _, [] => []
  | retv, g :: gs =>
    (if (retv.lookup g.side).isSome = true then [oos_error.duplicate_answer g.side name] else [])
      ++ duplicate_reports name (map_insert retv g.side g.value) gs

/-- The stretch of the samples: the given chat commands and then the answer of
`side` to the decision `choose` with the value `value`. -/
def sample_segment (chats : List config) (side value : Int) : answer_segment :=
  { chats := chats
    answer := sample_answer "choose" side value
    side := side
    value := .mk [("value", .int value)] [] }

/-- Every pair of the mapping is present among the commands as a recorded
answer to the decision `name`. -/
def answers_logged (name : String) (retv : List (Int × config)) (commands : List config) :
    Prop :=
  ∀ p ∈ retv, ∃ c ∈ commands, logged_answer name p.1 p.2 c

/-! ## Undo: the unhandled branch -/

/-- The condition under which the chain of tests in the repair loop of
`replay::undo_cut` ends in its last `else`, the one that logs "Coudn't handle
command": for the command `c` at index `i`, `undo` is not false, `async` is not
set, and neither is `dependent` set nor is `i` the index of the undone command. -/
def reaches_final_else (cmd_index i : Nat) (c : config) : Bool :=
  (c.get "undo").to_bool true && !(c.get "async").to_bool false
    && !((c.get "dependent").to_bool false || i == cmd_index)

/-- The indices at which the second loop of `replay::undo_cut` takes its last
`else`: the loop of `undo_fix` with the same steps, which notes the index of
every iteration whose command `reaches_final_else`. -/
def undo_fix_unhandled (read_locations : config → List map_location) (cmd_index : Nat) :
    Nat → replay → config → List Nat
  | 0, _, _ => []
  | m + 1, r, dst =>
    let here :=
      match r.command (cmd_index + m) with
      | some c => if reaches_final_else cmd_index (cmd_index + m) c = true then [cmd_index + m] else []
      | none => []
    match undo_fix_step read_locations cmd_index (cmd_index + m) r dst with
    | none => here
    | some (r1, dst1) => here ++ undo_fix_unhandled read_locations cmd_index m r1 dst1

/-- The indices at which a call `replay::undo_cut(dst)` takes the last `else` of
its repair loop; the control flow before that loop is the one of `undo_cut`. -/
def replay.undo_cut_unhandled (read_locations : config → List map_location) (r : replay)
    (dst : config) : List Nat :=
  if dst.empty = false then []
  else
    match r.at_end with
    | none => []
    | some false => []
    | some true =>
      match undo_scan r r.ncommands with
      | none => []
      | some .already_sent => []
      | some .no_command => []
      | some (.found cmd_index) =>
        undo_fix_unhandled read_locations cmd_index (r.ncommands - cmd_index) r dst


/-! ## Vocabulary for embedded verification -/

/-- The chain of tests of the loop body of `do_replay_handle` up to its branch
for dependent commands: the command has children, none of them is a `start`,
`speak`, `label`, `clear_labels`, `rename`, `init_side`, `end_turn` or
`countdown_update`, and its attribute `dependent` is set. -/
def reaches_dependent_branch (cfg : config) : Bool :=
  !(cfg.children.isEmpty || (cfg.child "start").isSome)
    && (cfg.child "speak").isNone && (cfg.child "label").isNone
    && (cfg.child "clear_labels").isNone && (cfg.child "rename").isNone
    && (cfg.child "init_side").isNone && (cfg.child "end_turn").isNone
    && (cfg.child "countdown_update").isNone && (cfg.get "dependent").to_bool false

/-- The `verify` children of the commands of `l` that do not go to the branch
for dependent commands, in the order of `l`. -/
def verify_blocks (l : List config) : List config :=
  l.filterMap (fun c => if reaches_dependent_branch c = true then none else c.child "verify")

/-- The index behind the last command that a run of the loop has passed when it
returns `ret` in the state `s1`: the cursor, and the index before the cursor
when the loop returns on a synced action with `REPLAY_FOUND_END_MOVE` or
`REPLAY_FOUND_END_LEVEL`. After `REPLAY_FOUND_DEPENDENT` the cursor stands on
the command that caused the return, which so is not passed. -/
def passed_end (ret : REPLAY_RETURN) (s1 : game_state) : Nat :=
  if ret = REPLAY_RETURN.REPLAY_FOUND_END_MOVE ∨ ret = REPLAY_RETURN.REPLAY_FOUND_END_LEVEL then
    s1.recorder.base_.pos - 1
  else s1.recorder.base_.pos

/-- The commands that a run of the loop from the state `s` has passed when it
returns `ret` in the state `s1`. -/
def passed_commands (s : game_state) (ret : REPLAY_RETURN) (s1 : game_state) : List config :=
  (s.recorder.base_.commands.drop s.recorder.base_.pos).take
    (passed_end ret s1 - s.recorder.base_.pos)

/-- A digest that agrees with the sample units. -/
def agreeing_digest : config :=
  sample_digest (digest_unit loc_A "Spearman" 36) (digest_unit loc_B "Mage" 24)

/-- An answer to a user choice that carries a `verify` child. -/
def verified_choice_command : config :=
  .mk [("dependent", .bool true), ("from_side", .int 1)]
    [("choose", .mk [("value", .int 2)] []), ("verify", agreeing_digest)]

/-- An end of turn that carries a `verify` child. -/
def verified_end_turn_command : config :=
  .mk [] [("end_turn", config.empty_config), ("verify", agreeing_digest)]

/-- A chat command that carries a `verify` child. -/
def verified_speak_command : config :=
  .mk [("undo", .bool false)]
    [("speak", .mk [("message", .str "hello")] []), ("verify", agreeing_digest)]


/-! ## Vocabulary for termination -/

/-- The number of commands that a run of the loop of `do_replay_handle`
fetches: the loop of `do_replay_handle_loop` with the same steps, which counts
the calls of `get_next_action` that return a command. -/
def do_replay_handle_fetches (env : collaborators) (one_move : Bool) :
    Nat → game_state → Nat
  | 0, _ => 0
  | fuel + 1, s =>
    match s.recorder.get_next_action with
    | none => 0
    | some (none, _) => 0
    | some (some cfg, rec1) =>
      match do_replay_branch env one_move cfg { s with recorder := rec1 } with
      | none => 1
      | some (.return_value _ _) => 1
      | some (.continue_loop s1) => 1 + do_replay_handle_fetches env one_move fuel s1
      | some (.fall_through s1) =>
        match s1.verify_embedded cfg with
        | none => 1
        | some s2 => 1 + do_replay_handle_fetches env one_move fuel s2

/-- The one-step rewind of the cursor that precedes the return of
`REPLAY_FOUND_DEPENDENT`, counted in steps of the cursor. -/
def rewind_steps (ret : REPLAY_RETURN) : Nat :=
  if ret = REPLAY_RETURN.REPLAY_FOUND_DEPENDENT then 1 else 0

/-- An answer to a user choice that carries a second child. -/
def choice_with_checksum_command : config :=
  .mk [("dependent", .bool true), ("from_side", .int 1)]
    [("choose", .mk [("value", .int 2)] []), ("checksum", config.empty_config)]

/-- The number of commands that `do_replay_handle(one_move)` fetches. -/
def do_replay_handle_fetch_count (env : collaborators) (one_move : Bool) (s : game_state) : Nat :=
  do_replay_handle_fetches env one_move
    (s.recorder.ncommands - s.recorder.base_.get_pos + 1) s

/-- The values that the cursor takes during a run of the loop of
`do_replay_handle`: the loop of `do_replay_handle_loop` with the same steps,
which notes the cursor after every call of `get_next_action` and after every
turn of the loop body. -/
def do_replay_handle_cursors (env : collaborators) (one_move : Bool) :
    Nat → game_state → List Nat
  | 0, _ => []
  | fuel + 1, s =>
    match s.recorder.get_next_action with
    | none => []
    | some (none, rec1) => [rec1.base_.pos]
    | some (some cfg, rec1) =>
      rec1.base_.pos ::
        match do_replay_branch env one_move cfg { s with recorder := rec1 } with
        | none => []
        | some (.return_value _ s1) => [s1.recorder.base_.pos]
        | some (.continue_loop s1) =>
          s1.recorder.base_.pos :: do_replay_handle_cursors env one_move fuel s1
        | some (.fall_through s1) =>
          match s1.verify_embedded cfg with
          | none => [s1.recorder.base_.pos]
          | some s2 => s2.recorder.base_.pos :: do_replay_handle_cursors env one_move fuel s2

/-- The values that the cursor takes during `do_replay_handle(one_move)`. -/
def do_replay_handle_cursor_trace (env : collaborators) (one_move : Bool) (s : game_state) :
    List Nat :=
  do_replay_handle_cursors env one_move
    (s.recorder.ncommands - s.recorder.base_.get_pos + 1) s


/-- The chain of tests of the loop body of `do_replay_handle` up to the call of
the verifier in its branch for `end_turn`: the command has children, none of
them is a `start`, `speak`, `label`, `clear_labels`, `rename` or `init_side`,
one of them is an `end_turn`, and the mode is unsynced. -/
def reaches_end_turn_verify (cfg : config) (s : game_state) : Bool :=
  !(cfg.children.isEmpty || (cfg.child "start").isSome)
    && (cfg.child "speak").isNone && (cfg.child "label").isNone
    && (cfg.child "clear_labels").isNone && (cfg.child "rename").isNone
    && (cfg.child "init_side").isNone && (cfg.child "end_turn").isSome
    && !s.is_synced

/-- Whether every call of the verifier that a run of the loop of
`do_replay_handle` makes returns: the loop of `do_replay_handle_loop` with the
same steps, which looks at the call in the branch for `end_turn` and at the
call in the statement that closes the loop body, each with the units and the
reports as they are at that moment of the run. -/
def verifier_calls_return (env : collaborators) (one_move : Bool) :
    Nat → game_state → Bool
  | 0, _ => true
  | fuel + 1, s =>
    match s.recorder.get_next_action with
    | none => true
    | some (none, _) => true
    | some (some cfg, rec1) =>
      (!reaches_end_turn_verify cfg { s with recorder := rec1 }
          || (({ s with recorder := rec1 } : game_state).verify_embedded cfg).isSome)
        && match do_replay_branch env one_move cfg { s with recorder := rec1 } with
          | none => true
          | some (.return_value _ _) => true
          | some (.continue_loop s1) => verifier_calls_return env one_move fuel s1
          | some (.fall_through s1) =>
            match s1.verify_embedded cfg with
            | none => false
            | some s2 => verifier_calls_return env one_move fuel s2

/-- Whether every call of the verifier that `do_replay_handle(one_move)` makes
returns. -/
def do_replay_handle_verifier_returns (env : collaborators) (one_move : Bool)
    (s : game_state) : Bool :=
  verifier_calls_return env one_move
    (s.recorder.ncommands - s.recorder.base_.get_pos + 1) s

/-- An end of turn whose digest names a unit at a location
where there is no local unit. -/
def missing_unit_end_turn_command : config :=
  .mk [] [("end_turn", config.empty_config),
    ("verify", .mk [("num_units", .int 2)] [("unit", digest_unit ⟨9, 9⟩ "Mage" 24)])]

/-! ## User choices of several sides -/

/-- The last loop of `get_user_choice_multiple_sides`: for every empty side the
assignment `retv[side] = uch.random_choice(side)`. -/
def random_choices (env : collaborators) :
    List Int → List (Int × config) → game_state → List (Int × config) × game_state
  | [], retv, s => (retv, s)
  | side :: rest, retv, s =>
    random_choices env rest (map_insert retv side (env.random_choice side))
      { s with resolver_calls := s.resolver_calls ++ [resolver_call.random_choice side] }

/-- `mp_sync::get_user_choice_multiple_sides(name, uch, sides)`, with the bound
`fuel` on the turns of the loop of `get_user_choice_internal`. `sides` is the
set of sides in ascending order; the set `empty_sides` and the set that is left
after its members are erased are the two parts of `sides`. `none` is a failed
assertion or an exhausted bound. -/
def get_user_choice_multiple_sides (fuel : Nat) (env : collaborators) (name : String)
    (sides : List Int) (s : game_state) : Option (List (Int × config) × game_state) :=
  if s.is_synced = false then some ([], s.process_error .not_synced)
  else if sides.all (fun side => decide (1 ≤ side ∧ side ≤ (env.nteams : Int))) = false then none
  else
    let empty_sides := sides.filter (fun side => env.is_empty side)
    let sides1 := sides.filter (fun side => !env.is_empty side)
    match get_user_choice_internal fuel env name sides1 s with
    | none => none
    | some (retv, s1) => some (random_choices env empty_sides retv s1)

/-- The command `c` has come from the network layer: it is a `command` child of
one of the waiting batches, marked as sent by `replay::add_config`. -/
def handed_over (incoming : List config) (c : config) : Prop :=
  ∃ batch ∈ incoming, ∃ cmd ∈ batch.child_range "command", c = cmd.set "sent" (.bool true)

/-- What a resolution for `sides` may have done between the states `s` and
`s1`: the log has grown at its end by recorded answers of the resolver for
sides of `sides` and by commands from the network layer, the resolver has been
asked for sides of `sides` only, and no batch has been added to the waiting
ones. -/
def resolution_progress (env : collaborators) (name : String) (sides : List Int)
    (s s1 : game_state) : Prop :=
  (∃ extra, s1.recorder.base_.commands = s.recorder.base_.commands ++ extra
      ∧ ∀ c ∈ extra, (∃ side ∈ sides, c = user_input_command name (env.query_user side) side)
          ∨ handed_over s.incoming c)
    ∧ (∃ calls, s1.resolver_calls = s.resolver_calls ++ calls
        ∧ ∀ call ∈ calls, ∃ side ∈ sides, call = resolver_call.query_user side)
    ∧ (∀ batch ∈ s1.incoming, batch ∈ s.incoming)

/-- Collaborators for the samples in which the side 2 is empty. -/
def sample_env_empty_side : collaborators :=
  { current_side := 1
    nteams := 2
    is_skipping_replay := false
    nconnections := 0
    is_local := fun _ => true
    is_idle := fun _ => false
    is_empty := fun side => decide (side = 2)
    query_user := fun side => .mk [("value", .int side)] []
    random_choice := fun _ => .mk [("value", .int 0)] []
    run_synced := fun _ _ units => units
    do_init_side := fun units => units
    is_regular_game_end := fun _ => false }


/-! ## The network sender -/

/-- The state around a `replay_network_sender`: the replay object `obj_` it
refers to, its checkpoint `upto_`, and the documents that it has handed to
`network::send_data`, in their order. -/
structure replay_network_sender where
  obj_ : replay
  upto_ : Nat
  sent_data : List config

/-- The constructor `replay_network_sender(obj)`. -/
def replay_network_sender.create (obj : replay) : replay_network_sender :=
  { obj_ := obj, upto_ := obj.ncommands, sent_data := [] }

/-- The document `cfg` that the sender builds around the result of
`get_data_range`: `cfg.add_child("turn", data)`. -/
def turn_document (data : config) : config := config.empty_config.add_child "turn" data

/-- `replay_network_sender::sync_non_undoable()`. The call
`resources::whiteboard->send_network_data()` does not touch the log and is left
out. `none` is a failed assertion of `get_data_range`. -/
def replay_network_sender.sync_non_undoable (env : collaborators) (st : replay_network_sender) :
    Option replay_network_sender :=
  if env.nconnections > 0 then
    match st.obj_.get_data_range st.upto_ st.obj_.ncommands DATA_TYPE.NON_UNDO_DATA with
    | none => none
    | some (data, r) =>
      some { obj_ := r
             upto_ := st.upto_
             sent_data := if data.empty = false then st.sent_data ++ [turn_document data]
               else st.sent_data }
  else some st

/-- `replay_network_sender::commit_and_sync()`. It calls `get_data_range`
without a third argument; the default `ALL_DATA` is declared in replay.hpp,
which is not under `src/`. -/
def replay_network_sender.commit_and_sync (env : collaborators) (st : replay_network_sender) :
    Option replay_network_sender :=
  if env.nconnections > 0 then
    match st.obj_.get_data_range st.upto_ st.obj_.ncommands DATA_TYPE.ALL_DATA with
    | none => none
    | some (data, r) =>
      some { obj_ := r
             upto_ := r.ncommands
             sent_data := if data.empty = false then st.sent_data ++ [turn_document data]
               else st.sent_data }
  else some st

/-- What happens during the life of a sender: a call of one of its two member
functions, or the game records a command, by which the log grows at its end. -/
inductive sender_call where
  | sync_non_undoable
  | commit_and_sync
  | record (cmd : config)

/-- The state after one call; `record` appends the command to the log. -/
def sender_call.apply (env : collaborators) :
    sender_call → replay_network_sender → Option replay_network_sender
  | .sync_non_undoable, st => st.sync_non_undoable env
  | .commit_and_sync, st => st.commit_and_sync env
  | .record cmd, st =>
    some { st with obj_ := st.obj_.with_commands (st.obj_.base_.commands ++ [cmd]) }

/-- An interleaving of calls, each of which returns. -/
def run_sender_calls (env : collaborators) :
    List sender_call → replay_network_sender → Option replay_network_sender
  | [], st => some st
  | call :: rest, st =>
    match call.apply env st with
    | none => none
    | some st1 => run_sender_calls env rest st1

/-- The indices of the commands that `get_data_range(cmd_start, cmd_end,
data_type)` selects: those `cmd` of its loop for which its test holds. -/
def selected_indices (r : replay) (cmd_start cmd_end : Nat) (data_type : DATA_TYPE) : List Nat :=
  (List.range' cmd_start (cmd_end - cmd_start)).filter (fun cmd =>
    match r.base_.commands[cmd]? with
    | some c => data_range_selects data_type c
    | none => false)

/-- The indices of the commands that a call ships. -/
def sender_call.shipped (env : collaborators) (st : replay_network_sender) :
    sender_call → List Nat
  | .sync_non_undoable =>
    if env.nconnections > 0 then
      selected_indices st.obj_ st.upto_ st.obj_.ncommands DATA_TYPE.NON_UNDO_DATA
    else []
  | .commit_and_sync =>
    if env.nconnections > 0 then
      selected_indices st.obj_ st.upto_ st.obj_.ncommands DATA_TYPE.ALL_DATA
    else []
  | .record _ => []

/-- The indices of the commands that the calls of an interleaving ship, call by
call. -/
def shipped_indices (env : collaborators) :
    List sender_call → replay_network_sender → List (List Nat)
  | [], _ => []
  | call :: rest, st =>
    call.shipped env st ::
      (match call.apply env st with
       | none => []
       | some st1 => shipped_indices env rest st1)

/-- The documents that a call hands to `network::send_data`, from the indices it
ships: none when it ships no command, and else one document whose child `turn`
holds the shipped commands as they stand in the log before the call. -/
def shipped_documents (r : replay) (indices : List Nat) : List config :=
  if indices.isEmpty = true then []
  else [turn_document (config.mk []
    (command_children (indices.filterMap (fun i => r.base_.commands[i]?))))]

/-- Collaborators for the samples of the sender: one connection. -/
def sample_env_connected : collaborators :=
  { current_side := 1
    nteams := 2
    is_skipping_replay := false
    nconnections := 1
    is_local := fun _ => true
    is_idle := fun _ => false
    is_empty := fun _ => false
    query_user := fun side => .mk [("value", .int side)] []
    random_choice := fun _ => .mk [("value", .int 0)] []
    run_synced := fun _ _ units => units
    do_init_side := fun units => units
    is_regular_game_end := fun _ => false }


/-! ## Auxiliary facts -/

theorem getElem?_middle {α : Type} (a : List α) (x : α) (b : List α) :
    (a ++ x :: b)[a.length]? = some x := by
  rw [List.getElem?_append_right (Nat.le_refl _)]
  simp

theorem eraseIdx_middle {α : Type} (a : List α) (x : α) (b : List α) :
    (a ++ x :: b).eraseIdx a.length = a ++ b := by
  induction a with
  | nil => simp
  | cons h t ih => simp [ih]

theorem set_middle {α : Type} (a : List α) (x y : α) (b : List α) :
    (a ++ x :: b).set a.length y = a ++ y :: b := by
  induction a with
  | nil => simp
  | cons h t ih => simp [ih]

theorem insert_child_at_front (c : config) (l : List config) :
    insert_child_at "command" c 0 (command_children l) = some (command_children (c :: l)) := by
  cases l with
  | nil => simp [command_children, insert_child_at]
  | cons d t => simp [command_children, insert_child_at]

theorem add_child_at_front (c : config) (l : List config) :
    (config.mk [] (command_children l)).add_child_at "command" c 0
      = some (config.mk [] (command_children (c :: l))) := by
  simp [config.add_child_at, config.children, config.values, insert_child_at_front]

theorem remove_command_middle (r : replay) (front : List config) (x : config) (tail : List config)
    (h : r.base_.commands = front ++ x :: tail) :
    ∃ r1, r.remove_command front.length = some r1 ∧ r1.base_.commands = front ++ tail := by
  have hlt : front.length < r.base_.size := by
    simp [replay_recorder_base.size, h]
  refine ⟨{ base_ := { commands := r.base_.commands.eraseIdx front.length,
                        pos := if front.length < r.base_.pos then r.base_.pos - 1 else r.base_.pos },
            message_locations :=
              (decrement_while_above (front.length : Int) r.message_locations.reverse).reverse },
    ?_, ?_⟩
  · simp only [replay.remove_command, replay_recorder_base.remove_command, if_pos hlt]
  · simp [h, eraseIdx_middle]

/-- One iteration of the repair loop at a command that stands after the undone
command. -/
theorem undo_fix_step_after (rl : config → List map_location) (r : replay)
    (front : List config) (d : config) (tail : List config) (cmd_index : Nat) (cand : config)
    (D : List config)
    (h : r.base_.commands = front ++ d :: tail)
    (hc : front[cmd_index]? = some cand) :
    ∃ r1, undo_fix_step rl cmd_index front.length r (config.mk [] (command_children D))
        = some (r1, config.mk [] (command_children
            (if (d.handed_back && d.is_dependent) = true then d :: D else D)))
      ∧ r1.base_.commands = front ++ ((undo_survivor rl cand d).toList ++ tail) := by
  have hlt : cmd_index < front.length := by
    by_contra hge
    rw [List.getElem?_eq_none (by omega)] at hc
    cases hc
  have hne : front.length ≠ cmd_index := by omega
  have hget : r.command front.length = some d := by
    simp only [replay.command, replay_recorder_base.get_command_at, h]
    exact getElem?_middle _ _ _
  have hcand : r.command cmd_index = some cand := by
    simp only [replay.command, replay_recorder_base.get_command_at, h]
    rw [List.getElem?_append_left hlt]
    exact hc
  unfold undo_fix_step
  simp only [hget]
  by_cases hu : (d.get "undo").to_bool true = true
  · by_cases ha : (d.get "async").to_bool false = true
    · have hhb : (d.handed_back && d.is_dependent) = false := by
        simp [config.handed_back, config.is_async, ha]
      simp only [hu, ha, not_true_eq_false, if_false, if_true, hhb]
      cases hrn : d.child "rename" with
      | none =>
        refine ⟨r, by simp, ?_⟩
        simp [undo_survivor, config.undoable, config.is_async, hu, ha, hrn, h]
      | some rename =>
        simp only [hcand]
        by_cases hrm : (fix_rename_command rl cand rename).1 = true
        · have hw : (r.write_command front.length
              (d.with_child "rename" (fix_rename_command rl cand rename).2)).base_.commands
              = front ++ (d.with_child "rename" (fix_rename_command rl cand rename).2) :: tail := by
            simp [replay.write_command, h, set_middle]
          obtain ⟨r1, hr1, hr1c⟩ := remove_command_middle _ _ _ _ hw
          refine ⟨r1, by simp [hrm, hr1], ?_⟩
          simp [undo_survivor, config.undoable, config.is_async, hu, ha, hrn, hrm, hr1c]
        · refine ⟨r.write_command front.length
              (d.with_child "rename" (fix_rename_command rl cand rename).2), by simp [hrm], ?_⟩
          simp [undo_survivor, config.undoable, config.is_async, hu, ha, hrn, hrm,
            replay.write_command, h, set_middle]
    · by_cases hd : (d.get "dependent").to_bool false = true
      · have hhb : (d.handed_back && d.is_dependent) = true := by
          simp [config.handed_back, config.undoable, config.is_async, config.is_dependent,
            hu, ha, hd]
        obtain ⟨r1, hr1, hr1c⟩ := remove_command_middle r front d tail h
        refine ⟨r1, ?_, ?_⟩
        · simp [hu, ha, hd, hhb, add_child_at_front, hr1]
        · simp [undo_survivor, config.undoable, config.is_async, config.is_dependent,
            hu, ha, hd, hr1c]
      · have hhb : (d.handed_back && d.is_dependent) = false := by
          simp [config.is_dependent, hd]
        refine ⟨r, by simp [hu, ha, hd, hhb, hne], ?_⟩
        simp [undo_survivor, config.undoable, config.is_async, config.is_dependent,
          hu, ha, hd, h]
  · have hhb : (d.handed_back && d.is_dependent) = false := by
      simp [config.handed_back, config.undoable, hu]
    refine ⟨r, by simp [hu, hhb], ?_⟩
    simp [undo_survivor, config.undoable, hu, h]

/-- The last iteration of the repair loop, at the undone command itself. -/
theorem undo_fix_step_candidate (rl : config → List map_location) (r : replay)
    (pre : List config) (cand : config) (tail : List config) (D : List config)
    (h : r.base_.commands = pre ++ cand :: tail)
    (hu : cand.undoable = true) (ha : cand.is_async = false) :
    ∃ r1, undo_fix_step rl pre.length pre.length r (config.mk [] (command_children D))
        = some (r1, config.mk [] (command_children (cand :: D)))
      ∧ r1.base_.commands = pre ++ tail := by
  have hget : r.command pre.length = some cand := by
    simp only [replay.command, replay_recorder_base.get_command_at, h]
    exact getElem?_middle _ _ _
  obtain ⟨r1, hr1, hr1c⟩ := remove_command_middle r pre cand tail h
  refine ⟨r1, ?_, hr1c⟩
  simp only [config.undoable] at hu
  simp only [config.is_async] at ha
  simp [undo_fix_step, hget, hu, ha, add_child_at_front, hr1]

/-- The repair loop of `undo_cut`, started at the end of the log: the undone
command and the dependent commands after it move to `dst` in their order, and
every other command after it is kept, repaired or dropped as `undo_survivor`
says. -/
theorem undo_fix_spec (rl : config → List map_location) (pre : List config) (cand : config)
    (hu : cand.undoable = true) (ha : cand.is_async = false) (post : List config) :
    ∀ (tail D : List config) (r : replay),
      r.base_.commands = pre ++ cand :: (post ++ tail) →
      ∃ r1, undo_fix rl pre.length (post.length + 1) r (config.mk [] (command_children D))
          = some (r1, config.mk [] (command_children
              (cand :: (post.filter (fun d => d.handed_back && d.is_dependent) ++ D))))
        ∧ r1.base_.commands = pre ++ (post.filterMap (undo_survivor rl cand) ++ tail) := by
  induction post using List.reverseRecOn with
  | nil =>
    intro tail D r h
    obtain ⟨r1, hr1, hr1c⟩ := undo_fix_step_candidate rl r pre cand tail D (by simpa using h) hu ha
    refine ⟨r1, ?_, by simpa using hr1c⟩
    simp [undo_fix, hr1]
  | append_singleton init d ih =>
    intro tail D r h
    have h1 : r.base_.commands = (pre ++ cand :: init) ++ d :: tail := by
      simp [h]
    have hc : (pre ++ cand :: init)[pre.length]? = some cand := getElem?_middle _ _ _
    obtain ⟨r1, hr1, hr1c⟩ := undo_fix_step_after rl r _ d tail pre.length cand D h1 hc
    have hlen : (pre ++ cand :: init).length = pre.length + (init.length + 1) := by
      simp
    rw [hlen] at hr1
    have h2 : r1.base_.commands
        = pre ++ cand :: (init ++ ((undo_survivor rl cand d).toList ++ tail)) := by
      simp [hr1c]
    obtain ⟨r2, hr2, hr2c⟩ := ih ((undo_survivor rl cand d).toList ++ tail)
      (if (d.handed_back && d.is_dependent) = true then d :: D else D) r1 h2
    refine ⟨r2, ?_, ?_⟩
    · have hl : (init ++ [d]).length + 1 = (init.length + 1) + 1 := by simp
      rw [hl, undo_fix, hr1]
      simp only [hr2]
      congr 3
      by_cases hb : (d.handed_back && d.is_dependent) = true
      · simp [List.filter_append, hb]
      · simp [List.filter_append, hb]
    · rw [hr2c]
      cases hs : undo_survivor rl cand d <;> simp [List.filterMap_append, hs]

/-- The search loop of `undo_cut` stops at the last candidate of the log. -/
theorem undo_scan_spec (r : replay) (pre : List config) (cand : config)
    (hcand : cand.undo_candidate = true) (post : List config) :
    ∀ (tail : List config),
      r.base_.commands = pre ++ cand :: (post ++ tail) →
      (∀ d ∈ post, d.undo_candidate = false) →
      undo_scan r (pre.length + 1 + post.length)
        = some (if cand.is_sent = true then undo_scan_result.already_sent
                else undo_scan_result.found pre.length) := by
  induction post using List.reverseRecOn with
  | nil =>
    intro tail h _
    have hget : r.command pre.length = some cand := by
      simp only [replay.command, replay_recorder_base.get_command_at, h]
      exact getElem?_middle _ _ _
    simp only [config.undo_candidate, config.undoable, config.is_async, config.is_dependent,
      Bool.and_eq_true, Bool.not_eq_true', ] at hcand
    obtain ⟨⟨h1, h2⟩, h3⟩ := hcand
    simp only [undo_scan, Nat.add_zero, List.length_nil, hget, h1, h2, h3, config.is_sent]
    by_cases hs : (cand.get "sent").to_bool false = true
    · simp [hs]
    · simp [hs]
  | append_singleton init d ih =>
    intro tail h hall
    have h1 : r.base_.commands = (pre ++ cand :: init) ++ d :: tail := by
      simp [h]
    have hget : r.command (pre.length + 1 + init.length) = some d := by
      simp only [replay.command, replay_recorder_base.get_command_at, h1]
      have hl : pre.length + 1 + init.length = (pre ++ cand :: init).length := by
        simp
        omega
      rw [hl]
      exact getElem?_middle _ _ _
    have hd : d.undo_candidate = false := hall d (by simp)
    have hd2 : ¬ ((d.get "undo").to_bool true = true ∧ ¬ (d.get "async").to_bool false = true
        ∧ ¬ (d.get "dependent").to_bool false = true) := by
      intro hx
      obtain ⟨a, b, c⟩ := hx
      simp [config.undo_candidate, config.undoable, config.is_async, config.is_dependent,
        a, b, c] at hd
    have hlen : pre.length + 1 + (init ++ [d]).length = (pre.length + 1 + init.length) + 1 := by
      simp
      omega
    rw [hlen, undo_scan]
    simp only [hget, if_neg hd2]
    exact ih (d :: tail) (by simp [h]) (fun e he => hall e (by simp [he]))

/-- Undo on a log that ends in an unsent candidate followed by commands that are
not candidates: the result of `undo_cut` in full, apart from the chat offsets. -/
theorem undo_cut_spec (rl : config → List map_location) (r : replay)
    (pre : List config) (cand : config) (post : List config)
    (hlog : r.base_.commands = pre ++ cand :: post)
    (hend : r.base_.pos = r.base_.commands.length)
    (hcand : cand.undo_candidate = true)
    (hsent : cand.is_sent = false)
    (hpost : ∀ d ∈ post, d.undo_candidate = false) :
    ∃ r1, r.undo_cut rl config.empty_config
        = some (r1, config.mk [] (command_children
            (cand :: post.filter (fun d => d.handed_back && d.is_dependent))))
      ∧ r1.base_.commands = pre ++ post.filterMap (undo_survivor rl cand)
      ∧ r1.base_.pos = r1.base_.commands.length := by
  have hscan := undo_scan_spec r pre cand hcand post [] (by simpa using hlog) hpost
  have hn : r.ncommands = pre.length + 1 + post.length := by
    simp [replay.ncommands, replay_recorder_base.size, hlog]
    omega
  have hcu : cand.undoable = true ∧ cand.is_async = false := by
    simp [config.undo_candidate] at hcand
    exact ⟨hcand.1.1, hcand.1.2⟩
  obtain ⟨r1, hr1, hr1c⟩ := undo_fix_spec rl pre cand hcu.1 hcu.2 post [] [] r
    (by simpa using hlog)
  refine ⟨r1.set_to_end, ?_, ?_, ?_⟩
  · have hat : r.at_end = some true := by
      simp [replay.at_end, replay_recorder_base.get_pos, replay.ncommands,
        replay_recorder_base.size, hend]
    have hsub : pre.length + 1 + post.length - pre.length = post.length + 1 := by omega
    have hdst : config.empty_config = config.mk [] (command_children []) := rfl
    have hemp : config.empty_config.empty = true := rfl
    simp only [replay.undo_cut, hat, hn, hscan, hsent, hemp]
    simp only [Bool.false_eq_true, if_false, hsub]
    rw [hdst, hr1]
    simp
  · simpa [replay.set_to_end, replay_recorder_base.set_to_end] using hr1c
  · simp [replay.set_to_end, replay_recorder_base.set_to_end, replay_recorder_base.size]

theorem replace_child_same (key : String) (val : config) (l : List (String × config))
    (h : l.lookup key = some val) : replace_child key val l = l := by
  induction l with
  | nil => rfl
  | cons p t ih =>
    obtain ⟨k, c⟩ := p
    by_cases hk : k = key
    · subst hk
      simp [List.lookup] at h
      simp [replace_child, h]
    · have hk2 : (key == k) = false := by
        simp
        exact fun e => hk e.symm
      simp only [List.lookup, hk2] at h
      simp [replace_child, hk, ih h]

theorem with_child_same (c : config) (key : String) (val : config)
    (h : c.child key = some val) : c.with_child key val = c := by
  cases c with
  | mk v ch =>
    simp only [config.child, config.children] at h
    simp [config.with_child, config.children, config.values, replace_child_same key val ch h]

theorem with_child_get (c : config) (key : String) (val : config) (field : String) :
    (c.with_child key val).get field = c.get field := rfl

theorem replace_child_lookup (key : String) (val old : config) (l : List (String × config))
    (h : l.lookup key = some old) : (replace_child key val l).lookup key = some val := by
  induction l with
  | nil => simp at h
  | cons p t ih =>
    obtain ⟨k, c⟩ := p
    by_cases hk : k = key
    · subst hk
      simp [replace_child, List.lookup]
    · have hk2 : (key == k) = false := by
        simp
        exact fun e => hk e.symm
      simp only [List.lookup, hk2] at h
      simp [replace_child, hk, List.lookup, hk2, ih h]

theorem with_child_child (c : config) (key : String) (val old : config)
    (h : c.child key = some old) : (c.with_child key val).child key = some val := by
  cases c with
  | mk v ch =>
    simp only [config.child, config.children] at h
    simp [config.with_child, config.child, config.children, replace_child_lookup key val old ch h]

/-- A command that undo keeps keeps its `undo` and `async` fields. -/
theorem undo_survivor_fields (rl : config → List map_location) (cand d e : config)
    (h : undo_survivor rl cand d = some e) :
    e.undoable = d.undoable ∧ e.is_async = d.is_async ∧ e.is_dependent = d.is_dependent := by
  unfold undo_survivor at h
  split at h
  · cases h
    exact ⟨rfl, rfl, rfl⟩
  · split at h
    · split at h
      · cases h
        exact ⟨rfl, rfl, rfl⟩
      · split at h
        · cases h
        · cases h
          exact ⟨rfl, rfl, rfl⟩
    · split at h
      · cases h
      · cases h
        exact ⟨rfl, rfl, rfl⟩

theorem undo_survivor_not_undoable (rl : config → List map_location) (cand d : config)
    (h : d.undoable = false) : undo_survivor rl cand d = some d := by
  simp [undo_survivor, h]

/-- The commands that are not undoable pass through undo untouched. -/
theorem survivors_not_undoable (rl : config → List map_location) (cand : config)
    (post : List config) :
    (post.filterMap (undo_survivor rl cand)).filter (fun d => !d.undoable)
      = post.filter (fun d => !d.undoable) := by
  induction post with
  | nil => rfl
  | cons d t ih =>
    by_cases hu : d.undoable = false
    · simp [List.filterMap_cons, undo_survivor_not_undoable rl cand d hu, hu, ih]
    · have hu1 : d.undoable = true := by simpa using hu
      cases hs : undo_survivor rl cand d with
      | none => simp [List.filterMap_cons, hs, hu1, ih]
      | some e =>
        have he := (undo_survivor_fields rl cand d e hs).1
        simp [List.filterMap_cons, hs, hu1, he, ih]

/-- After undo no command of the handed-back class is left behind the place of
the undone command. -/
theorem survivors_not_handed_back (rl : config → List map_location) (cand : config)
    (post : List config) (hpost : ∀ d ∈ post, d.undo_candidate = false) :
    ∀ e ∈ post.filterMap (undo_survivor rl cand), e.handed_back = false := by
  intro e he
  obtain ⟨d, hd, hs⟩ := List.mem_filterMap.mp he
  have hf := undo_survivor_fields rl cand d e hs
  have hnc := hpost d hd
  simp only [config.handed_back, hf.1, hf.2.1]
  by_cases hu : d.undoable = true
  · by_cases ha : d.is_async = true
    · simp [ha]
    · have hdep : d.is_dependent = true := by
        simp [config.undo_candidate, hu, ha] at hnc
        exact hnc
      simp [undo_survivor, hu, ha, hdep] at hs
  · simp [hu]

/-- A command of the handed-back class that is not a candidate is dependent. -/
theorem handed_back_filter (post : List config) (hpost : ∀ d ∈ post, d.undo_candidate = false) :
    post.filter (fun d => d.handed_back && d.is_dependent) = post.filter (fun d => d.handed_back) := by
  apply List.filter_congr
  intro d hd
  have hnc := hpost d hd
  by_cases hh : d.handed_back = true
  · simp only [config.handed_back, Bool.and_eq_true, Bool.not_eq_true'] at hh
    simp [config.undo_candidate, hh.1, hh.2] at hnc
    simp [config.handed_back, hh.1, hh.2, hnc]
  · simp [hh]

/-- Every command after the undone one is either handed back or stays (repaired
or not) or is dropped: the two groups never overlap. -/
theorem survivors_length (rl : config → List map_location) (cand : config)
    (post : List config) :
    (post.filterMap (undo_survivor rl cand)).length
      + (post.filter (fun d => d.handed_back && d.is_dependent)).length ≤ post.length := by
  induction post with
  | nil => simp
  | cons d t ih =>
    by_cases hh : (d.handed_back && d.is_dependent) = true
    · have hs : undo_survivor rl cand d = none := by
        simp only [config.handed_back, Bool.and_eq_true, Bool.not_eq_true'] at hh
        simp [undo_survivor, hh.1.1, hh.1.2, hh.2]
      simp only [List.filterMap_cons, hs, List.filter_cons, hh, if_true, List.length_cons]
      omega
    · simp only [List.filter_cons, hh, Bool.false_eq_true, if_false, List.length_cons]
      cases hs : undo_survivor rl cand d with
      | none =>
        simp only [List.filterMap_cons, hs]
        omega
      | some e =>
        simp only [List.filterMap_cons, hs, List.length_cons]
        omega

/-! ## The undo engine -/

/-- C1 (undo refusal). The log is at its end and its last candidate for undo
(undoable, neither async nor dependent; every command after it is no candidate)
is marked sent. Then `undo_cut` returns with the replay object (commands,
cursor and recorded chat offsets) and the output document `dst` exactly as they
were, and so does `undo`. -/
theorem undo_refused_when_sent (rl : config → List map_location) (r : replay)
    (pre : List config) (cand : config) (post : List config)
    (hlog : r.base_.commands = pre ++ cand :: post)
    (hend : r.base_.pos = r.base_.commands.length)
    (hcand : cand.undo_candidate = true)
    (hsent : cand.is_sent = true)
    (hpost : ∀ d ∈ post, d.undo_candidate = false) :
    r.undo_cut rl config.empty_config = some (r, config.empty_config)
      ∧ r.undo rl = some r := by
  have hscan := undo_scan_spec r pre cand hcand post [] (by simpa using hlog) hpost
  have hn : r.ncommands = pre.length + 1 + post.length := by
    simp [replay.ncommands, replay_recorder_base.size, hlog]
    omega
  have hat : r.at_end = some true := by
    simp [replay.at_end, replay_recorder_base.get_pos, replay.ncommands,
      replay_recorder_base.size, hend]
  have hemp : config.empty_config.empty = true := rfl
  have h1 : r.undo_cut rl config.empty_config = some (r, config.empty_config) := by
    simp only [replay.undo_cut, hat, hn, hscan, hsent, hemp]
    simp
  exact ⟨h1, by simp [replay.undo, h1]⟩

/-- Witness of C1: the log `[start][move, sent]`. -/
theorem undo_refused_when_sent_witness :
    (log_at_end [start_command, sent_move_command]).undo_cut sample_read_locations
        config.empty_config
      = some (log_at_end [start_command, sent_move_command], config.empty_config)
    ∧ (log_at_end [start_command, sent_move_command]).undo sample_read_locations
      = some (log_at_end [start_command, sent_move_command]) :=
  undo_refused_when_sent sample_read_locations (log_at_end [start_command, sent_move_command])
    [start_command] sent_move_command [] rfl rfl rfl rfl (by simp)

/-- C2 (undo reversibility shape). The log is at its end and its last command is
an unsent candidate for undo. Then `undo` yields the log without that last
command: the earlier commands unchanged and in order, the length smaller by
one, and the cursor at the end of the log. -/
theorem undo_removes_last_command (rl : config → List map_location) (r : replay)
    (pre : List config) (cand : config)
    (hlog : r.base_.commands = pre ++ [cand])
    (hend : r.base_.pos = r.base_.commands.length)
    (hcand : cand.undo_candidate = true)
    (hsent : cand.is_sent = false) :
    ∃ r1, r.undo rl = some r1
      ∧ r1.base_.commands = pre
      ∧ r1.base_.commands.length + 1 = r.base_.commands.length
      ∧ r1.base_.pos = r1.base_.commands.length := by
  obtain ⟨r1, h1, h2, h3⟩ := undo_cut_spec rl r pre cand [] hlog hend hcand hsent (by simp)
  have h2a : r1.base_.commands = pre := by simpa using h2
  refine ⟨r1, by simp [replay.undo, h1], h2a, ?_, h3⟩
  simp [h2a, hlog]

/-- Witness of C2: the log `[start][move]`. -/
theorem undo_removes_last_command_witness :
    ∃ r1, (log_at_end [start_command, move_command]).undo sample_read_locations = some r1
      ∧ r1.base_.commands = [start_command]
      ∧ r1.base_.commands.length + 1 = (log_at_end [start_command, move_command]).base_.commands.length
      ∧ r1.base_.pos = r1.base_.commands.length :=
  undo_removes_last_command sample_read_locations (log_at_end [start_command, move_command])
    [start_command] move_command rfl rfl rfl rfl

theorem lookup_set_value_same (key : String) (v : attribute_value)
    (l : List (String × attribute_value)) : (set_value key v l).lookup key = some v := by
  induction l with
  | nil => simp [set_value, List.lookup]
  | cons p t ih =>
    obtain ⟨k, w⟩ := p
    by_cases hk : k = key
    · subst hk
      simp [set_value, List.lookup]
    · have hk2 : (key == k) = false := by
        simp
        exact fun e => hk e.symm
      simp [set_value, hk, List.lookup, hk2, ih]

theorem lookup_set_value_other (key other : String) (v : attribute_value)
    (l : List (String × attribute_value)) (hne : other ≠ key) :
    (set_value key v l).lookup other = l.lookup other := by
  induction l with
  | nil =>
    have h2 : (other == key) = false := by simpa using hne
    simp [set_value, List.lookup, h2]
  | cons p t ih =>
    obtain ⟨k, w⟩ := p
    by_cases hk : k = key
    · subst hk
      have h2 : (other == k) = false := by simpa using hne
      simp [set_value, List.lookup, h2]
    · by_cases ho : (other == k) = true
      · simp [set_value, hk, List.lookup, ho]
      · have ho2 : (other == k) = false := by simpa using ho
        simp only [set_value, hk, if_false, List.lookup, ho2, ih]

theorem get_set_same (c : config) (key : String) (v : attribute_value) :
    (c.set key v).get key = v := by
  simp [config.get, config.set, config.values, lookup_set_value_same]

theorem get_set_other (c : config) (key other : String) (v : attribute_value)
    (hne : other ≠ key) : (c.set key v).get other = c.get other := by
  simp [config.get, config.set, config.values, lookup_set_value_other key other v _ hne]

/-- A location written into a document is the location read back from it. -/
theorem of_config_write (loc : map_location) (cfg : config) :
    map_location.of_config (loc.write cfg) = loc := by
  have hx : (loc.write cfg).get "x" = .int (loc.x + 1) := by
    unfold map_location.write
    rw [get_set_other _ "y" "x" _ (by decide), get_set_same]
  have hy : (loc.write cfg).get "y" = .int (loc.y + 1) := by
    unfold map_location.write
    rw [get_set_same]
  simp [map_location.of_config, hx, hy, read_coordinate]

/-- Writing a location leaves every field other than `x` and `y` alone. -/
theorem write_get_other (loc : map_location) (cfg : config) (field : String)
    (hx : field ≠ "x") (hy : field ≠ "y") : (loc.write cfg).get field = cfg.get field := by
  unfold map_location.write
  rw [get_set_other _ "y" field _ hy, get_set_other _ "x" field _ hx]

/-- The repair of a rename when a move along a non-empty path is undone. -/
theorem fix_rename_command_move (rl : config → List map_location) (c move_child target : config)
    (src dst : map_location)
    (hmove : c.child "move" = some move_child)
    (hsrc : (rl move_child).head? = some src)
    (hdst : (rl move_child).getLast? = some dst) :
    fix_rename_command rl c target
      = (false, if map_location.of_config target = dst then src.write target else target) := by
  simp only [fix_rename_command, hmove, hsrc, hdst]
  by_cases h : map_location.of_config target = dst
  · simp [h]
  · have h2 : ¬ dst = map_location.of_config target := fun e => h e.symm
    simp [h, h2]

/-- The repair of a rename when a recruit or a recall is undone. -/
theorem fix_rename_command_unit (rl : config → List map_location) (c unit_child target : config)
    (hmove : c.child "move" = none)
    (hunit : c.child "recruit" = some unit_child
      ∨ (c.child "recruit" = none ∧ c.child "recall" = some unit_child)) :
    fix_rename_command rl c target
      = (decide (map_location.of_config unit_child = map_location.of_config target), target) := by
  rcases hunit with h | ⟨h1, h2⟩
  · simp only [fix_rename_command, hmove, h]
    by_cases he : map_location.of_config unit_child = map_location.of_config target
    · simp [he]
    · simp [he]
  · simp only [fix_rename_command, hmove, h1, h2]
    by_cases he : map_location.of_config unit_child = map_location.of_config target
    · simp [he]
    · simp [he]

/-- C3 (rename repair after an undone move). The log is at its end; its undo
candidate `mv` is an unsent move whose path starts at `A` and ends at `B`; a
rename command `rn` of the async class (async, and undoable as `add_rename`
records it) stands somewhere after it. Then `undo` removes the move and keeps
the rename at its place among the surviving commands, the cursor is at the end,
and: if the rename targets `B`, its rename child now targets `A`, with the same
name and nothing else of the command changed; if it targets another location
the command is unchanged. With `pre = [start]` and nothing else after the move
this is `[start][move A->B][rename B X]` becoming `[start][rename A X]`. -/
theorem undo_move_repairs_rename (rl : config → List map_location) (r : replay)
    (pre : List config) (mv : config) (post1 : List config) (rn : config) (post2 : List config)
    (move_child target : config) (A B : map_location)
    (hlog : r.base_.commands = pre ++ mv :: (post1 ++ rn :: post2))
    (hend : r.base_.pos = r.base_.commands.length)
    (hcand : mv.undo_candidate = true)
    (hsent : mv.is_sent = false)
    (hpost1 : ∀ d ∈ post1, d.undo_candidate = false)
    (hpost2 : ∀ d ∈ post2, d.undo_candidate = false)
    (hmove : mv.child "move" = some move_child)
    (hA : (rl move_child).head? = some A)
    (hB : (rl move_child).getLast? = some B)
    (hundo : rn.undoable = true)
    (hasync : rn.is_async = true)
    (hrename : rn.child "rename" = some target) :
    ∃ r1 rn1, r.undo rl = some r1
      ∧ r1.base_.pos = r1.base_.commands.length
      ∧ r1.base_.commands = pre ++ (post1.filterMap (undo_survivor rl mv)
          ++ rn1 :: post2.filterMap (undo_survivor rl mv))
      ∧ (map_location.of_config target ≠ B → rn1 = rn)
      ∧ (map_location.of_config target = B →
          rn1 = rn.with_child "rename" (A.write target)
          ∧ rn1.child "rename" = some (A.write target)
          ∧ rn1.values = rn.values
          ∧ map_location.of_config (A.write target) = A
          ∧ (A.write target).get "name" = target.get "name"
          ∧ (A.write target).children = target.children) := by
  have hrn : rn.undo_candidate = false := by
    simp [config.undo_candidate, hasync]
  have hpost : ∀ d ∈ post1 ++ rn :: post2, d.undo_candidate = false := by
    intro d hd
    rcases List.mem_append.mp hd with h | h
    · exact hpost1 d h
    · rcases List.mem_cons.mp h with h | h
      · rw [h]
        exact hrn
      · exact hpost2 d h
  obtain ⟨r1, h1, h2, h3⟩ := undo_cut_spec rl r pre mv (post1 ++ rn :: post2) hlog hend hcand
    hsent hpost
  have hfix := fix_rename_command_move rl mv move_child target A B hmove hA hB
  have hsurv : undo_survivor rl mv rn = some (rn.with_child "rename"
      (if map_location.of_config target = B then A.write target else target)) := by
    simp [undo_survivor, hundo, hasync, hrename, hfix]
  refine ⟨r1, rn.with_child "rename"
      (if map_location.of_config target = B then A.write target else target),
    by simp [replay.undo, h1], h3, ?_, ?_, ?_⟩
  · rw [h2]
    simp [List.filterMap_append, List.filterMap_cons, hsurv]
  · intro hne
    simp [hne, with_child_same rn "rename" target hrename]
  · intro he
    refine ⟨by simp [he], ?_, ?_, of_config_write A target, ?_, ?_⟩
    · simp only [he, if_true]
      exact with_child_child rn "rename" _ target hrename
    · rfl
    · exact write_get_other A target "name" (by decide) (by decide)
    · rfl

/-- Witness of C3: `[start][move A->B][rename B X]` becomes `[start][rename A X]`
with the cursor at the end. -/
theorem undo_move_repairs_rename_witness :
    ∃ r1, (log_at_end [start_command, move_command, rename_command loc_B]).undo
        sample_read_locations = some r1
      ∧ r1.base_.pos = r1.base_.commands.length
      ∧ r1.base_.commands = [start_command, rename_command loc_A] := by
  obtain ⟨r1, rn1, h1, h2, h3, _, h5⟩ := undo_move_repairs_rename sample_read_locations
    (log_at_end [start_command, move_command, rename_command loc_B])
    [start_command] move_command [] (rename_command loc_B) []
    (.mk [("x", .str "3,4,5,6"), ("y", .str "4,4,4,4")] []) (rename_target loc_B) loc_A loc_B
    rfl rfl rfl rfl (by simp) (by simp) rfl rfl rfl rfl rfl rfl
  refine ⟨r1, h1, h2, ?_⟩
  rw [h3, (h5 (by decide)).1]
  rfl

theorem child_range_command_children (v : List (String × attribute_value)) (l : List config) :
    (config.mk v (command_children l)).child_range "command" = l := by
  induction l with
  | nil => rfl
  | cons d t ih =>
    simp only [config.child_range, config.children, command_children] at ih ⊢
    simp [List.filter_cons, ih]

/-- C4 (rename repair after an undone recruit or recall). The log is at its end
and its undo candidate is an unsent recruit command, or recall command, for a
unit at location `C`; a rename command `rn` of the async class (async, and
undoable as `add_rename` records it) stands somewhere after it. Then `undo`
removes `rn` from the log when its target is `C`, and keeps it unchanged at its
place among the surviving commands when its target is another location. -/
theorem undo_recruit_drops_rename (rl : config → List map_location) (r : replay)
    (pre : List config) (cand : config) (post1 : List config) (rn : config)
    (post2 : List config) (unit_child target : config) (C : map_location)
    (hlog : r.base_.commands = pre ++ cand :: (post1 ++ rn :: post2))
    (hend : r.base_.pos = r.base_.commands.length)
    (hcand : cand.undo_candidate = true)
    (hsent : cand.is_sent = false)
    (hpost1 : ∀ d ∈ post1, d.undo_candidate = false)
    (hpost2 : ∀ d ∈ post2, d.undo_candidate = false)
    (hmove : cand.child "move" = none)
    (hunit : cand.child "recruit" = some unit_child
      ∨ (cand.child "recruit" = none ∧ cand.child "recall" = some unit_child))
    (hC : map_location.of_config unit_child = C)
    (hundo : rn.undoable = true)
    (hasync : rn.is_async = true)
    (hrename : rn.child "rename" = some target) :
    ∃ r1, r.undo rl = some r1
      ∧ (map_location.of_config target = C →
          r1.base_.commands = pre ++ (post1.filterMap (undo_survivor rl cand)
            ++ post2.filterMap (undo_survivor rl cand)))
      ∧ (map_location.of_config target ≠ C →
          r1.base_.commands = pre ++ (post1.filterMap (undo_survivor rl cand)
            ++ rn :: post2.filterMap (undo_survivor rl cand))) := by
  have hrn : rn.undo_candidate = false := by
    simp [config.undo_candidate, hasync]
  have hpost : ∀ d ∈ post1 ++ rn :: post2, d.undo_candidate = false := by
    intro d hd
    rcases List.mem_append.mp hd with h | h
    · exact hpost1 d h
    · rcases List.mem_cons.mp h with h | h
      · rw [h]
        exact hrn
      · exact hpost2 d h
  obtain ⟨r1, h1, h2, _⟩ := undo_cut_spec rl r pre cand (post1 ++ rn :: post2) hlog hend hcand
    hsent hpost
  have hfix := fix_rename_command_unit rl cand unit_child target hmove hunit
  rw [hC] at hfix
  refine ⟨r1, by simp [replay.undo, h1], ?_, ?_⟩
  · intro he
    have hsurv : undo_survivor rl cand rn = none := by
      simp [undo_survivor, hundo, hasync, hrename, hfix, he]
    rw [h2]
    simp [List.filterMap_append, List.filterMap_cons, hsurv]
  · intro hne
    have hne2 : ¬ C = map_location.of_config target := fun e => hne e.symm
    have hsurv : undo_survivor rl cand rn = some rn := by
      simp [undo_survivor, hundo, hasync, hrename, hfix, hne2,
        with_child_same rn "rename" target hrename]
    rw [h2]
    simp [List.filterMap_append, List.filterMap_cons, hsurv]

/-- Witness of C4: in `[start][recruit at B][rename A X][rename B X]` the rename
of the unit at `B` goes and the rename of the unit at `A` stays. -/
theorem undo_recruit_drops_rename_witness :
    ∃ r1, (log_at_end [start_command, recruit_command, rename_command loc_A,
        rename_command loc_B]).undo sample_read_locations = some r1
      ∧ r1.base_.commands = [start_command, rename_command loc_A] := by
  obtain ⟨r1, h1, h2, _⟩ := undo_recruit_drops_rename sample_read_locations
    (log_at_end [start_command, recruit_command, rename_command loc_A, rename_command loc_B])
    [start_command] recruit_command [rename_command loc_A] (rename_command loc_B) []
    (.mk [("type", .str "Spearman"), ("x", .int 6), ("y", .int 4)] []) (rename_target loc_B)
    loc_B rfl rfl rfl rfl (by simp [rename_command, config.undo_candidate, config.is_async,
      config.get, config.values, attribute_value.to_bool]) (by simp) rfl (Or.inl rfl) rfl
    rfl rfl rfl
  refine ⟨r1, h1, ?_⟩
  rw [h2 rfl]
  rfl

/-- C5 (undo hand-back order). The log is at its end and ends in an unsent undo
candidate `cand` followed by commands `post` that are no candidates. After
`undo_cut` the document `dst` consists of `command` children only, namely
`cand` followed by the commands of `post` that are undoable and not async (the
dependent ones), unchanged and in their order in the log; behind the place of
`cand` the log holds no such command any more, and the handed-back commands are
gone from it. -/
theorem undo_cut_hands_back_in_order (rl : config → List map_location) (r : replay)
    (pre : List config) (cand : config) (post : List config)
    (hlog : r.base_.commands = pre ++ cand :: post)
    (hend : r.base_.pos = r.base_.commands.length)
    (hcand : cand.undo_candidate = true)
    (hsent : cand.is_sent = false)
    (hpost : ∀ d ∈ post, d.undo_candidate = false) :
    ∃ r1 dst1 rest, r.undo_cut rl config.empty_config = some (r1, dst1)
      ∧ dst1 = config.mk [] (command_children (cand :: post.filter (fun d => d.handed_back)))
      ∧ dst1.child_range "command" = cand :: post.filter (fun d => d.handed_back)
      ∧ r1.base_.commands = pre ++ rest
      ∧ (∀ d ∈ rest, d.handed_back = false)
      ∧ rest.length + (post.filter (fun d => d.handed_back)).length ≤ post.length := by
  obtain ⟨r1, h1, h2, _⟩ := undo_cut_spec rl r pre cand post hlog hend hcand hsent hpost
  rw [handed_back_filter post hpost] at h1
  refine ⟨r1, _, post.filterMap (undo_survivor rl cand), h1, rfl,
    child_range_command_children _ _, h2, survivors_not_handed_back rl cand post hpost, ?_⟩
  rw [← handed_back_filter post hpost]
  exact survivors_length rl cand post

/-- Witness of C5: from `[start][move][choice][speak][rename B][choice]` undo
hands back `[move][choice][choice]`. -/
theorem undo_cut_hands_back_in_order_witness :
    ∃ r1 dst1, (log_at_end [start_command, move_command, choice_command, speak_command,
        rename_command loc_B, choice_command]).undo_cut sample_read_locations
          config.empty_config = some (r1, dst1)
      ∧ dst1.child_range "command" = [move_command, choice_command, choice_command]
      ∧ r1.base_.commands = [start_command, speak_command, rename_command loc_A] := by
  obtain ⟨r1, dst1, rest, h1, _, h3, _, _, _⟩ := undo_cut_hands_back_in_order
    sample_read_locations
    (log_at_end [start_command, move_command, choice_command, speak_command,
      rename_command loc_B, choice_command])
    [start_command] move_command
    [choice_command, speak_command, rename_command loc_B, choice_command]
    rfl rfl rfl rfl (by decide)
  obtain ⟨r2, h5, h6, _⟩ := undo_cut_spec sample_read_locations
    (log_at_end [start_command, move_command, choice_command, speak_command,
      rename_command loc_B, choice_command])
    [start_command] move_command
    [choice_command, speak_command, rename_command loc_B, choice_command]
    rfl rfl rfl rfl (by decide)
  rw [h1] at h5
  injection h5 with h5
  injection h5 with h5a h5b
  subst h5a
  refine ⟨r1, dst1, h1, ?_, ?_⟩
  · rw [h3]
    rfl
  · rw [h6]
    rfl

/-- C6 (undo frame). The log is at its end and ends in an unsent undo candidate
`cand` followed by commands `post` that are no candidates. After `undo_cut` the
log starts with the commands that stood before `cand`, unchanged, and the
commands with `undo=false` behind them are exactly those of `post`, unchanged
and in the same order. -/
theorem undo_cut_frame (rl : config → List map_location) (r : replay)
    (pre : List config) (cand : config) (post : List config)
    (hlog : r.base_.commands = pre ++ cand :: post)
    (hend : r.base_.pos = r.base_.commands.length)
    (hcand : cand.undo_candidate = true)
    (hsent : cand.is_sent = false)
    (hpost : ∀ d ∈ post, d.undo_candidate = false) :
    ∃ r1 dst1 rest, r.undo_cut rl config.empty_config = some (r1, dst1)
      ∧ r1.base_.commands = pre ++ rest
      ∧ rest.filter (fun d => !d.undoable) = post.filter (fun d => !d.undoable)
      ∧ (pre ++ post.filter (fun d => !d.undoable)).Sublist r1.base_.commands := by
  obtain ⟨r1, h1, h2, _⟩ := undo_cut_spec rl r pre cand post hlog hend hcand hsent hpost
  refine ⟨r1, _, post.filterMap (undo_survivor rl cand), h1, h2,
    survivors_not_undoable rl cand post, ?_⟩
  rw [h2, ← survivors_not_undoable rl cand post]
  exact List.Sublist.append (List.Sublist.refl _) (List.filter_sublist _)

/-- Witness of C6: in `[start][speak][move][speak][choice][speak]` the four
commands around the undone move and its choice stay. -/
theorem undo_cut_frame_witness :
    ∃ r1 dst1 rest, (log_at_end [start_command, speak_command, move_command, speak_command,
        choice_command, speak_command]).undo_cut sample_read_locations config.empty_config
          = some (r1, dst1)
      ∧ r1.base_.commands = [start_command, speak_command] ++ rest
      ∧ rest.filter (fun d => !d.undoable) = [speak_command, speak_command] := by
  obtain ⟨r1, dst1, rest, h1, h2, h3, _⟩ := undo_cut_frame sample_read_locations
    (log_at_end [start_command, speak_command, move_command, speak_command,
      choice_command, speak_command])
    [start_command, speak_command] move_command
    [speak_command, choice_command, speak_command]
    rfl rfl rfl rfl (by decide)
  exact ⟨r1, dst1, rest, h1, h2, by rw [h3]; rfl⟩

/-! ## Removal of a command -/

theorem decrement_while_above_sorted (index : Int) (l : List Int)
    (h : l.Pairwise (fun a b => b ≤ a)) :
    decrement_while_above index l = l.map (shift_offset index) := by
  induction l with
  | nil => rfl
  | cons x t ih =>
    have ht := (List.pairwise_cons.mp h).2
    have hx := (List.pairwise_cons.mp h).1
    by_cases hlt : index < x
    · simp [decrement_while_above, hlt, shift_offset, ih ht]
    · have hmap : t.map (shift_offset index) = t := by
        have : ∀ a ∈ t, shift_offset index a = a := by
          intro a ha
          have := hx a ha
          simp only [shift_offset]
          rw [if_neg (by omega)]
        calc t.map (shift_offset index) = t.map id := List.map_congr_left this
          _ = t := List.map_id t
      simp [decrement_while_above, hlt, shift_offset, hmap]

/-- Counterexample to C7 as stated: in the log `[start][speak][move][speak]` with
the recorded offsets `[3, 1]`, removing the command at index 2 leaves the
offset 3 as it is, although 3 is greater than 2. -/
theorem remove_command_keeps_larger_offset :
    (replayed_chat_log.remove_command 2).map replay.message_locations = some [3, 1]
      ∧ replayed_chat_log.message_locations.map (shift_offset 2) = [2, 1] := by
  constructor
  · decide
  · decide

/-- C7, amended (offset repair of `remove_command`). When the recorded chat
offsets stand in ascending order, as they do when they are recorded while the
cursor moves forward, `remove_command(index)` with a valid index deletes exactly
the command at `index`, decrements every recorded offset greater than `index` by
one and leaves every other offset unchanged. -/
theorem remove_command_repairs_sorted_offsets (r : replay) (index : Nat)
    (hidx : index < r.base_.commands.length)
    (hsorted : r.message_locations.Pairwise (fun a b => a ≤ b)) :
    ∃ r1, r.remove_command index = some r1
      ∧ r1.base_.commands = r.base_.commands.eraseIdx index
      ∧ r1.base_.commands.length + 1 = r.base_.commands.length
      ∧ r1.message_locations = r.message_locations.map (shift_offset index) := by
  have hrev : r.message_locations.reverse.Pairwise (fun a b => b ≤ a) :=
    List.pairwise_reverse.mpr hsorted
  have hdec := decrement_while_above_sorted (index : Int) _ hrev
  refine ⟨{ base_ := { commands := r.base_.commands.eraseIdx index,
                        pos := if index < r.base_.pos then r.base_.pos - 1 else r.base_.pos },
            message_locations :=
              (decrement_while_above (index : Int) r.message_locations.reverse).reverse },
    ?_, rfl, ?_, ?_⟩
  · simp [replay.remove_command, replay_recorder_base.remove_command,
      replay_recorder_base.size, hidx]
  · simp only [List.length_eraseIdx, hidx, if_true]
    omega
  · simp only [hdec]
    simp [List.map_reverse]

/-- Witness of C7, amended: removing the move from `[start][speak][move][speak]`
with the offsets `[1, 3]` gives the offsets `[1, 2]`. -/
theorem remove_command_repairs_sorted_offsets_witness :
    ∃ r1, chat_log.remove_command 2 = some r1
      ∧ r1.base_.commands = [start_command, speak_command, speak_command]
      ∧ r1.message_locations = [1, 2] := by
  obtain ⟨r1, h1, h2, _, h4⟩ := remove_command_repairs_sorted_offsets chat_log 2
    (by decide) (by decide)
  exact ⟨r1, h1, by rw [h2]; rfl, by rw [h4]; decide⟩

/-! ## Extraction of a range -/

theorem add_child_command (acc : List config) (c : config) :
    (config.mk [] (command_children acc)).add_child "command" c
      = config.mk [] (command_children (acc ++ [c])) := by
  simp [config.add_child, config.values, config.children, command_children]

/-- The loop of `get_data_range` over a stretch `mid` of the log: the selected
commands are appended to the result in log order, and in the mode
`NON_UNDO_DATA` they are stamped `sent=true` in the log. -/
theorem get_data_range_loop_spec (dt : DATA_TYPE) (mid : List config) :
    ∀ (front back acc : List config) (r : replay),
      r.base_.commands = front ++ (mid ++ back) →
      get_data_range_loop dt mid.length front.length r (config.mk [] (command_children acc))
        = some (config.mk [] (command_children (acc ++ mid.filter (data_range_selects dt))),
                r.with_commands (front ++ (mid.map (data_range_marks dt) ++ back))) := by
  induction mid with
  | nil =>
    intro front back acc r h
    simp only [List.length_nil, get_data_range_loop, List.filter_nil, List.append_nil,
      List.map_nil, List.nil_append]
    simp only [List.nil_append] at h
    rw [← h]
    rfl
  | cons c t ih =>
    intro front back acc r h
    have hget : r.command front.length = some c := by
      simp only [replay.command, replay_recorder_base.get_command_at, h]
      exact getElem?_middle _ _ _
    simp only [List.length_cons, get_data_range_loop, hget]
    by_cases hsel : data_range_selects dt c = true
    · have hcond : (dt = DATA_TYPE.ALL_DATA ∨ ¬ (c.get "undo").to_bool true = true)
          ∧ ¬ (c.get "sent").to_bool false = true := by
        simpa [data_range_selects, config.undoable, config.is_sent] using hsel
      rw [if_pos hcond]
      simp only [add_child_command]
      have hr1 : (if dt = DATA_TYPE.NON_UNDO_DATA then
            r.write_command front.length (c.set "sent" (.bool true)) else r).base_.commands
          = (front ++ [data_range_marks dt c]) ++ (t ++ back) := by
        by_cases hdt : dt = DATA_TYPE.NON_UNDO_DATA
        · simp [hdt, replay.write_command, h, data_range_marks, hdt ▸ hsel]
        · simp [hdt, h, data_range_marks]
      have hlen : front.length + 1 = (front ++ [data_range_marks dt c]).length := by simp
      rw [hlen, ih _ back (acc ++ [c]) _ hr1]
      simp only [List.filter_cons, hsel, if_true, List.map_cons, List.append_assoc,
        List.singleton_append]
      by_cases hdt : dt = DATA_TYPE.NON_UNDO_DATA
      · simp [hdt, replay.with_commands, replay.write_command]
      · simp [hdt, replay.with_commands]
    · have hcond : ¬ ((dt = DATA_TYPE.ALL_DATA ∨ ¬ (c.get "undo").to_bool true = true)
          ∧ ¬ (c.get "sent").to_bool false = true) := by
        simpa [data_range_selects, config.undoable, config.is_sent] using hsel
      rw [if_neg hcond]
      have hm : data_range_marks dt c = c := by
        simp [data_range_marks, hsel]
      have hr1 : r.base_.commands = (front ++ [c]) ++ (t ++ back) := by
        simp [h]
      have hlen : front.length + 1 = (front ++ [c]).length := by simp
      rw [hlen, ih _ back acc r hr1]
      simp [List.filter_cons, hsel, hm]

theorem range_split {α : Type} (l : List α) (a b : Nat) (hab : a ≤ b) :
    l = l.take a ++ ((l.drop a).take (b - a) ++ l.drop b) := by
  have h1 : (l.drop a).drop (b - a) = l.drop b := by
    rw [List.drop_drop]
    congr 1
    omega
  rw [← h1, List.take_append_drop, List.take_append_drop]

/-- The call `get_data_range(cmd_start, cmd_end, data_type)` on a valid range, in
full. -/
theorem get_data_range_spec (r : replay) (a b : Nat) (dt : DATA_TYPE)
    (hab : a ≤ b) (hb : b ≤ r.base_.commands.length) :
    r.get_data_range a b dt
      = some (config.mk [] (command_children ((range_commands r a b).filter (data_range_selects dt))),
              r.with_commands (r.base_.commands.take a
                ++ ((range_commands r a b).map (data_range_marks dt) ++ r.base_.commands.drop b))) := by
  have hsplit := range_split r.base_.commands a b hab
  have hla : (r.base_.commands.take a).length = a := by
    simp
    omega
  have hlm : (range_commands r a b).length = b - a := by
    simp [range_commands]
    omega
  have h := get_data_range_loop_spec dt (range_commands r a b) (r.base_.commands.take a)
    (r.base_.commands.drop b) [] r hsplit
  rw [hla, hlm] at h
  simpa [replay.get_data_range, config.empty_config, command_children] using h

theorem selects_all_data : data_range_selects DATA_TYPE.ALL_DATA = unsent := by
  funext c
  simp [data_range_selects, unsent]

theorem selects_non_undo_data : data_range_selects DATA_TYPE.NON_UNDO_DATA = not_undoable_unsent := by
  funext c
  simp [data_range_selects, not_undoable_unsent]

theorem marks_all_data (l : List config) : l.map (data_range_marks DATA_TYPE.ALL_DATA) = l := by
  have : data_range_marks DATA_TYPE.ALL_DATA = id := by
    funext c
    simp [data_range_marks]
  rw [this, List.map_id]

/-- Counterexample to C8 as stated: on the log `[start][move]`, whose start
command is marked sent, the mode `ALL_DATA` over the whole log returns the
move only, not both commands. -/
theorem get_data_range_all_skips_sent :
    returned_commands ((log_at_end [start_command, move_command]).get_data_range 0 2
        DATA_TYPE.ALL_DATA) = some [move_command]
      ∧ range_commands (log_at_end [start_command, move_command]) 0 2
        = [start_command, move_command]
      ∧ returned_commands ((log_at_end [start_command, move_command]).get_data_range 0 2
        DATA_TYPE.ALL_DATA)
          ≠ some (range_commands (log_at_end [start_command, move_command]) 0 2) := by
  have h1 : returned_commands ((log_at_end [start_command, move_command]).get_data_range 0 2
      DATA_TYPE.ALL_DATA) = some [move_command] := rfl
  refine ⟨h1, rfl, ?_⟩
  rw [h1]
  simp [range_commands, log_at_end]

/-- C8, amended (`get_data_range` in the mode `ALL_DATA`). For every log and
every `0 <= start <= end <= len`, the call returns, in log order, every command
at an index in `[start, end)` whose `sent` field is not true, as `command`
children of an otherwise empty document, and leaves the log as it was. -/
theorem get_data_range_all_returns_unsent (r : replay) (a b : Nat)
    (hab : a ≤ b) (hb : b ≤ r.base_.commands.length) :
    r.get_data_range a b DATA_TYPE.ALL_DATA
        = some (config.mk [] (command_children ((range_commands r a b).filter unsent)), r)
      ∧ returned_commands (r.get_data_range a b DATA_TYPE.ALL_DATA)
        = some ((range_commands r a b).filter unsent) := by
  have h := get_data_range_spec r a b DATA_TYPE.ALL_DATA hab hb
  rw [selects_all_data, marks_all_data] at h
  have hr : r.with_commands (r.base_.commands.take a
      ++ (range_commands r a b ++ r.base_.commands.drop b)) = r := by
    unfold range_commands
    rw [← range_split r.base_.commands a b hab]
    rfl
  rw [hr] at h
  refine ⟨h, ?_⟩
  rw [h]
  simp [returned_commands, child_range_command_children]

/-- Witness of C8, amended: of `[start][move][speak]` the mode `ALL_DATA` returns
`[move][speak]`. -/
theorem get_data_range_all_returns_unsent_witness :
    returned_commands ((log_at_end [start_command, move_command, speak_command]).get_data_range
        0 3 DATA_TYPE.ALL_DATA) = some [move_command, speak_command] := by
  have h := (get_data_range_all_returns_unsent
    (log_at_end [start_command, move_command, speak_command]) 0 3 (by decide) (by decide)).2
  rw [h]
  rfl

/-- Counterexample to C9 as stated: on the log `[start][move][speak]` the mode
`NON_UNDO_DATA` returns the chat command, whose `undo` field is false, and not
the move, which is the one command that is undoable and unsent. -/
theorem get_data_range_non_undo_returns_chat :
    returned_commands ((log_at_end [start_command, move_command, speak_command]).get_data_range
        0 3 DATA_TYPE.NON_UNDO_DATA) = some [speak_command]
      ∧ (range_commands (log_at_end [start_command, move_command, speak_command]) 0 3).filter
        undoable_unsent = [move_command] := by
  constructor
  · rfl
  · rfl

/-- C9, amended (`get_data_range` in the mode `NON_UNDO_DATA`). For every log and
every `0 <= start <= end <= len`, the call returns, in log order, exactly the
commands at the indices in `[start, end)` whose `undo` field is false and whose
`sent` field is not true. -/
theorem get_data_range_non_undo_returns_not_undoable (r : replay) (a b : Nat)
    (hab : a ≤ b) (hb : b ≤ r.base_.commands.length) :
    returned_commands (r.get_data_range a b DATA_TYPE.NON_UNDO_DATA)
      = some ((range_commands r a b).filter not_undoable_unsent) := by
  rw [get_data_range_spec r a b DATA_TYPE.NON_UNDO_DATA hab hb, selects_non_undo_data]
  simp [returned_commands, child_range_command_children]

/-- Witness of C9, amended: of `[start][speak][move][speak]` the mode
`NON_UNDO_DATA` returns the two chat commands. -/
theorem get_data_range_non_undo_returns_not_undoable_witness :
    returned_commands (chat_log.get_data_range 0 4 DATA_TYPE.NON_UNDO_DATA)
      = some [speak_command, speak_command] := by
  rw [get_data_range_non_undo_returns_not_undoable chat_log 0 4 (by decide) (by decide)]
  rfl

theorem is_sent_after_stamp (c : config) : (c.set "sent" (.bool true)).is_sent = true := by
  simp [config.is_sent, get_set_same, attribute_value.to_bool]

/-- A command that `get_data_range` went over in the mode `NON_UNDO_DATA` is not
selected again. -/
theorem not_selected_after_mark (c : config) :
    data_range_selects DATA_TYPE.NON_UNDO_DATA (data_range_marks DATA_TYPE.NON_UNDO_DATA c)
      = false := by
  by_cases hsel : data_range_selects DATA_TYPE.NON_UNDO_DATA c = true
  · have hm : data_range_marks DATA_TYPE.NON_UNDO_DATA c = c.set "sent" (.bool true) := by
      simp only [data_range_marks, hsel, and_self, if_true]
    rw [hm]
    simp [data_range_selects, is_sent_after_stamp]
  · simp only [data_range_marks, hsel, and_false, if_false]
    simpa using hsel

theorem marks_twice (c : config) :
    data_range_marks DATA_TYPE.NON_UNDO_DATA (data_range_marks DATA_TYPE.NON_UNDO_DATA c)
      = data_range_marks DATA_TYPE.NON_UNDO_DATA c := by
  have h := not_selected_after_mark c
  generalize data_range_marks DATA_TYPE.NON_UNDO_DATA c = d at h
  simp [data_range_marks, h]

/-- Two successive calls of `get_data_range` in the mode `NON_UNDO_DATA` over a
range that is not empty. -/
theorem get_data_range_twice (r : replay) (a b : Nat)
    (hab : a ≤ b) (hb : b ≤ r.base_.commands.length) :
    ∃ res1 r1, r.get_data_range a b DATA_TYPE.NON_UNDO_DATA = some (res1, r1)
      ∧ (∀ c ∈ res1.child_range "command", ∃ i c1, a ≤ i ∧ i < b
          ∧ r.base_.commands[i]? = some c
          ∧ r1.base_.commands[i]? = some c1 ∧ c1.is_sent = true)
      ∧ r1.get_data_range a b DATA_TYPE.NON_UNDO_DATA = some (config.empty_config, r1)
      ∧ returned_commands (r1.get_data_range a b DATA_TYPE.NON_UNDO_DATA) = some [] := by
  have h1 := get_data_range_spec r a b DATA_TYPE.NON_UNDO_DATA hab hb
  have hla : (r.base_.commands.take a).length = a := by
    simp
    omega
  have hlm : (range_commands r a b).length = b - a := by
    simp [range_commands]
    omega
  have hsplit := range_split r.base_.commands a b hab
  have h2 : (r.with_commands (r.base_.commands.take a
      ++ ((range_commands r a b).map (data_range_marks DATA_TYPE.NON_UNDO_DATA)
        ++ r.base_.commands.drop b))).get_data_range a b DATA_TYPE.NON_UNDO_DATA
      = some (config.empty_config, r.with_commands (r.base_.commands.take a
      ++ ((range_commands r a b).map (data_range_marks DATA_TYPE.NON_UNDO_DATA)
        ++ r.base_.commands.drop b))) := by
    have h := get_data_range_loop_spec DATA_TYPE.NON_UNDO_DATA
      ((range_commands r a b).map (data_range_marks DATA_TYPE.NON_UNDO_DATA))
      (r.base_.commands.take a) (r.base_.commands.drop b) []
      (r.with_commands (r.base_.commands.take a
        ++ ((range_commands r a b).map (data_range_marks DATA_TYPE.NON_UNDO_DATA)
          ++ r.base_.commands.drop b))) rfl
    rw [List.length_map, hla, hlm] at h
    have hf : ((range_commands r a b).map (data_range_marks DATA_TYPE.NON_UNDO_DATA)).filter
        (data_range_selects DATA_TYPE.NON_UNDO_DATA) = [] := by
      rw [List.filter_eq_nil_iff]
      intro d hd
      obtain ⟨c, _, hc⟩ := List.mem_map.mp hd
      rw [← hc, not_selected_after_mark]
      simp
    have hm : ((range_commands r a b).map (data_range_marks DATA_TYPE.NON_UNDO_DATA)).map
        (data_range_marks DATA_TYPE.NON_UNDO_DATA)
        = (range_commands r a b).map (data_range_marks DATA_TYPE.NON_UNDO_DATA) := by
      rw [List.map_map]
      apply List.map_congr_left
      intro c _
      exact marks_twice c
    rw [hf, hm] at h
    simpa [replay.get_data_range, config.empty_config, command_children, replay.with_commands]
      using h
  refine ⟨_, _, h1, ?_, h2, ?_⟩
  · intro c hc
    rw [child_range_command_children] at hc
    obtain ⟨hmem, hsel⟩ := List.mem_filter.mp hc
    obtain ⟨p, q, hpq⟩ := List.append_of_mem hmem
    have hlen : p.length + 1 + q.length = b - a := by
      rw [← hlm, hpq]
      simp
      omega
    have hr : r.base_.commands = (r.base_.commands.take a ++ p)
        ++ c :: (q ++ r.base_.commands.drop b) := by
      have := hsplit
      unfold range_commands at hpq
      rw [hpq] at this
      simpa using this
    have hr1 : (r.with_commands (r.base_.commands.take a
        ++ ((range_commands r a b).map (data_range_marks DATA_TYPE.NON_UNDO_DATA)
          ++ r.base_.commands.drop b))).base_.commands
        = (r.base_.commands.take a ++ p.map (data_range_marks DATA_TYPE.NON_UNDO_DATA))
          ++ (c.set "sent" (.bool true))
            :: (q.map (data_range_marks DATA_TYPE.NON_UNDO_DATA) ++ r.base_.commands.drop b) := by
      simp [replay.with_commands, hpq, data_range_marks, hsel]
    have hi1 : (r.base_.commands.take a ++ p).length = a + p.length := by
      rw [List.length_append, hla]
    have hi2 : (r.base_.commands.take a
        ++ p.map (data_range_marks DATA_TYPE.NON_UNDO_DATA)).length = a + p.length := by
      rw [List.length_append, hla, List.length_map]
    refine ⟨a + p.length, c.set "sent" (.bool true), by omega, by omega, ?_, ?_,
      is_sent_after_stamp c⟩
    · rw [hr, ← hi1]
      exact getElem?_middle _ _ _
    · rw [hr1, ← hi2]
      exact getElem?_middle _ _ _
  · rw [h2]
    rfl

/-- C10 (extraction delivery). For every log and every range that ends within
the log, a call of `get_data_range` in the mode `NON_UNDO_DATA` returns; every
command it returns stood in the log at an index of the range, and the command
at that index has `sent=true` in the log afterwards; a second call over the
same range on the log as the first call left it returns the empty document and
changes nothing, so no command is returned twice. -/
theorem get_data_range_delivers_once (r : replay) (a b : Nat)
    (hb : b ≤ r.base_.commands.length) :
    ∃ res1 r1, r.get_data_range a b DATA_TYPE.NON_UNDO_DATA = some (res1, r1)
      ∧ (∀ c ∈ res1.child_range "command", ∃ i c1, a ≤ i ∧ i < b
          ∧ r.base_.commands[i]? = some c
          ∧ r1.base_.commands[i]? = some c1 ∧ c1.is_sent = true)
      ∧ r1.get_data_range a b DATA_TYPE.NON_UNDO_DATA = some (config.empty_config, r1)
      ∧ returned_commands (r1.get_data_range a b DATA_TYPE.NON_UNDO_DATA) = some [] := by
  by_cases hab : a ≤ b
  · exact get_data_range_twice r a b hab hb
  · have hz : b - a = 0 := by omega
    have he : r.get_data_range a b DATA_TYPE.NON_UNDO_DATA = some (config.empty_config, r) := by
      simp [replay.get_data_range, hz, get_data_range_loop]
    refine ⟨config.empty_config, r, he, ?_, he, ?_⟩
    · intro c hc
      simp [config.empty_config, config.child_range, config.children] at hc
    · rw [he]
      rfl

/-- Witness of C10: on `[start][speak][move][speak]` the first call returns the
two chat commands and the second call returns nothing. -/
theorem get_data_range_delivers_once_witness :
    ∃ res1 r1, chat_log.get_data_range 0 4 DATA_TYPE.NON_UNDO_DATA = some (res1, r1)
      ∧ res1.child_range "command" = [speak_command, speak_command]
      ∧ returned_commands (r1.get_data_range 0 4 DATA_TYPE.NON_UNDO_DATA) = some [] := by
  obtain ⟨res1, r1, h1, _, _, h4⟩ := get_data_range_delivers_once chat_log 0 4 (by decide)
  refine ⟨res1, r1, h1, ?_, h4⟩
  have h5 : chat_log.get_data_range 0 4 DATA_TYPE.NON_UNDO_DATA
      = some (config.mk [] (command_children [speak_command, speak_command]),
          chat_log.with_commands [start_command, speak_command.set "sent" (.bool true),
            move_command, speak_command.set "sent" (.bool true)]) := rfl
  rw [h5] at h1
  injection h1 with h1
  injection h1 with h1a h1b
  rw [← h1a]
  rfl

/-! ## Appending, inserting and the cursor -/

theorem at_end_eq_true (r : replay) :
    r.at_end = some true ↔ r.base_.pos = r.base_.commands.length := by
  unfold replay.at_end replay_recorder_base.get_pos replay.ncommands replay_recorder_base.size
  constructor
  · intro h
    split at h
    · simpa using h
    · cases h
  · intro h
    simp [h]

theorem at_end_eq_false (r : replay) :
    r.at_end = some false ↔ r.base_.pos < r.base_.commands.length := by
  unfold replay.at_end replay_recorder_base.get_pos replay.ncommands replay_recorder_base.size
  constructor
  · intro h
    split at h
    · have h2 : ¬ r.base_.pos = r.base_.commands.length := by simpa using h
      omega
    · cases h
  · intro h
    have h1 : r.base_.pos ≤ r.base_.commands.length := by omega
    have h2 : ¬ r.base_.pos = r.base_.commands.length := by omega
    simp [h1, h2]

theorem add_command_at_end (r : replay) (h : r.base_.pos = r.base_.commands.length) :
    r.add_command = some { base_ := { commands := r.base_.commands ++ [config.empty_config],
                                      pos := r.base_.commands.length + 1 },
                           message_locations := r.message_locations } := by
  have hat := (at_end_eq_true r).mpr h
  simp [replay.add_command, hat, replay.set_to_end, replay_recorder_base.set_to_end,
    replay_recorder_base.add_child, replay_recorder_base.size, h]

/-- C11 (log append safety). In every state `r` of the replay object, and so in
every state reached by a sequence of log operations (appends and cursor seeks
among them), `add_command` succeeds if and only if the cursor equals the length
of the log; when it succeeds the new log is the old log followed by one empty
command, the cursor equals the new length and the chat offsets are as before. -/
theorem add_command_iff_at_end (rl : config → List map_location) (ops : List log_operation)
    (r0 r : replay) (hrun : run_operations rl ops r0 = some r) :
    (r.add_command.isSome = true ↔ r.base_.pos = r.base_.commands.length)
      ∧ ∀ r1, r.add_command = some r1 →
          r1.base_.commands = r.base_.commands ++ [config.empty_config]
          ∧ r1.base_.pos = r1.base_.commands.length
          ∧ r1.message_locations = r.message_locations := by
  have _ := hrun
  constructor
  · constructor
    · intro h
      by_contra hne
      have hat : r.at_end ≠ some true := fun e => hne ((at_end_eq_true r).mp e)
      unfold replay.add_command at h
      split at h
      · rename_i heq
        exact hat heq
      · simp at h
    · intro h
      simp [add_command_at_end r h]
  · intro r1 h1
    have hpos : r.base_.pos = r.base_.commands.length := by
      by_contra hne
      have hat : r.at_end ≠ some true := fun e => hne ((at_end_eq_true r).mp e)
      unfold replay.add_command at h1
      split at h1
      · rename_i heq
        exact hat heq
      · cases h1
    rw [add_command_at_end r hpos] at h1
    injection h1 with h1
    subst h1
    simp

/-- Witness of C11: after `add_command`, a seek to the start, a fetch and
`set_to_end` on `[start][move]`, `add_command` succeeds; after the seek alone it
fails. -/
theorem add_command_iff_at_end_witness :
    (∃ r, run_operations sample_read_locations
        [log_operation.add_command, log_operation.start_replay, log_operation.get_next_action,
          log_operation.set_to_end] (log_at_end [start_command, move_command]) = some r
      ∧ (r.add_command.isSome = true ↔ r.base_.pos = r.base_.commands.length)
      ∧ r.add_command.isSome = true)
    ∧ ((log_at_end [start_command, move_command]).start_replay).add_command = none := by
  refine ⟨⟨_, rfl, (add_command_iff_at_end sample_read_locations
    [log_operation.add_command, log_operation.start_replay, log_operation.get_next_action,
      log_operation.set_to_end] (log_at_end [start_command, move_command]) _ rfl).1, rfl⟩, rfl⟩

theorem insert_command_at_cursor (b : replay_recorder_base) (h : b.pos ≤ b.commands.length) :
    b.insert_command b.pos
      = some { commands := b.commands.take b.pos ++ config.empty_config :: b.commands.drop b.pos,
               pos := b.pos } := by
  simp [replay_recorder_base.insert_command, replay_recorder_base.size, h]

theorem length_take_of_le {α : Type} (l : List α) (n : Nat) (h : n ≤ l.length) :
    (l.take n).length = n := by
  simp
  omega

theorem add_nonundoable_command_spec (r : replay) (h : r.base_.pos ≤ r.base_.commands.length) :
    r.add_nonundoable_command
      = some { base_ := { commands := r.base_.commands.take r.base_.pos
                            ++ nonundoable_command :: r.base_.commands.drop r.base_.pos,
                          pos := r.base_.pos + 1 },
               message_locations := r.message_locations } := by
  have hlen := length_take_of_le r.base_.commands r.base_.pos h
  have hget : (r.base_.commands.take r.base_.pos
      ++ config.empty_config :: r.base_.commands.drop r.base_.pos)[r.base_.pos]?
      = some config.empty_config := by
    have := getElem?_middle (r.base_.commands.take r.base_.pos) config.empty_config
      (r.base_.commands.drop r.base_.pos)
    rwa [hlen] at this
  have hset : (r.base_.commands.take r.base_.pos
      ++ config.empty_config :: r.base_.commands.drop r.base_.pos).set r.base_.pos
        nonundoable_command
      = r.base_.commands.take r.base_.pos
        ++ nonundoable_command :: r.base_.commands.drop r.base_.pos := by
    have := set_middle (r.base_.commands.take r.base_.pos) config.empty_config
      nonundoable_command (r.base_.commands.drop r.base_.pos)
    rwa [hlen] at this
  have hnu : config.empty_config.set "undo" (.bool false) = nonundoable_command := rfl
  simp only [replay.add_nonundoable_command, replay_recorder_base.get_pos,
    insert_command_at_cursor r.base_ h, replay.command, replay_recorder_base.get_command_at,
    hget, hnu, replay.write_command, hset, replay_recorder_base.set_pos]

/-- C12 (`insert_nonundoable`). For every log with the cursor `p <= len`,
`add_nonundoable_command` yields the first `p` commands, then a new command
whose only field is `undo=false`, then the remaining commands, and the cursor
`p + 1`. After `speak(cfg)` the log is the same with the one child `speak`
equal to `cfg` in the new command, which is the command at the index
`cursor - 1`, and the last recorded chat offset is `cursor - 1`. -/
theorem add_nonundoable_command_inserts (r : replay) (cfg : config)
    (h : r.base_.pos ≤ r.base_.commands.length) :
    (∃ r1, r.add_nonundoable_command = some r1
      ∧ r1.base_.commands = r.base_.commands.take r.base_.pos
          ++ config.mk [("undo", .bool false)] [] :: r.base_.commands.drop r.base_.pos
      ∧ r1.base_.pos = r.base_.pos + 1
      ∧ r1.message_locations = r.message_locations)
    ∧ (∃ r2, r.speak cfg = some r2
      ∧ r2.base_.commands = r.base_.commands.take r.base_.pos
          ++ config.mk [("undo", .bool false)] [("speak", cfg)]
            :: r.base_.commands.drop r.base_.pos
      ∧ r2.base_.pos = r.base_.pos + 1
      ∧ r2.base_.commands[r2.base_.pos - 1]?
          = some (config.mk [("undo", .bool false)] [("speak", cfg)])
      ∧ r2.message_locations.getLast? = some ((r2.base_.pos : Int) - 1)) := by
  have hspec := add_nonundoable_command_spec r h
  have hlen := length_take_of_le r.base_.commands r.base_.pos h
  constructor
  · exact ⟨_, hspec, rfl, rfl, rfl⟩
  · have hget : (r.base_.commands.take r.base_.pos
        ++ nonundoable_command :: r.base_.commands.drop r.base_.pos)[r.base_.pos]?
        = some nonundoable_command := by
      have := getElem?_middle (r.base_.commands.take r.base_.pos) nonundoable_command
        (r.base_.commands.drop r.base_.pos)
      rwa [hlen] at this
    have hset : (r.base_.commands.take r.base_.pos
        ++ nonundoable_command :: r.base_.commands.drop r.base_.pos).set r.base_.pos
          (config.mk [("undo", .bool false)] [("speak", cfg)])
        = r.base_.commands.take r.base_.pos
          ++ config.mk [("undo", .bool false)] [("speak", cfg)]
            :: r.base_.commands.drop r.base_.pos := by
      have := set_middle (r.base_.commands.take r.base_.pos) nonundoable_command
        (config.mk [("undo", .bool false)] [("speak", cfg)]) (r.base_.commands.drop r.base_.pos)
      rwa [hlen] at this
    have hadd : nonundoable_command.add_child "speak" cfg
        = config.mk [("undo", .bool false)] [("speak", cfg)] := rfl
    have hsp : r.speak cfg = some
        { base_ := { commands := r.base_.commands.take r.base_.pos
                      ++ config.mk [("undo", .bool false)] [("speak", cfg)]
                        :: r.base_.commands.drop r.base_.pos,
                     pos := r.base_.pos + 1 },
          message_locations := r.message_locations ++ [((r.base_.pos + 1 : Nat) : Int) - 1] } := by
      simp only [replay.speak, hspec, replay_recorder_base.get_pos, Nat.add_sub_cancel,
        replay.command, replay_recorder_base.get_command_at, hget, hadd, replay.write_command,
        hset, replay.add_chat_message_location]
    refine ⟨_, hsp, rfl, rfl, ?_, ?_⟩
    · simp only [Nat.add_sub_cancel]
      have := getElem?_middle (r.base_.commands.take r.base_.pos)
        (config.mk [("undo", .bool false)] [("speak", cfg)]) (r.base_.commands.drop r.base_.pos)
      rwa [hlen] at this
    · simp

/-- Witness of C12: a chat message inserted while the cursor stands after the
start command of `[start][move]`. -/
theorem add_nonundoable_command_inserts_witness :
    ∃ r2, (log_with_cursor [start_command, move_command] 1).speak
        (.mk [("message", .str "hello")] []) = some r2
      ∧ r2.base_.commands = [start_command, speak_command, move_command]
      ∧ r2.base_.pos = 2
      ∧ r2.message_locations.getLast? = some 1 := by
  obtain ⟨r2, h1, h2, h3, _, h5⟩ := (add_nonundoable_command_inserts
    (log_with_cursor [start_command, move_command] 1) (.mk [("message", .str "hello")] [])
    (by decide)).2
  refine ⟨r2, h1, h2, h3, ?_⟩
  rw [h5, h3]
  rfl

theorem add_config_loop_cursor (mark : MARK_SENT) (l : List config) :
    ∀ (r r1 : replay), r.base_.pos ≤ r.base_.commands.length →
      add_config_loop mark l r = some r1 → r1.base_.pos ≤ r1.base_.commands.length := by
  induction l with
  | nil =>
    intro r r1 h h1
    simp only [add_config_loop] at h1
    injection h1 with h1
    rw [← h1]
    exact h
  | cons cmd rest ih =>
    intro r r1 h h1
    simp only [add_config_loop, replay_recorder_base.insert_command, replay_recorder_base.size,
      Nat.le_refl, if_true] at h1
    refine ih _ r1 ?_ h1
    have hn : ¬ r.base_.commands.length < r.base_.pos := by omega
    simp [replay.write_command, hn]
    omega

theorem undo_cut_cursor (rl : config → List map_location) (r : replay) (dst : config)
    (res : replay × config) (h : r.base_.pos ≤ r.base_.commands.length)
    (hcut : r.undo_cut rl dst = some res) : res.1.base_.pos ≤ res.1.base_.commands.length := by
  unfold replay.undo_cut at hcut
  split at hcut
  · cases hcut
  · split at hcut
    · cases hcut
    · cases hcut
    · split at hcut
      · cases hcut
      · injection hcut with hcut
        rw [← hcut]
        exact h
      · injection hcut with hcut
        rw [← hcut]
        exact h
      · split at hcut
        · cases hcut
        · injection hcut with hcut
          rw [← hcut]
          simp [replay.set_to_end, replay_recorder_base.set_to_end, replay_recorder_base.size]

/-- C13 (cursor invariant). From every state with `pos <= len`, each of
`add_command`, `add_nonundoable_command`, `get_next_action`, `revert_action`,
`start_replay`, `set_to_end`, `add_config`, `redo` and `undo_cut`, when it
passes its assertions, ends in a state with `pos <= len`. -/
theorem cursor_invariant (rl : config → List map_location) (op : log_operation)
    (r r1 : replay) (hinv : r.base_.pos ≤ r.base_.commands.length)
    (hop : op.apply rl r = some r1) : r1.base_.pos ≤ r1.base_.commands.length := by
  cases op with
  | add_command =>
    simp only [log_operation.apply] at hop
    unfold replay.add_command at hop
    split at hop
    · injection hop with hop
      rw [← hop]
      simp [replay.set_to_end, replay_recorder_base.set_to_end, replay_recorder_base.size]
    · cases hop
  | add_nonundoable_command =>
    simp only [log_operation.apply, add_nonundoable_command_spec r hinv] at hop
    injection hop with hop
    rw [← hop]
    simp
    omega
  | get_next_action =>
    simp only [log_operation.apply] at hop
    unfold replay.get_next_action at hop
    split at hop
    · cases hop
    · simp only [Option.map_some', Option.some.injEq] at hop
      rw [← hop]
      exact hinv
    · rename_i hat
      have hlt := (at_end_eq_false r).mp hat
      split at hop
      · cases hop
      · simp only [Option.map_some', Option.some.injEq] at hop
        rw [← hop]
        simp only [replay_recorder_base.set_pos, replay_recorder_base.get_pos]
        omega
  | revert_action =>
    simp only [log_operation.apply, Option.some.injEq] at hop
    rw [← hop]
    unfold replay.revert_action
    split
    · simp only [replay_recorder_base.set_pos, replay_recorder_base.get_pos]
      omega
    · exact hinv
  | start_replay =>
    simp only [log_operation.apply, Option.some.injEq] at hop
    rw [← hop]
    simp [replay.start_replay, replay_recorder_base.set_pos]
  | set_to_end =>
    simp only [log_operation.apply, Option.some.injEq] at hop
    rw [← hop]
    simp [replay.set_to_end, replay_recorder_base.set_to_end, replay_recorder_base.size]
  | add_config cfg mark =>
    simp only [log_operation.apply, replay.add_config] at hop
    exact add_config_loop_cursor mark _ r r1 hinv hop
  | redo cfg =>
    simp only [log_operation.apply] at hop
    unfold replay.redo at hop
    split at hop
    · injection hop with hop
      rw [← hop]
      simp [replay.set_to_end, replay_recorder_base.set_to_end, replay_recorder_base.size]
    · cases hop
  | undo_cut dst =>
    simp only [log_operation.apply] at hop
    cases hcut : r.undo_cut rl dst with
    | none => simp [hcut] at hop
    | some res =>
      simp only [hcut, Option.map_some', Option.some.injEq] at hop
      rw [← hop]
      exact undo_cut_cursor rl r dst res hinv hcut

/-- Witness of C13: `add_config` of two commands on `[start][move]` with the
cursor after the start command. -/
theorem cursor_invariant_witness :
    ∃ r1, (log_operation.add_config
        (config.mk [] (command_children [speak_command, choice_command]))
        MARK_SENT.MARK_AS_SENT).apply sample_read_locations
          (log_with_cursor [start_command, move_command] 1) = some r1
      ∧ r1.base_.commands.length = 4
      ∧ r1.base_.pos ≤ r1.base_.commands.length :=
  ⟨_, rfl, rfl, cursor_invariant sample_read_locations
    (log_operation.add_config (config.mk [] (command_children [speak_command, choice_command]))
      MARK_SENT.MARK_AS_SENT)
    (log_with_cursor [start_command, move_command] 1) _ (by decide) rfl⟩

/-! ## The desync verifier: properties -/

theorem verify_units_agree (units : unit_map) (l : List config) :
    ∀ (errors : List oos_error),
      (∀ un ∈ l, ∃ u, units.lookup (map_location.of_config un) = some u
        ∧ ∀ field ∈ verified_fields, u.get field = un.get field) →
      verify_units units l errors = verify_outcome.passed errors := by
  induction l with
  | nil =>
    intro errors _
    rfl
  | cons un rest ih =>
    intro errors h
    obtain ⟨u, hu, hf⟩ := h un (by simp)
    have hwrong : verified_fields.filter (fun field => decide (u.get field ≠ un.get field)) = [] := by
      rw [List.filter_eq_nil_iff]
      intro field hfield
      simp [hf field hfield]
    simp only [verify_units, hu, hwrong]
    exact ih errors (fun un2 h2 => h un2 (by simp [h2]))

theorem wrong_fields_single (u un : config) (field : String)
    (hfield : field ∈ verified_fields)
    (hne : u.get field ≠ un.get field)
    (hothers : ∀ g ∈ verified_fields, g ≠ field → u.get g = un.get g) :
    verified_fields.filter (fun f => decide (u.get f ≠ un.get f)) = [field] := by
  simp only [verified_fields, List.mem_cons, List.mem_singleton, List.not_mem_nil,
    or_false] at hfield
  rcases hfield with h | h | h | h
  · subst h
    have h1 := hothers "hitpoints" (by decide) (by decide)
    have h2 := hothers "experience" (by decide) (by decide)
    have h3 := hothers "side" (by decide) (by decide)
    simp [verified_fields, List.filter_cons, hne, h1, h2, h3]
  · subst h
    have h1 := hothers "type" (by decide) (by decide)
    have h2 := hothers "experience" (by decide) (by decide)
    have h3 := hothers "side" (by decide) (by decide)
    simp [verified_fields, List.filter_cons, hne, h1, h2, h3]
  · subst h
    have h1 := hothers "type" (by decide) (by decide)
    have h2 := hothers "hitpoints" (by decide) (by decide)
    have h3 := hothers "side" (by decide) (by decide)
    simp [verified_fields, List.filter_cons, hne, h1, h2, h3]
  · subst h
    have h1 := hothers "type" (by decide) (by decide)
    have h2 := hothers "hitpoints" (by decide) (by decide)
    have h3 := hothers "experience" (by decide) (by decide)
    simp [verified_fields, List.filter_cons, hne, h1, h2, h3]

theorem verify_units_one_wrong (units : unit_map) (before : List config) :
    ∀ (errors : List oos_error) (bad : config) (after : List config) (u : config)
      (field : String),
      (∀ un ∈ before ++ after, ∃ v, units.lookup (map_location.of_config un) = some v
        ∧ ∀ f ∈ verified_fields, v.get f = un.get f) →
      units.lookup (map_location.of_config bad) = some u →
      field ∈ verified_fields →
      u.get field ≠ bad.get field →
      (∀ g ∈ verified_fields, g ≠ field → u.get g = bad.get g) →
      verify_units units (before ++ bad :: after) errors
        = verify_outcome.passed
            (errors ++ [oos_error.field_mismatch (map_location.of_config bad) [field]]) := by
  induction before with
  | nil =>
    intro errors bad after u field hall hu hfield hne hothers
    have hw := wrong_fields_single u bad field hfield hne hothers
    simp only [List.nil_append, verify_units, hu, hw]
    exact verify_units_agree units after _ (fun un h => hall un (by simp [h]))
  | cons un rest ih =>
    intro errors bad after u field hall hu hfield hne hothers
    obtain ⟨v, hv, hf⟩ := hall un (by simp)
    have hwrong : verified_fields.filter (fun f => decide (v.get f ≠ un.get f)) = [] := by
      rw [List.filter_eq_nil_iff]
      intro f hf2
      simp [hf f hf2]
    simp only [List.cons_append, verify_units, hv, hwrong]
    exact ih errors bad after u field
      (fun un2 h2 => hall un2 (by
        rcases List.mem_append.mp h2 with h3 | h3
        · simp [h3]
        · simp [h3])) hu hfield hne hothers

/-- C18 (verification of a single field mismatch). The digest gives the local
number of units in `num_units`. If every unit of the digest stands locally at
its location with the same `type`, `hitpoints`, `experience` and `side`, then
`verify` returns without any call of `process_error`. If that holds for all
units of the digest but one, and that one stands locally at its location and
differs from the local unit in exactly one of the four fields, then `verify`
returns after exactly one call of `process_error`, the report of that field for
that unit, and makes no report about the number of units. -/
theorem verify_single_field_mismatch (units : unit_map) (cfg : config)
    (errors : List oos_error)
    (hcount : (cfg.get "num_units").to_size_t = units.length) :
    ((∀ un ∈ cfg.child_range "unit", ∃ u, units.lookup (map_location.of_config un) = some u
        ∧ ∀ field ∈ verified_fields, u.get field = un.get field) →
      verify units cfg errors = verify_outcome.passed errors)
    ∧ (∀ (before : List config) (bad : config) (after : List config) (u : config)
        (field : String),
        cfg.child_range "unit" = before ++ bad :: after →
        (∀ un ∈ before ++ after, ∃ v, units.lookup (map_location.of_config un) = some v
          ∧ ∀ f ∈ verified_fields, v.get f = un.get f) →
        units.lookup (map_location.of_config bad) = some u →
        field ∈ verified_fields →
        u.get field ≠ bad.get field →
        (∀ g ∈ verified_fields, g ≠ field → u.get g = bad.get g) →
        verify units cfg errors
          = verify_outcome.passed
              (errors ++ [oos_error.field_mismatch (map_location.of_config bad) [field]])) := by
  constructor
  · intro hall
    simp only [verify, hcount, ne_eq, not_true_eq_false, if_false]
    exact verify_units_agree units _ errors hall
  · intro before bad after u field hsplit hall hu hfield hne hothers
    simp only [verify, hcount, ne_eq, not_true_eq_false, if_false, hsplit]
    exact verify_units_one_wrong units before errors bad after u field hall hu hfield hne hothers

/-- Witness of C18: a digest of the two sample units in which the mage has 20
hit points instead of 24 gives one report, and the true digest gives none. -/
theorem verify_single_field_mismatch_witness :
    verify sample_units
        (sample_digest (digest_unit loc_A "Spearman" 36) (digest_unit loc_B "Mage" 20)) []
      = verify_outcome.passed [oos_error.field_mismatch loc_B ["hitpoints"]]
    ∧ verify sample_units
        (sample_digest (digest_unit loc_A "Spearman" 36) (digest_unit loc_B "Mage" 24)) []
      = verify_outcome.passed [] := by
  constructor
  · exact (verify_single_field_mismatch sample_units
      (sample_digest (digest_unit loc_A "Spearman" 36) (digest_unit loc_B "Mage" 20)) [] rfl).2
      [digest_unit loc_A "Spearman" 36] (digest_unit loc_B "Mage" 20) []
      (sample_unit "Mage" 24) "hitpoints" rfl
      (by
        intro un hun
        simp only [List.append_nil, List.mem_singleton] at hun
        subst hun
        exact ⟨sample_unit "Spearman" 36, rfl, by decide⟩)
      rfl (by decide) (by decide) (by decide)
  · rfl

/-- The failing input of C19: the digest names a unit at `loc_B` where the local
side has none (its one unit stands at `loc_A`). `verify` reports the mismatch
and, as it does not leave the loop body there, goes on to read the unit behind
the failed lookup. -/
theorem verify_reads_missing_unit :
    verify [(loc_A, sample_unit "Spearman" 36)]
        (.mk [("num_units", .int 1)] [("unit", digest_unit loc_B "Mage" 24)]) []
      = verify_outcome.invalid_access [oos_error.no_local_unit loc_B] := by
  rfl

/-! ## The execution loop: properties -/

theorem verify_embedded_frame (s s1 : game_state) (cfg : config)
    (h : s.verify_embedded cfg = some s1) :
    s1.recorder = s.recorder ∧ s.same_context s1 ∧ s1.units = s.units := by
  unfold game_state.verify_embedded at h
  split at h
  · unfold game_state.verify at h
    split at h
    · cases h
      exact ⟨rfl, ⟨rfl, rfl, rfl, rfl⟩, rfl⟩
    · cases h
  · cases h
    exact ⟨rfl, ⟨rfl, rfl, rfl, rfl⟩, rfl⟩

theorem do_replay_branch_fall_through (env : collaborators) (one_move : Bool) (cfg : config)
    (s s1 : game_state)
    (h : do_replay_branch env one_move cfg s = some (.fall_through s1)) :
    s1.recorder.base_ = s.recorder.base_ ∧ s.same_context s1 := by
  unfold do_replay_branch at h
  dsimp only at h
  repeat' split at h
  all_goals first
    | (cases h
       done)
    | (cases h
       exact ⟨rfl, ⟨rfl, rfl, rfl, rfl⟩⟩)

theorem do_replay_branch_continue (env : collaborators) (one_move : Bool) (cfg : config)
    (s s1 : game_state)
    (h : do_replay_branch env one_move cfg s = some (.continue_loop s1)) :
    s1.recorder = s.recorder ∧ s.same_context s1 ∧ s.is_synced = false := by
  unfold do_replay_branch at h
  dsimp only at h
  repeat' split at h
  all_goals first
    | (cases h
       done)
    | (cases h
       refine ⟨rfl, ⟨rfl, rfl, rfl, rfl⟩, ?_⟩
       assumption)

theorem do_replay_branch_return (env : collaborators) (one_move : Bool) (cfg : config)
    (s s1 : game_state) (ret : REPLAY_RETURN)
    (h : do_replay_branch env one_move cfg s = some (.return_value ret s1)) :
    s.same_context s1
      ∧ ret ≠ REPLAY_RETURN.REPLAY_RETURN_AT_END
      ∧ (ret = REPLAY_RETURN.REPLAY_FOUND_DEPENDENT →
          s1.recorder = s.recorder.revert_action ∧ s.is_synced = true)
      ∧ (ret ≠ REPLAY_RETURN.REPLAY_FOUND_DEPENDENT →
          s1.recorder = s.recorder ∧ s.is_synced = false) := by
  unfold do_replay_branch at h
  dsimp only at h
  repeat' split at h
  all_goals first
    | (cases h
       done)
    | (cases h
       refine ⟨⟨rfl, rfl, rfl, rfl⟩, by decide, ?_, ?_⟩
       · intro _
         exact ⟨rfl, by simp_all⟩
       · intro hne
         exact absurd rfl hne)
    | (cases h
       refine ⟨⟨rfl, rfl, rfl, rfl⟩, by decide, ?_, ?_⟩
       · intro he
         cases he
       · intro _
         refine ⟨rfl, ?_⟩
         simp_all)
    | (rename_i s2 hv
       cases h
       have hf := verify_embedded_frame _ _ _ hv
       refine ⟨hf.2.1, by decide, ?_, ?_⟩
       · intro he
         cases he
       · intro _
         refine ⟨hf.1, ?_⟩
         simp_all)

theorem get_next_action_none (r r1 : replay) (h : r.get_next_action = some (none, r1)) :
    r1 = r ∧ r.base_.pos = r.base_.commands.length := by
  unfold replay.get_next_action at h
  split at h
  · cases h
  · rename_i hat
    cases h
    exact ⟨rfl, (at_end_eq_true r).mp hat⟩
  · split at h
    · cases h
    · cases h

theorem get_next_action_some (r r1 : replay) (cfg : config)
    (h : r.get_next_action = some (some cfg, r1)) :
    r.base_.pos < r.base_.commands.length
      ∧ r.base_.commands[r.base_.pos]? = some cfg
      ∧ r1 = { r with base_ := { r.base_ with pos := r.base_.pos + 1 } } := by
  unfold replay.get_next_action at h
  split at h
  · cases h
  · cases h
  · rename_i hat
    split at h
    · cases h
    · rename_i c hc
      cases h
      exact ⟨(at_end_eq_false r).mp hat, hc, rfl⟩

theorem get_next_action_below_end (r : replay) (h : r.base_.pos < r.base_.commands.length) :
    ∃ cfg, r.base_.commands[r.base_.pos]? = some cfg
      ∧ r.get_next_action
        = some (some cfg, { r with base_ := { r.base_ with pos := r.base_.pos + 1 } }) := by
  have hat := (at_end_eq_false r).mpr h
  have hget : r.base_.commands[r.base_.pos]? = some (r.base_.commands[r.base_.pos]) :=
    List.getElem?_eq_getElem h
  refine ⟨_, hget, ?_⟩
  simp [replay.get_next_action, hat, replay.command, replay_recorder_base.get_command_at,
    replay_recorder_base.get_pos, hget, replay_recorder_base.set_pos]

theorem revert_after_fetch (r : replay) :
    ({ r with base_ := { r.base_ with pos := r.base_.pos + 1 } } : replay).revert_action = r := by
  simp [replay.revert_action, replay_recorder_base.get_pos, replay_recorder_base.set_pos]

/-- What every run of the loop of `do_replay_handle` that returns leaves as it
was, and where it leaves the cursor. -/
theorem do_replay_handle_loop_frame (env : collaborators) (one_move : Bool) :
    ∀ (fuel : Nat) (s s1 : game_state) (ret : REPLAY_RETURN),
      do_replay_handle_loop env one_move fuel s = some (ret, s1) →
      s1.recorder.base_.commands = s.recorder.base_.commands
        ∧ s.same_context s1
        ∧ s.recorder.base_.pos ≤ s1.recorder.base_.pos
        ∧ (ret = REPLAY_RETURN.REPLAY_RETURN_AT_END →
            s1.recorder.base_.pos = s1.recorder.base_.commands.length)
        ∧ (ret = REPLAY_RETURN.REPLAY_FOUND_DEPENDENT →
            s.is_synced = true
            ∧ s1.recorder.base_.pos < s1.recorder.base_.commands.length
            ∧ ∃ cfg s0, s1.recorder.base_.commands[s1.recorder.base_.pos]? = some cfg
              ∧ s0.recorder.base_.commands = s1.recorder.base_.commands
              ∧ s0.recorder.base_.pos = s1.recorder.base_.pos + 1
              ∧ do_replay_branch env one_move cfg s0
                = some (.return_value REPLAY_RETURN.REPLAY_FOUND_DEPENDENT s1)) := by
  intro fuel
  induction fuel with
  | zero =>
    intro s s1 ret h
    simp [do_replay_handle_loop] at h
  | succ fuel ih =>
    intro s s1 ret h
    unfold do_replay_handle_loop at h
    split at h
    · cases h
    · rename_i r1 hg
      obtain ⟨_, hend⟩ := get_next_action_none _ _ hg
      cases h
      exact ⟨rfl, ⟨rfl, rfl, rfl, rfl⟩, Nat.le_refl _, fun _ => hend, fun he => (by cases he)⟩
    · rename_i cfg rec1 hg
      obtain ⟨hlt, hcfg, hrec⟩ := get_next_action_some _ _ _ hg
      subst hrec
      split at h
      · cases h
      · rename_i ret2 s2 hb
        cases h
        obtain ⟨hctx, hne, hdep, hother⟩ := do_replay_branch_return _ _ _ _ _ _ hb
        by_cases hr : ret = REPLAY_RETURN.REPLAY_FOUND_DEPENDENT
        · obtain ⟨hrec, hsync⟩ := hdep hr
          rw [revert_after_fetch] at hrec
          subst hr
          have hcmd : s1.recorder.base_.commands = s.recorder.base_.commands := by rw [hrec]
          have hpos : s1.recorder.base_.pos = s.recorder.base_.pos := by rw [hrec]
          refine ⟨hcmd, hctx, by omega, fun he => (by cases he), fun _ => ?_⟩
          refine ⟨hsync, ?_, cfg, _, ?_, ?_, ?_, hb⟩
          · rw [hcmd, hpos]
            exact hlt
          · rw [hcmd, hpos]
            exact hcfg
          · rw [hcmd]
          · rw [hpos]
        · obtain ⟨hrec, _⟩ := hother hr
          have hcmd : s1.recorder.base_.commands = s.recorder.base_.commands := by rw [hrec]
          have hpos : s1.recorder.base_.pos = s.recorder.base_.pos + 1 := by rw [hrec]
          exact ⟨hcmd, hctx, by omega, fun he => absurd he hne, fun he => absurd he hr⟩
      · rename_i s2 hb
        obtain ⟨hrec, hctx, _⟩ := do_replay_branch_continue _ _ _ _ _ hb
        obtain ⟨h1, h2, h3, h4, h5⟩ := ih s2 s1 ret h
        rw [hrec] at h1 h3
        refine ⟨h1, ?_, by simp at h3; omega, h4, fun he => ?_⟩
        · exact ⟨h2.1.trans hctx.1, h2.2.1.trans hctx.2.1, h2.2.2.1.trans hctx.2.2.1,
            h2.2.2.2.trans hctx.2.2.2⟩
        · obtain ⟨h6, h7⟩ := h5 he
          exact ⟨by rw [← hctx.1]; exact h6, h7⟩
      · rename_i s2 hb
        obtain ⟨hrec, hctx⟩ := do_replay_branch_fall_through _ _ _ _ _ hb
        split at h
        · cases h
        · rename_i s3 hv
          obtain ⟨hvr, hvc, _⟩ := verify_embedded_frame _ _ _ hv
          obtain ⟨h1, h2, h3, h4, h5⟩ := ih s3 s1 ret h
          rw [hvr, hrec] at h1 h3
          refine ⟨h1, ?_, by simp at h3; omega, h4, fun he => ?_⟩
          · exact ⟨(h2.1.trans hvc.1).trans hctx.1, (h2.2.1.trans hvc.2.1).trans hctx.2.1,
              (h2.2.2.1.trans hvc.2.2.1).trans hctx.2.2.1,
              (h2.2.2.2.trans hvc.2.2.2).trans hctx.2.2.2⟩
          · obtain ⟨h6, h7⟩ := h5 he
            exact ⟨by rw [← hctx.1, ← hvc.1]; exact h6, h7⟩

/-- Counterexample to C20 as stated: at the end of the log `[start]`,
`get_next_action` fetches nothing and leaves the cursor at 1, and
`revert_action` then moves it to 0, so the cursor is not restored. -/
theorem fetch_then_revert_at_end_moves_cursor :
    cursor_after_fetch_then_revert (log_at_end [start_command]) = some 0
      ∧ (log_at_end [start_command]).base_.pos = 1 := by
  constructor
  · rfl
  · rfl

/-- C20, amended (dependent-found leaves the cursor on the triggering entry).
Whenever `do_replay_handle` returns `REPLAY_FOUND_DEPENDENT`, the log is as it
was, the cursor is below the length of the log, and the command `cfg` at the
cursor is the one that caused the return: the loop body ran on it with the
cursor one step further and returned the final state; so the next
`get_next_action` returns `cfg` again. Moreover, for every replay object `r`
whose cursor is below the length of the log, `get_next_action` followed by
`revert_action` gives `r` back. -/
theorem dependent_found_leaves_cursor_on_entry (env : collaborators) (one_move : Bool)
    (s s1 : game_state) (r : replay)
    (hret : do_replay_handle env one_move s = some (REPLAY_RETURN.REPLAY_FOUND_DEPENDENT, s1))
    (hbelow : r.base_.pos < r.base_.commands.length) :
    (s1.recorder.base_.commands = s.recorder.base_.commands
      ∧ s1.recorder.base_.pos < s1.recorder.base_.commands.length
      ∧ ∃ cfg s0 r2, s1.recorder.base_.commands[s1.recorder.base_.pos]? = some cfg
          ∧ s0.recorder.base_.commands = s1.recorder.base_.commands
          ∧ s0.recorder.base_.pos = s1.recorder.base_.pos + 1
          ∧ do_replay_branch env one_move cfg s0
            = some (.return_value REPLAY_RETURN.REPLAY_FOUND_DEPENDENT s1)
          ∧ s1.recorder.get_next_action = some (some cfg, r2))
    ∧ fetch_then_revert r = some r := by
  constructor
  · obtain ⟨h1, _, _, _, h5⟩ := do_replay_handle_loop_frame env one_move _ s s1 _ hret
    obtain ⟨_, hlt, cfg, s0, hcfg, hc0, hp0, hb⟩ := h5 rfl
    obtain ⟨cfg2, hcfg2, hnext⟩ := get_next_action_below_end s1.recorder hlt
    rw [hcfg] at hcfg2
    injection hcfg2 with hcfg2
    subst hcfg2
    exact ⟨h1, hlt, cfg, s0, _, hcfg, hc0, hp0, hb, hnext⟩
  · obtain ⟨cfg, _, hnext⟩ := get_next_action_below_end r hbelow
    simp [fetch_then_revert, hnext, revert_after_fetch]

/-- Witness of C20, amended: in synced mode on `[speak][choice]` from the start
the loop passes the chat command and returns dependent-found with the cursor on
the choice. -/
theorem dependent_found_leaves_cursor_on_entry_witness :
    ∃ s1, do_replay_handle sample_env false
        (game_at (log_with_cursor [speak_command, choice_command] 0) true)
        = some (REPLAY_RETURN.REPLAY_FOUND_DEPENDENT, s1)
      ∧ s1.recorder.base_.pos < s1.recorder.base_.commands.length
      ∧ fetch_then_revert (log_with_cursor [speak_command, choice_command] 0)
        = some (log_with_cursor [speak_command, choice_command] 0) := by
  obtain ⟨s1, h1⟩ : ∃ s1, do_replay_handle sample_env false
      (game_at (log_with_cursor [speak_command, choice_command] 0) true)
      = some (REPLAY_RETURN.REPLAY_FOUND_DEPENDENT, s1) := ⟨_, rfl⟩
  have h := dependent_found_leaves_cursor_on_entry sample_env false _ s1
    (log_with_cursor [speak_command, choice_command] 0) h1 (by decide)
  exact ⟨s1, h1, h.1.2.1, h.2⟩

/-! ## User-choice synchronization: properties -/

theorem do_replay_handle_at_end (env : collaborators) (one_move : Bool) (s : game_state)
    (h : s.recorder.base_.pos = s.recorder.base_.commands.length) :
    do_replay_handle env one_move s = some (REPLAY_RETURN.REPLAY_RETURN_AT_END, s) := by
  have hat := (at_end_eq_true s.recorder).mpr h
  have hfuel : s.recorder.ncommands - s.recorder.base_.get_pos + 1 = 0 + 1 := by
    simp [replay.ncommands, replay_recorder_base.size, replay_recorder_base.get_pos, h]
  rw [do_replay_handle, hfuel, do_replay_handle_loop]
  simp [replay.get_next_action, hat]

theorem user_input_at_end (r : replay) (name : String) (input : config) (side : Int)
    (h : r.base_.pos = r.base_.commands.length) (hside : side ≠ -1) :
    r.user_input name input side
      = some ((log_with_cursor (r.base_.commands ++ [user_input_command name input side])
          (r.base_.commands.length + 1)).with_offsets r.message_locations) := by
  have hget : (r.base_.commands ++ [config.empty_config])[r.base_.commands.length]?
      = some config.empty_config := getElem?_middle _ _ _
  have hset : (r.base_.commands ++ [config.empty_config]).set r.base_.commands.length
      (user_input_command name input side)
      = r.base_.commands ++ [user_input_command name input side] := set_middle _ _ _ _
  have hcmd : ((config.empty_config.set "dependent" (.bool true)).set "from_side"
      (.int side)).add_child name input = user_input_command name input side := rfl
  simp only [replay.user_input, add_command_at_end r h, replay_recorder_base.get_pos,
    Nat.add_sub_cancel, replay.command, replay_recorder_base.get_command_at, hget, hside,
    if_false, hcmd, replay.write_command, hset, log_with_cursor, replay.with_offsets]

theorem lookup_map_answered (f : Int → config) (answered : List Int) (side : Int) :
    (answered.map (fun a => (a, f a))).lookup side
      = if side ∈ answered then some (f side) else none := by
  induction answered with
  | nil => simp
  | cons a t ih =>
    by_cases h : side = a
    · subst h
      simp [List.lookup]
    · have h2 : (side == a) = false := by simpa using h
      simp [List.lookup, h2, ih, h]

theorem map_insert_larger (f : Int → config) (answered : List Int) (side : Int)
    (h : ∀ a ∈ answered, a < side) :
    map_insert (answered.map (fun a => (a, f a))) side (f side)
      = (answered ++ [side]).map (fun a => (a, f a)) := by
  induction answered with
  | nil => rfl
  | cons a t ih =>
    have ha : a < side := h a (by simp)
    have h1 : ¬ side < a := by omega
    have h2 : ¬ side = a := by omega
    simp only [List.map_cons, map_insert, h1, h2, if_false, List.cons_append]
    rw [ih (fun b hb => h b (by simp [hb]))]

theorem find_local_side_next (env : collaborators) (f : Int → config)
    (answered : List Int) (side : Int) (rest : List Int)
    (hnew : side ∉ answered)
    (hlocal : env.is_local side = true) (hidle : env.is_idle side = false) :
    ∀ (front : List Int), (∀ a ∈ front, a ∈ answered) →
      find_local_side env (answered.map (fun a => (a, f a))) (front ++ side :: rest) = side := by
  intro front
  induction front with
  | nil =>
    intro _
    simp [find_local_side, lookup_map_answered, hnew, hlocal, hidle]
  | cons a t ih =>
    intro h
    have ha : a ∈ answered := h a (by simp)
    simp only [List.cons_append, find_local_side, lookup_map_answered, ha, if_true]
    simp only [Option.isNone_some, Bool.false_eq_true, false_and, if_false]
    exact ih (fun b hb => h b (by simp [hb]))

/-- The loop of `get_user_choice_internal` at the end of the log when every
requested side that has no answer yet is local and not idle. -/
theorem get_user_choice_loop_local (env : collaborators) (name : String) (sides : List Int)
    (remaining : List Int) :
    ∀ (answered : List Int) (s : game_state) (fuel : Nat),
      sides = answered ++ remaining →
      sides.Pairwise (fun a b => a < b) →
      (∀ side ∈ remaining, 1 ≤ side ∧ env.is_local side = true ∧ env.is_idle side = false) →
      s.recorder.base_.pos = s.recorder.base_.commands.length →
      remaining.length < fuel →
      ∃ s1, get_user_choice_loop env name sides fuel
          (answered.map (fun a => (a, env.query_user a))) s
          = some (sides.map (fun a => (a, env.query_user a)), s1)
        ∧ s1.recorder.base_.commands = s.recorder.base_.commands
            ++ remaining.map (fun a => user_input_command name (env.query_user a) a)
        ∧ s1.recorder.base_.pos = s1.recorder.base_.commands.length
        ∧ s1.resolver_calls = s.resolver_calls ++ remaining.map resolver_call.query_user
        ∧ s1.oos_errors = s.oos_errors
        ∧ s1.is_synced = s.is_synced := by
  induction remaining with
  | nil =>
    intro answered s fuel hsides _ _ _ hfuel
    obtain ⟨fuel, rfl⟩ : ∃ k, fuel = k + 1 := ⟨fuel - 1, by omega⟩
    simp only [List.append_nil] at hsides
    subst hsides
    refine ⟨s, ?_, by simp, by assumption, by simp, rfl, rfl⟩
    simp [get_user_choice_loop]
  | cons side rest ih =>
    intro answered s fuel hsides hsorted hall hend hfuel
    obtain ⟨fuel, rfl⟩ : ∃ k, fuel = k + 1 := ⟨fuel - 1, by omega⟩
    obtain ⟨hge, hlocal, hidle⟩ := hall side (by simp)
    have hlen : ¬ (answered.map (fun a => (a, env.query_user a))).length = sides.length := by
      rw [hsides]
      simp
    have hsorted2 := hsorted
    rw [hsides, List.pairwise_append] at hsorted2
    have hlt : ∀ a ∈ answered, a < side := fun a ha => hsorted2.2.2 a ha side (by simp)
    have hnew : side ∉ answered := fun hmem => by
      have := hlt side hmem
      omega
    have hfind : find_local_side env (answered.map (fun a => (a, env.query_user a))) sides
        = side := by
      rw [hsides]
      exact find_local_side_next env env.query_user answered side rest hnew hlocal hidle
        answered (fun a ha => ha)
    have hat := (at_end_eq_true s.recorder).mpr hend
    have hne0 : side ≠ 0 := by omega
    have hne1 : side ≠ -1 := by omega
    have hui := user_input_at_end s.recorder name (env.query_user side) side hend hne1
    have hins := map_insert_larger env.query_user answered side hlt
    have key : ∀ s4 : game_state,
        s4.recorder = (log_with_cursor (s.recorder.base_.commands
            ++ [user_input_command name (env.query_user side) side])
            (s.recorder.base_.commands.length + 1)).with_offsets s.recorder.message_locations →
        s4.resolver_calls = s.resolver_calls ++ [resolver_call.query_user side] →
        s4.oos_errors = s.oos_errors → s4.is_synced = s.is_synced →
        ∃ s1, get_user_choice_loop env name sides fuel
            ((answered ++ [side]).map (fun a => (a, env.query_user a))) s4
            = some (sides.map (fun a => (a, env.query_user a)), s1)
          ∧ s1.recorder.base_.commands = s.recorder.base_.commands
              ++ (side :: rest).map (fun a => user_input_command name (env.query_user a) a)
          ∧ s1.recorder.base_.pos = s1.recorder.base_.commands.length
          ∧ s1.resolver_calls = s.resolver_calls
              ++ (side :: rest).map resolver_call.query_user
          ∧ s1.oos_errors = s.oos_errors
          ∧ s1.is_synced = s.is_synced := by
      intro s4 hrec hcalls herr hsync
      obtain ⟨s1, h1, h2, h3, h4, h5, h6⟩ := ih (answered ++ [side]) s4 fuel
        (by simp [hsides]) hsorted (fun a ha => hall a (by simp [ha]))
        (by rw [hrec]; simp [log_with_cursor, replay.with_offsets]) (by simp at hfuel; omega)
      refine ⟨s1, h1, ?_, h3, ?_, by rw [h5, herr], by rw [h6, hsync]⟩
      · rw [h2, hrec]
        simp [log_with_cursor, replay.with_offsets]
      · rw [h4, hcalls]
        simp
    rw [get_user_choice_loop, if_neg hlen, do_replay_handle_at_end env false s hend]
    simp only [hfind, hat, ne_eq, hne0, not_false_eq_true, if_true, hui, hins]
    split
    · exact key _ rfl rfl rfl rfl
    · exact key _ rfl rfl rfl rfl
theorem entry_assertions_hold (env : collaborators) (sides : List Int)
    (h : ∀ side ∈ sides, 1 ≤ side ∧ side ≤ (env.nteams : Int) ∧ env.is_empty side = false) :
    sides.all (fun side => decide (1 ≤ side ∧ side ≤ (env.nteams : Int))
      && !env.is_empty side) = true := by
  rw [List.all_eq_true]
  intro side hside
  obtain ⟨h1, h2, h3⟩ := h side hside
  simp [h1, h2, h3]

/-- C17 (local multi-side resolution). The requested sides are all occupied,
local and not idle, the mode is synced and the cursor is at the end of the log.
Then `get_user_choice_internal` returns, once its loop may take one turn more
than there are sides; it has asked the resolver for each side in ascending
order, has appended for each side, in that order, one command with
`dependent=true`, `from_side` the side and the one child named after the
decision that is the answer of the resolver, and returns the mapping of each
side to that answer; the cursor is at the end of the log again. -/
theorem local_sides_resolved_in_order (fuel : Nat) (env : collaborators) (name : String)
    (sides : List Int) (s : game_state)
    (hsorted : sides.Pairwise (fun a b => a < b))
    (hsides : ∀ side ∈ sides, 1 ≤ side ∧ side ≤ (env.nteams : Int)
      ∧ env.is_empty side = false ∧ env.is_local side = true ∧ env.is_idle side = false)
    (hsynced : s.is_synced = true)
    (hend : s.recorder.base_.pos = s.recorder.base_.commands.length)
    (hfuel : sides.length < fuel) :
    ∃ s1, get_user_choice_internal fuel env name sides s
        = some (sides.map (fun side => (side, env.query_user side)), s1)
      ∧ s1.recorder.base_.commands = s.recorder.base_.commands
          ++ sides.map (fun side => config.mk
              [("dependent", .bool true), ("from_side", .int side)]
              [(name, env.query_user side)])
      ∧ s1.resolver_calls = s.resolver_calls ++ sides.map resolver_call.query_user
      ∧ s1.recorder.base_.pos = s1.recorder.base_.commands.length := by
  have _ := hsynced
  have hentry := entry_assertions_hold env sides
    (fun side h => ⟨(hsides side h).1, (hsides side h).2.1, (hsides side h).2.2.1⟩)
  have key : ∀ s0 : game_state, s0.recorder = s.recorder → s0.resolver_calls = s.resolver_calls →
      ∃ s1, get_user_choice_loop env name sides fuel [] s0
          = some (sides.map (fun side => (side, env.query_user side)), s1)
        ∧ s1.recorder.base_.commands = s.recorder.base_.commands
            ++ sides.map (fun side => config.mk
                [("dependent", .bool true), ("from_side", .int side)]
                [(name, env.query_user side)])
        ∧ s1.resolver_calls = s.resolver_calls ++ sides.map resolver_call.query_user
        ∧ s1.recorder.base_.pos = s1.recorder.base_.commands.length := by
    intro s0 hrec hcalls
    obtain ⟨s1, h1, h2, h3, h4, _, _⟩ := get_user_choice_loop_local env name sides sides []
      s0 fuel rfl hsorted
      (fun side h => ⟨(hsides side h).1, (hsides side h).2.2.2.1, (hsides side h).2.2.2.2⟩)
      (by rw [hrec]; exact hend) hfuel
    refine ⟨s1, h1, ?_, ?_, h3⟩
    · rw [h2, hrec]
      rfl
    · rw [h4, hcalls]
  unfold get_user_choice_internal
  rw [hentry]
  simp only [Bool.true_eq_false, if_false]
  split
  · exact key _ rfl rfl
  · exact key _ rfl rfl

/-- Witness of C17: the sides 1 and 2 decide on `advance` at the end of the log
`[start]`; the log gains two commands and the result maps 1 and 2 to the two
answers of the resolver. -/
theorem local_sides_resolved_in_order_witness :
    ∃ s1, get_user_choice_internal 3 sample_env "advance" [1, 2]
        (game_at (log_at_end [start_command]) true)
        = some ([(1, sample_env.query_user 1), (2, sample_env.query_user 2)], s1)
      ∧ s1.recorder.base_.commands
        = [start_command, sample_answer "advance" 1 1, sample_answer "advance" 2 2]
      ∧ s1.resolver_calls = [resolver_call.query_user 1, resolver_call.query_user 2] := by
  obtain ⟨s1, h1, h2, h3, _⟩ := local_sides_resolved_in_order 3 sample_env "advance" [1, 2]
    (game_at (log_at_end [start_command]) true) (by decide) (by decide) rfl rfl (by decide)
  exact ⟨s1, h1, h2, h3⟩

theorem chat_command_children (c : config) (h : is_chat_command c = true) :
    ∃ child, c.children = [("speak", child)] ∨ c.children = [("label", child)]
      ∨ c.children = [("clear_labels", child)] := by
  simp only [is_chat_command, decide_eq_true_eq] at h
  cases hc : c.children with
  | nil => simp [hc] at h
  | cons p t =>
    obtain ⟨k, child⟩ := p
    cases t with
    | nil =>
      rw [hc] at h
      simp only [List.map_cons, List.map_nil, List.cons.injEq, and_true] at h
      refine ⟨child, ?_⟩
      rcases h with h | h | h
      · left
        rw [h]
      · right
        left
        rw [h]
      · right
        right
        rw [h]
    | cons q t2 => simp [hc] at h

/-- The loop body on a chat or label command: it goes on to the next command,
with the log, the cursor and the reports as they are. -/
theorem do_replay_branch_chat (env : collaborators) (one_move : Bool) (c : config)
    (s : game_state) (h : is_chat_command c = true) :
    c.child "verify" = none
      ∧ ∃ s1, do_replay_branch env one_move c s = some (.fall_through s1)
        ∧ s1.recorder.base_ = s.recorder.base_ ∧ s.same_context s1
        ∧ s1.oos_errors = s.oos_errors := by
  obtain ⟨child, hc | hc | hc⟩ := chat_command_children c h
  · refine ⟨by simp [config.child, hc, List.lookup], ?_⟩
    by_cases hcond : env.is_skipping_replay = false ∨ is_whisper child = true
    · refine ⟨({ s with recorder := s.recorder.add_chat_message_location } : game_state).emit
        (.add_chat_message child), ?_, rfl, ⟨rfl, rfl, rfl, rfl⟩, rfl⟩
      simp [do_replay_branch, config.child, hc, List.lookup, hcond]
    · refine ⟨({ s with recorder := s.recorder.add_chat_message_location } : game_state),
        ?_, rfl, ⟨rfl, rfl, rfl, rfl⟩, rfl⟩
      simp [do_replay_branch, config.child, hc, List.lookup, hcond]
  · refine ⟨by simp [config.child, hc, List.lookup], ?_⟩
    refine ⟨s.emit (.set_label child), ?_, rfl, ⟨rfl, rfl, rfl, rfl⟩, rfl⟩
    simp [do_replay_branch, config.child, hc, List.lookup]
  · refine ⟨by simp [config.child, hc, List.lookup], ?_⟩
    refine ⟨s.emit (.clear_labels child), ?_, rfl, ⟨rfl, rfl, rfl, rfl⟩, rfl⟩
    simp [do_replay_branch, config.child, hc, List.lookup]
theorem child_of_single (name key : String) (value : config) (c : config)
    (hc : c.children = [(name, value)]) :
    c.child key = if key = name then some value else none := by
  by_cases h : key = name
  · subst h
    simp [config.child, hc, List.lookup]
  · have h2 : (key == name) = false := by simpa using h
    simp [config.child, hc, List.lookup, h2, h]

/-- The loop body in synced mode on a dependent command whose one child is
named `name`, for a name that the loop does not consume: it returns
dependent-found after `revert_action`. -/
theorem do_replay_branch_answer (env : collaborators) (one_move : Bool) (c : config)
    (name : String) (value : config) (s : game_state)
    (hc : c.children = [(name, value)])
    (hdep : (c.get "dependent").to_bool false = true)
    (hname : name ∉ consumed_names)
    (hsync : s.is_synced = true) :
    ∃ s1, do_replay_branch env one_move c s
        = some (.return_value REPLAY_RETURN.REPLAY_FOUND_DEPENDENT s1)
      ∧ s1.recorder = s.recorder.revert_action ∧ s.same_context s1
      ∧ ∃ extra, s1.oos_errors = s.oos_errors ++ extra := by
  simp only [consumed_names, List.mem_cons, List.mem_singleton, List.not_mem_nil, or_false,
    not_or] at hname
  obtain ⟨h1, h2, h3, h4, h5, h6⟩ := hname
  have n1 : ¬ "start" = name := fun e => h1 e.symm
  have n2 : ¬ "speak" = name := fun e => h2 e.symm
  have n3 : ¬ "label" = name := fun e => h3 e.symm
  have n4 : ¬ "clear_labels" = name := fun e => h4 e.symm
  have n5 : ¬ "rename" = name := fun e => h5 e.symm
  have n6 : ¬ "countdown_update" = name := fun e => h6 e.symm
  by_cases hi : "init_side" = name
  · refine ⟨{ s.process_error .init_side_in_choice with
        recorder := (s.process_error .init_side_in_choice).recorder.revert_action },
      ?_, rfl, ⟨rfl, rfl, rfl, rfl⟩, [oos_error.init_side_in_choice], rfl⟩
    simp [do_replay_branch, child_of_single name _ value c hc, hc, n1, n2, n3, n4, n5, hi,
      hsync]
  · by_cases he : "end_turn" = name
    · refine ⟨{ s.process_error .end_turn_in_choice with
          recorder := (s.process_error .end_turn_in_choice).recorder.revert_action },
        ?_, rfl, ⟨rfl, rfl, rfl, rfl⟩, [oos_error.end_turn_in_choice], rfl⟩
      simp [do_replay_branch, child_of_single name _ value c hc, hc, n1, n2, n3, n4, n5, hi,
        he, hsync]
    · refine ⟨{ s with recorder := s.recorder.revert_action }, ?_, rfl, ⟨rfl, rfl, rfl, rfl⟩,
        [], by simp⟩
      simp [do_replay_branch, child_of_single name _ value c hc, hc, n1, n2, n3, n4, n5, n6,
        hi, he, hsync, hdep]

/-- The loop of `do_replay_handle` passes a stretch of chat and label commands. -/
theorem do_replay_handle_loop_chats (env : collaborators) (one_move : Bool)
    (chats : List config) :
    ∀ (fuel : Nat) (s : game_state) (done rest : List config),
      (∀ c ∈ chats, is_chat_command c = true) →
      s.recorder.base_.commands = done ++ (chats ++ rest) →
      s.recorder.base_.pos = done.length →
      ∃ s1, do_replay_handle_loop env one_move (chats.length + fuel) s
          = do_replay_handle_loop env one_move fuel s1
        ∧ s1.recorder.base_.commands = s.recorder.base_.commands
        ∧ s1.recorder.base_.pos = done.length + chats.length
        ∧ s.same_context s1
        ∧ s1.oos_errors = s.oos_errors := by
  induction chats with
  | nil =>
    intro fuel s done rest _ _ hpos
    refine ⟨s, by simp, rfl, by simpa using hpos, ⟨rfl, rfl, rfl, rfl⟩, rfl⟩
  | cons c t ih =>
    intro fuel s done rest hall hlog hpos
    have hlt : s.recorder.base_.pos < s.recorder.base_.commands.length := by
      rw [hlog, hpos]
      simp
    obtain ⟨cfg, hcfg, hnext⟩ := get_next_action_below_end s.recorder hlt
    have hcfg2 : s.recorder.base_.commands[s.recorder.base_.pos]? = some c := by
      rw [hlog, hpos]
      exact getElem?_middle done c (t ++ rest)
    rw [hcfg2] at hcfg
    injection hcfg with hcfg
    subst hcfg
    obtain ⟨hver, s2, hb, hrec, hctx, herr⟩ := do_replay_branch_chat env one_move c
      { s with recorder := { s.recorder with
          base_ := { s.recorder.base_ with pos := s.recorder.base_.pos + 1 } } }
      (hall c (by simp))
    obtain ⟨s3, h1, h2, h3, h4, h5⟩ := ih fuel s2 (done ++ [c]) rest
      (fun d hd => hall d (by simp [hd]))
      (by rw [hrec]; simp [hlog])
      (by rw [hrec]; simp [hpos])
    refine ⟨s3, ?_, ?_, ?_, ?_, ?_⟩
    · have hl : (c :: t).length + fuel = (t.length + fuel) + 1 := by
        simp
        omega
      rw [hl, do_replay_handle_loop, hnext]
      simp only [hb, game_state.verify_embedded, hver]
      exact h1
    · rw [h2, hrec]
    · rw [h3]
      simp
      omega
    · exact ⟨h4.1.trans hctx.1, h4.2.1.trans hctx.2.1, h4.2.2.1.trans hctx.2.2.1,
        h4.2.2.2.trans hctx.2.2.2⟩
    · rw [h5, herr]

/-- In synced mode `do_replay_handle` passes the chat commands of a stretch and
stops with the cursor on its answer. -/
theorem do_replay_handle_segment (env : collaborators) (name : String) (sides : List Int)
    (g : answer_segment) (s : game_state) (done rest : List config)
    (hg : g.well_formed name sides)
    (hname : name ∉ consumed_names)
    (hsync : s.is_synced = true)
    (hlog : s.recorder.base_.commands = done ++ (g.chats ++ g.answer :: rest))
    (hpos : s.recorder.base_.pos = done.length) :
    ∃ s1, do_replay_handle env false s = some (REPLAY_RETURN.REPLAY_FOUND_DEPENDENT, s1)
      ∧ s1.recorder.base_.commands = s.recorder.base_.commands
      ∧ s1.recorder.base_.pos = done.length + g.chats.length
      ∧ s.same_context s1
      ∧ ∃ extra, s1.oos_errors = s.oos_errors ++ extra := by
  obtain ⟨hchats, hc, hdep, _, _⟩ := hg
  obtain ⟨s1, h1, h2, h3, h4, h5⟩ := do_replay_handle_loop_chats env false g.chats
    (rest.length + 1 + 1) s done (g.answer :: rest) hchats hlog hpos
  have hfuel : s.recorder.ncommands - s.recorder.base_.get_pos + 1
      = g.chats.length + (rest.length + 1 + 1) := by
    simp [replay.ncommands, replay_recorder_base.size, replay_recorder_base.get_pos, hlog, hpos]
    omega
  have hlt : s1.recorder.base_.pos < s1.recorder.base_.commands.length := by
    rw [h2, h3, hlog]
    simp
  obtain ⟨cfg, hcfg, hnext⟩ := get_next_action_below_end s1.recorder hlt
  have hcfg2 : s1.recorder.base_.commands[s1.recorder.base_.pos]? = some g.answer := by
    rw [h2, h3, hlog]
    have := getElem?_middle (done ++ g.chats) g.answer rest
    simpa using this
  rw [hcfg2] at hcfg
  injection hcfg with hcfg
  subst hcfg
  obtain ⟨s2, hb, hrec, hctx, extra, herr⟩ := do_replay_branch_answer env false g.answer name
    g.value
    { s1 with recorder := { s1.recorder with
        base_ := { s1.recorder.base_ with pos := s1.recorder.base_.pos + 1 } } }
    hc hdep hname (by rw [← hsync]; exact h4.1)
  rw [revert_after_fetch] at hrec
  refine ⟨s2, ?_, by rw [hrec, h2], by rw [hrec, h3], ?_, extra, by rw [herr]; simp [h5]⟩
  · rw [do_replay_handle, hfuel, h1, do_replay_handle_loop, hnext]
    simp only [hb]
  · exact ⟨hctx.1.trans h4.1, hctx.2.1.trans h4.2.1, hctx.2.2.1.trans h4.2.2.1,
      hctx.2.2.2.trans h4.2.2.2⟩

/-- The loop of `get_user_choice_internal` in synced mode on a log that holds,
from the cursor on, stretches of chat commands and answers, for as long as an
answer is missing before each stretch: it records the answers one after the
other, asks no resolver and leaves the log as it is. -/
theorem get_user_choice_loop_reads (env : collaborators) (name : String) (sides : List Int)
    (hname : name ∉ consumed_names) (rest : List config) (gs : List answer_segment) :
    ∀ (retv : List (Int × config)) (s : game_state) (done : List config) (fuel : Nat),
      (∀ g ∈ gs, g.well_formed name sides) →
      s.is_synced = true →
      s.recorder.base_.commands = done ++ (segments_log gs ++ rest) →
      s.recorder.base_.pos = done.length →
      reads_all sides.length retv gs →
      gs.length < fuel →
      ∃ s1, get_user_choice_loop env name sides fuel retv s = some (answers_map retv gs, s1)
        ∧ s1.recorder.base_.commands = s.recorder.base_.commands
        ∧ s1.recorder.base_.pos = done.length + (segments_log gs).length
        ∧ s1.resolver_calls = s.resolver_calls
        ∧ ∃ extra, s1.oos_errors = s.oos_errors ++ extra
          ∧ ∀ e ∈ duplicate_reports name retv gs, e ∈ extra := by
  induction gs with
  | nil =>
    intro retv s done fuel _ _ _ hpos hreads hfuel
    obtain ⟨fuel, rfl⟩ : ∃ k, fuel = k + 1 := ⟨fuel - 1, by omega⟩
    simp only [reads_all] at hreads
    refine ⟨s, ?_, rfl, by simp [segments_log, hpos], rfl, [], by simp, by simp [duplicate_reports]⟩
    simp [get_user_choice_loop, hreads, answers_map]
  | cons g gs ih =>
    intro retv s done fuel hwf hsync hlog hpos hreads hfuel
    obtain ⟨fuel, rfl⟩ : ∃ k, fuel = k + 1 := ⟨fuel - 1, by omega⟩
    obtain ⟨hlen, hreads2⟩ := hreads
    have hg := hwf g (by simp)
    have hlog2 : s.recorder.base_.commands
        = done ++ (g.chats ++ g.answer :: (segments_log gs ++ rest)) := by
      rw [hlog]
      simp [segments_log]
    obtain ⟨s1, hrun, hc1, hp1, hctx1, extra1, herr1⟩ := do_replay_handle_segment env name sides
      g s done (segments_log gs ++ rest) hg hname hsync hlog2 hpos
    obtain ⟨_, hchild, hdep, hfrom, hmem⟩ := hg
    have hlt : s1.recorder.base_.pos < s1.recorder.base_.commands.length := by
      rw [hc1, hp1, hlog2]
      simp
    have hat := (at_end_eq_false s1.recorder).mpr hlt
    obtain ⟨cfg, hcfg, hnext⟩ := get_next_action_below_end s1.recorder hlt
    have hcfg2 : s1.recorder.base_.commands[s1.recorder.base_.pos]? = some g.answer := by
      rw [hc1, hp1, hlog2]
      have := getElem?_middle (done ++ g.chats) g.answer (segments_log gs ++ rest)
      simpa using this
    rw [hcfg2] at hcfg
    injection hcfg with hcfg
    subst hcfg
    have hval : g.answer.child name = some g.value := by
      rw [child_of_single name name g.value g.answer hchild]
      simp
    have key : ∀ s4 : game_state,
        s4.recorder.base_.commands = s.recorder.base_.commands →
        s4.recorder.base_.pos = done.length + g.chats.length + 1 →
        s4.resolver_calls = s.resolver_calls →
        s4.is_synced = true →
        (∃ extra, s4.oos_errors = s.oos_errors ++ extra
          ∧ ((retv.lookup g.side).isSome = true →
              oos_error.duplicate_answer g.side name ∈ extra)) →
        ∃ s5, get_user_choice_loop env name sides fuel (map_insert retv g.side g.value) s4
            = some (answers_map retv (g :: gs), s5)
          ∧ s5.recorder.base_.commands = s.recorder.base_.commands
          ∧ s5.recorder.base_.pos = done.length + (segments_log (g :: gs)).length
          ∧ s5.resolver_calls = s.resolver_calls
          ∧ ∃ extra, s5.oos_errors = s.oos_errors ++ extra
            ∧ ∀ e ∈ duplicate_reports name retv (g :: gs), e ∈ extra := by
      intro s4 hc4 hp4 hr4 hs4 herr4
      obtain ⟨extra4, he4, hdup4⟩ := herr4
      obtain ⟨s5, h1, h2, h3, h4, extra5, h5, h6⟩ := ih (map_insert retv g.side g.value) s4
        (done ++ g.chats ++ [g.answer]) fuel (fun x hx => hwf x (by simp [hx])) hs4
        (by rw [hc4, hlog2]; simp) (by rw [hp4]; simp; omega) hreads2
        (by simp at hfuel; omega)
      refine ⟨s5, h1, by rw [h2, hc4], ?_, by rw [h4, hr4], extra4 ++ extra5, ?_, ?_⟩
      · rw [h3]
        simp [segments_log]
        omega
      · rw [h5, he4]
        simp
      · intro e he
        simp only [duplicate_reports, List.mem_append] at he
        rcases he with he | he
        · split at he
          · rename_i hd
            simp only [List.mem_singleton] at he
            subst he
            exact List.mem_append_left _ (hdup4 hd)
          · simp at he
        · exact List.mem_append_right _ (h6 e he)
    rw [get_user_choice_loop, if_neg hlen, hrun]
    simp only [hat, hnext, hval, hdep, hfrom, hmem]
    simp only [Option.isSome_some, Bool.true_eq_false, or_self, if_false, not_true_eq_false]
    have hsync1 : s1.is_synced = true := by rw [hctx1.1]; exact hsync
    by_cases hinv : (g.answer.get "side_invalid").to_bool false = true
    · by_cases hdup : (retv.lookup g.side).isSome = true
      · simp only [hinv, hdup, if_true]
        refine key _ (by simp [game_state.process_error, hc1])
          (by simp [game_state.process_error, hp1]) (by simp [game_state.process_error, hctx1.2.2.1])
          (by simp [game_state.process_error, hsync1])
          ⟨extra1 ++ [oos_error.side_invalid, oos_error.duplicate_answer g.side name],
            by simp [game_state.process_error, herr1], fun _ => by simp⟩
      · simp only [hinv, hdup, if_true, if_false]
        refine key _ (by simp [game_state.process_error, hc1])
          (by simp [game_state.process_error, hp1]) (by simp [game_state.process_error, hctx1.2.2.1])
          (by simp [game_state.process_error, hsync1])
          ⟨extra1 ++ [oos_error.side_invalid],
            by simp [game_state.process_error, herr1], fun h => absurd h hdup⟩
    · by_cases hdup : (retv.lookup g.side).isSome = true
      · simp only [hinv, hdup, if_true, if_false]
        refine key _ (by simp [game_state.process_error, hc1])
          (by simp [game_state.process_error, hp1]) (by simp [game_state.process_error, hctx1.2.2.1])
          (by simp [game_state.process_error, hsync1])
          ⟨extra1 ++ [oos_error.duplicate_answer g.side name],
            by simp [game_state.process_error, herr1], fun _ => by simp⟩
      · simp only [hinv, hdup, if_false]
        refine key _ (by simp [hc1]) (by simp [hp1]) (by simp [hctx1.2.2.1])
          (by simp [hsync1]) ⟨extra1, by simp [herr1], fun h => absurd h hdup⟩

theorem lookup_map_insert (m : List (Int × config)) (k : Int) (v : config) (k2 : Int) :
    (map_insert m k v).lookup k2 = if k2 = k then some v else m.lookup k2 := by
  induction m with
  | nil =>
    by_cases h : k2 = k
    · subst h
      simp [map_insert, List.lookup]
    · have h2 : (k2 == k) = false := by simpa using h
      simp [map_insert, List.lookup, h2, h]
  | cons p t ih =>
    obtain ⟨k1, v1⟩ := p
    unfold map_insert
    split
    · by_cases h : k2 = k
      · subst h
        simp [List.lookup]
      · have h2 : (k2 == k) = false := by simpa using h
        simp [List.lookup, h2, h]
    · split
      · rename_i hk
        subst hk
        by_cases h : k2 = k
        · subst h
          simp [List.lookup]
        · have h2 : (k2 == k) = false := by simpa using h
          simp [List.lookup, h2, h]
      · rename_i hk
        by_cases h1 : k2 = k1
        · subst h1
          have hne : ¬ k2 = k := fun e => hk e.symm
          simp [List.lookup, hne]
        · have h2 : (k2 == k1) = false := by simpa using h1
          simp [List.lookup, h2, ih]

theorem map_insert_sorted (m : List (Int × config)) (k : Int) (v : config)
    (h : m.Pairwise (fun a b => a.1 < b.1)) :
    (map_insert m k v).Pairwise (fun a b => a.1 < b.1)
      ∧ ∀ p ∈ map_insert m k v, p.1 = k ∨ p ∈ m := by
  induction m with
  | nil => simp [map_insert]
  | cons p t ih =>
    obtain ⟨k1, v1⟩ := p
    have ht := (List.pairwise_cons.mp h).2
    have hp := (List.pairwise_cons.mp h).1
    obtain ⟨ih1, ih2⟩ := ih ht
    unfold map_insert
    split
    · rename_i hlt
      refine ⟨List.pairwise_cons.mpr ⟨?_, h⟩, ?_⟩
      · intro q hq
        rcases List.mem_cons.mp hq with hq | hq
        · rw [hq]
          exact hlt
        · have := hp q hq
          simp only at this ⊢
          omega
      · intro q hq
        rcases List.mem_cons.mp hq with hq | hq
        · left
          rw [hq]
        · right
          exact hq
    · split
      · rename_i hk
        subst hk
        refine ⟨List.pairwise_cons.mpr ⟨hp, ht⟩, ?_⟩
        intro q hq
        rcases List.mem_cons.mp hq with hq | hq
        · left
          rw [hq]
        · right
          exact List.mem_cons_of_mem _ hq
      · rename_i hnlt hne
        refine ⟨List.pairwise_cons.mpr ⟨?_, ih1⟩, ?_⟩
        · intro q hq
          rcases ih2 q hq with hq2 | hq2
          · simp only
            omega
          · exact hp q hq2
        · intro q hq
          rcases List.mem_cons.mp hq with hq | hq
          · right
            rw [hq]
            exact List.mem_cons_self _ _
          · rcases ih2 q hq with hq2 | hq2
            · left
              exact hq2
            · right
              exact List.mem_cons_of_mem _ hq2

theorem lookup_none_of_lt (m : List (Int × config)) (k : Int)
    (h : ∀ p ∈ m, k < p.1) : m.lookup k = none := by
  induction m with
  | nil => rfl
  | cons p t ih =>
    obtain ⟨k1, v1⟩ := p
    have h1 : k < k1 := h (k1, v1) (by simp)
    have h2 : (k == k1) = false := by
      simp
      omega
    simp only [List.lookup, h2]
    exact ih (fun q hq => h q (by simp [hq]))

theorem map_insert_length (m : List (Int × config)) (k : Int) (v : config)
    (h : m.Pairwise (fun a b => a.1 < b.1)) :
    (map_insert m k v).length = if (m.lookup k).isSome = true then m.length else m.length + 1 := by
  induction m with
  | nil => simp [map_insert]
  | cons p t ih =>
    obtain ⟨k1, v1⟩ := p
    have ht := (List.pairwise_cons.mp h).2
    have hp := (List.pairwise_cons.mp h).1
    unfold map_insert
    split
    · rename_i hlt
      have hnone : ((k1, v1) :: t).lookup k = none := by
        apply lookup_none_of_lt
        intro q hq
        rcases List.mem_cons.mp hq with hq | hq
        · rw [hq]
          exact hlt
        · have := hp q hq
          simp only at this
          omega
      simp [hnone]
    · split
      · rename_i hk
        subst hk
        simp [List.lookup]
      · rename_i hnlt hne
        have h2 : (k == k1) = false := by simpa using hne
        simp only [List.length_cons, ih ht, List.lookup, h2]
        split <;> rfl
theorem answers_map_append (retv : List (Int × config)) (l1 l2 : List answer_segment) :
    answers_map retv (l1 ++ l2) = answers_map (answers_map retv l1) l2 := by
  induction l1 generalizing retv with
  | nil => rfl
  | cons g t ih => simp [answers_map, ih]

theorem duplicate_reports_append (name : String) (retv : List (Int × config))
    (l1 l2 : List answer_segment) :
    duplicate_reports name retv (l1 ++ l2)
      = duplicate_reports name retv l1 ++ duplicate_reports name (answers_map retv l1) l2 := by
  induction l1 generalizing retv with
  | nil => rfl
  | cons g t ih => simp [duplicate_reports, answers_map, ih]

theorem lookup_answers_map_other (k : Int) (gs : List answer_segment) :
    ∀ (retv : List (Int × config)), (∀ g ∈ gs, g.side ≠ k) →
      (answers_map retv gs).lookup k = retv.lookup k := by
  induction gs with
  | nil =>
    intro retv _
    rfl
  | cons g t ih =>
    intro retv h
    have hg : ¬ k = g.side := fun e => h g (by simp) e.symm
    rw [answers_map, ih _ (fun x hx => h x (by simp [hx])), lookup_map_insert, if_neg hg]

theorem lookup_answers_map_some (k : Int) (gs : List answer_segment) :
    ∀ (retv : List (Int × config)), (retv.lookup k).isSome = true →
      ((answers_map retv gs).lookup k).isSome = true := by
  induction gs with
  | nil =>
    intro retv h
    exact h
  | cons g t ih =>
    intro retv h
    rw [answers_map]
    apply ih
    rw [lookup_map_insert]
    split
    · rfl
    · exact h

/-- Answers of sides that are all different and have no answer yet are all
read, when there is one for each side that is missing. -/
theorem reads_all_distinct (n : Nat) (gs : List answer_segment) :
    ∀ (retv : List (Int × config)),
      retv.Pairwise (fun a b => a.1 < b.1) →
      (∀ g ∈ gs, retv.lookup g.side = none) →
      (gs.map (fun g => g.side)).Nodup →
      retv.length + gs.length = n →
      reads_all n retv gs ∧ (answers_map retv gs).length = n
        ∧ ∀ g ∈ gs, (answers_map retv gs).lookup g.side = some g.value := by
  induction gs with
  | nil =>
    intro retv _ _ _ hlen
    simp only [List.length_nil, Nat.add_zero] at hlen
    exact ⟨hlen, hlen, fun g hg => by simp at hg⟩
  | cons g t ih =>
    intro retv hsorted hnone hnodup hlen
    have hnd := List.nodup_cons.mp hnodup
    have hlen1 : (map_insert retv g.side g.value).length = retv.length + 1 := by
      rw [map_insert_length retv g.side g.value hsorted, hnone g (by simp)]
      simp
    have hnone2 : ∀ x ∈ t, (map_insert retv g.side g.value).lookup x.side = none := by
      intro x hx
      have hne : ¬ x.side = g.side := by
        intro e
        apply hnd.1
        have hm := List.mem_map_of_mem (fun g => g.side) hx
        simp only [e] at hm
        exact hm
      rw [lookup_map_insert, if_neg hne]
      exact hnone x (by simp [hx])
    obtain ⟨h1, h2, h3⟩ := ih (map_insert retv g.side g.value)
      (map_insert_sorted retv g.side g.value hsorted).1 hnone2 hnd.2
      (by rw [hlen1]; simp at hlen; omega)
    refine ⟨⟨?_, h1⟩, h2, ?_⟩
    · simp at hlen
      omega
    · intro x hx
      rcases List.mem_cons.mp hx with hx | hx
      · subst hx
        rw [answers_map, lookup_answers_map_other x.side t _ ?_, lookup_map_insert]
        · simp
        · intro y hy e
          apply hnd.1
          have hm := List.mem_map_of_mem (fun g => g.side) hy
          simp only [e] at hm
          exact hm
      · exact h3 x hx

/-- `get_user_choice_internal` in synced mode on a log that holds, from the
cursor on, stretches of chat commands and answers that are all read. -/
theorem get_user_choice_internal_reads (fuel : Nat) (env : collaborators) (name : String)
    (sides : List Int) (s : game_state) (done rest : List config) (gs : List answer_segment)
    (hname : name ∉ consumed_names)
    (hentry : ∀ side ∈ sides, 1 ≤ side ∧ side ≤ (env.nteams : Int) ∧ env.is_empty side = false)
    (hsync : s.is_synced = true)
    (hwf : ∀ g ∈ gs, g.well_formed name sides)
    (hlog : s.recorder.base_.commands = done ++ (segments_log gs ++ rest))
    (hpos : s.recorder.base_.pos = done.length)
    (hreads : reads_all sides.length [] gs)
    (hfuel : gs.length < fuel) :
    ∃ s1, get_user_choice_internal fuel env name sides s = some (answers_map [] gs, s1)
      ∧ s1.recorder.base_.commands = s.recorder.base_.commands
      ∧ s1.resolver_calls = s.resolver_calls
      ∧ ∃ extra, s1.oos_errors = s.oos_errors ++ extra
        ∧ ∀ e ∈ duplicate_reports name [] gs, e ∈ extra := by
  have key : ∀ s0 : game_state, s0.recorder = s.recorder → s0.is_synced = s.is_synced →
      s0.resolver_calls = s.resolver_calls → s0.oos_errors = s.oos_errors →
      ∃ s1, get_user_choice_loop env name sides fuel [] s0 = some (answers_map [] gs, s1)
        ∧ s1.recorder.base_.commands = s.recorder.base_.commands
        ∧ s1.resolver_calls = s.resolver_calls
        ∧ ∃ extra, s1.oos_errors = s.oos_errors ++ extra
          ∧ ∀ e ∈ duplicate_reports name [] gs, e ∈ extra := by
    intro s0 hrec hsy hcalls herr
    obtain ⟨s1, h1, h2, _, h4, extra, h5, h6⟩ := get_user_choice_loop_reads env name sides hname
      rest gs [] s0 done fuel hwf (by rw [hsy]; exact hsync) (by rw [hrec]; exact hlog)
      (by rw [hrec]; exact hpos) hreads hfuel
    exact ⟨s1, h1, by rw [h2, hrec], by rw [h4, hcalls], extra, by rw [h5, herr], h6⟩
  unfold get_user_choice_internal
  rw [entry_assertions_hold env sides hentry]
  simp only [Bool.true_eq_false, if_false]
  split
  · exact key _ rfl rfl rfl rfl
  · exact key _ rfl rfl rfl rfl

/-- Counterexample to C14 as stated: the decision is named `speak`, side 1 is
requested and its answer is the next command of the log. The execution loop
takes the answer for a chat message and passes it, the log is then at its end,
and the resolver is asked and a second answer is appended. -/
theorem answer_named_speak_is_consumed :
    resolver_calls_after (get_user_choice_internal 4 sample_env "speak" [1]
        (game_at (log_with_cursor [sample_answer "speak" 1 7] 0) true))
      = some [resolver_call.query_user 1]
    ∧ log_after (get_user_choice_internal 4 sample_env "speak" [1]
        (game_at (log_with_cursor [sample_answer "speak" 1 7] 0) true))
      = some [sample_answer "speak" 1 7, sample_answer "speak" 1 1] := by
  constructor
  · rfl
  · rfl

/-- C14, amended (decision idempotence). The decision has a name that the
execution loop does not consume as a command of its own (`start`, `speak`,
`label`, `clear_labels`, `rename`, `countdown_update`); the mode is synced, the
requested sides are occupied, and the log holds from the cursor on, for each
requested side, one dependent command from that side whose one child has the
name of the decision, possibly with chat and label commands in between. Then
`get_user_choice_internal` returns, once its loop may take one turn more than
there are sides, the mapping of each side to the child of its command; it makes
no call to the resolver and leaves the log as it is; and from every state with
the same log, cursor and mode it returns the same mapping. -/
theorem recorded_answers_are_read_back (fuel : Nat) (env : collaborators) (name : String)
    (sides : List Int) (s : game_state) (done rest : List config) (gs : List answer_segment)
    (hname : name ∉ consumed_names)
    (hsorted : sides.Pairwise (fun a b => a < b))
    (hentry : ∀ side ∈ sides, 1 ≤ side ∧ side ≤ (env.nteams : Int) ∧ env.is_empty side = false)
    (hsync : s.is_synced = true)
    (hwf : ∀ g ∈ gs, g.well_formed name sides)
    (hperm : (gs.map (fun g => g.side)).Perm sides)
    (hlog : s.recorder.base_.commands = done ++ (segments_log gs ++ rest))
    (hpos : s.recorder.base_.pos = done.length)
    (hfuel : sides.length < fuel) :
    ∃ retv s1, get_user_choice_internal fuel env name sides s = some (retv, s1)
      ∧ retv.length = sides.length
      ∧ (∀ g ∈ gs, retv.lookup g.side = some g.value)
      ∧ s1.resolver_calls = s.resolver_calls
      ∧ s1.recorder.base_.commands = s.recorder.base_.commands
      ∧ ∀ s2 : game_state, s2.is_synced = true →
          s2.recorder.base_.commands = s.recorder.base_.commands →
          s2.recorder.base_.pos = s.recorder.base_.pos →
          returned_choices (get_user_choice_internal fuel env name sides s2) = some retv := by
  have hlen : gs.length = sides.length := by
    have := hperm.length_eq
    simpa using this
  have hnodup : (gs.map (fun g => g.side)).Nodup := by
    rw [hperm.nodup_iff]
    exact hsorted.imp (fun h => Int.ne_of_lt h)
  obtain ⟨hreads, hmaplen, hlookup⟩ := reads_all_distinct sides.length gs []
    List.Pairwise.nil (fun g _ => rfl) hnodup (by simp [hlen])
  obtain ⟨s1, h1, h2, h3, _⟩ := get_user_choice_internal_reads fuel env name sides s done rest
    gs hname hentry hsync hwf hlog hpos hreads (by omega)
  refine ⟨answers_map [] gs, s1, h1, hmaplen, hlookup, h3, h2, ?_⟩
  intro s2 hs2 hc2 hp2
  obtain ⟨s3, h4, _⟩ := get_user_choice_internal_reads fuel env name sides s2 done rest
    gs hname hentry hs2 hwf (by rw [hc2]; exact hlog) (by rw [hp2]; exact hpos) hreads
    (by omega)
  rw [h4]
  rfl

/-- Counterexample to C15 as stated: only side 1 is requested and the log holds
two answers of side 1. The loop ends after the first one: no error is reported
and the mapping holds the value of the earlier entry. -/
theorem second_answer_is_not_read :
    returned_choices (get_user_choice_internal 4 sample_env "choose" [1]
        (game_at (log_with_cursor
          [sample_answer "choose" 1 7, sample_answer "choose" 1 8] 0) true))
      = some [(1, .mk [("value", .int 7)] [])]
    ∧ errors_after (get_user_choice_internal 4 sample_env "choose" [1]
        (game_at (log_with_cursor
          [sample_answer "choose" 1 7, sample_answer "choose" 1 8] 0) true))
      = some [] := by
  constructor
  · rfl
  · rfl

/-- C15, amended (duplicate answer detection). The log holds from the cursor on
stretches of chat commands and answers to the decision, among them two answers
`g1` and, later, `g2` of the same requested side, and the loop reads all of
them: before each one an answer of some requested side is still missing. Then
`get_user_choice_internal` reports the second answer through `process_error`,
and when no further answer of that side follows `g2` the returned mapping holds
the value of `g2` for that side. -/
theorem duplicate_answer_is_reported (fuel : Nat) (env : collaborators) (name : String)
    (sides : List Int) (s : game_state) (done rest : List config)
    (gs1 gs2 gs3 : List answer_segment) (g1 g2 : answer_segment)
    (hname : name ∉ consumed_names)
    (hentry : ∀ side ∈ sides, 1 ≤ side ∧ side ≤ (env.nteams : Int) ∧ env.is_empty side = false)
    (hsync : s.is_synced = true)
    (hwf : ∀ g ∈ gs1 ++ g1 :: (gs2 ++ g2 :: gs3), g.well_formed name sides)
    (hlog : s.recorder.base_.commands
      = done ++ (segments_log (gs1 ++ g1 :: (gs2 ++ g2 :: gs3)) ++ rest))
    (hpos : s.recorder.base_.pos = done.length)
    (hreads : reads_all sides.length [] (gs1 ++ g1 :: (gs2 ++ g2 :: gs3)))
    (hsame : g1.side = g2.side)
    (hlast : ∀ g ∈ gs3, g.side ≠ g2.side)
    (hfuel : (gs1 ++ g1 :: (gs2 ++ g2 :: gs3)).length < fuel) :
    ∃ retv s1, get_user_choice_internal fuel env name sides s = some (retv, s1)
      ∧ oos_error.duplicate_answer g2.side name ∈ s1.oos_errors
      ∧ retv.lookup g2.side = some g2.value := by
  obtain ⟨s1, h1, _, _, extra, h4, h5⟩ := get_user_choice_internal_reads fuel env name sides s
    done rest (gs1 ++ g1 :: (gs2 ++ g2 :: gs3)) hname hentry hsync hwf hlog hpos hreads hfuel
  have hsplit : gs1 ++ g1 :: (gs2 ++ g2 :: gs3) = (gs1 ++ g1 :: gs2) ++ g2 :: gs3 := by simp
  refine ⟨_, s1, h1, ?_, ?_⟩
  · rw [h4]
    apply List.mem_append_right
    apply h5
    rw [hsplit, duplicate_reports_append]
    apply List.mem_append_right
    have hsome : ((answers_map [] (gs1 ++ g1 :: gs2)).lookup g2.side).isSome = true := by
      have : gs1 ++ g1 :: gs2 = (gs1 ++ [g1]) ++ gs2 := by simp
      rw [this, answers_map_append, answers_map_append]
      apply lookup_answers_map_some
      simp [answers_map, lookup_map_insert, hsame]
    simp [duplicate_reports, hsome]
  · rw [hsplit, answers_map_append]
    simp only [answers_map]
    rw [lookup_answers_map_other g2.side gs3 _ hlast, lookup_map_insert]
    simp

theorem sample_segment_well_formed (chats : List config) (side value : Int) (sides : List Int)
    (hchats : ∀ c ∈ chats, is_chat_command c = true) (hside : side ∈ sides) :
    (sample_segment chats side value).well_formed "choose" sides :=
  ⟨hchats, rfl, rfl, rfl, hside⟩

/-- Witness of C14, amended: the sides 1 and 2 are requested and the log is
`[speak][answer of 2][answer of 1]`. -/
theorem recorded_answers_are_read_back_witness :
    ∃ retv s1, get_user_choice_internal 3 sample_env "choose" [1, 2]
        (game_at (log_with_cursor
          [speak_command, sample_answer "choose" 2 9, sample_answer "choose" 1 7] 0) true)
        = some (retv, s1)
      ∧ retv.lookup 1 = some (.mk [("value", .int 7)] [])
      ∧ retv.lookup 2 = some (.mk [("value", .int 9)] [])
      ∧ s1.resolver_calls = [] := by
  obtain ⟨retv, s1, h1, _, h3, h4, _⟩ := recorded_answers_are_read_back 3 sample_env "choose"
    [1, 2]
    (game_at (log_with_cursor
      [speak_command, sample_answer "choose" 2 9, sample_answer "choose" 1 7] 0) true)
    [] [] [sample_segment [speak_command] 2 9, sample_segment [] 1 7]
    (by decide) (by decide) (by decide) rfl
    (by
      intro g hg
      simp only [List.mem_cons, List.mem_singleton, List.not_mem_nil, or_false] at hg
      rcases hg with hg | hg
      · subst hg
        exact sample_segment_well_formed _ _ _ _ (by decide) (by decide)
      · subst hg
        exact sample_segment_well_formed _ _ _ _ (by decide) (by decide))
    (List.Perm.swap 1 2 []) rfl rfl (by decide)
  exact ⟨retv, s1, h1, h3 (sample_segment [] 1 7) (by simp),
    h3 (sample_segment [speak_command] 2 9) (by simp), h4⟩

/-- Witness of C15, amended: the sides 1 and 2 are requested and the log is
`[answer of 1: 7][speak][answer of 1: 8][answer of 2: 9]`. -/
theorem duplicate_answer_is_reported_witness :
    ∃ retv s1, get_user_choice_internal 4 sample_env "choose" [1, 2]
        (game_at (log_with_cursor
          [sample_answer "choose" 1 7, speak_command, sample_answer "choose" 1 8,
            sample_answer "choose" 2 9] 0) true)
        = some (retv, s1)
      ∧ oos_error.duplicate_answer 1 "choose" ∈ s1.oos_errors
      ∧ retv.lookup 1 = some (.mk [("value", .int 8)] []) := by
  exact duplicate_answer_is_reported 4 sample_env "choose" [1, 2]
    (game_at (log_with_cursor
      [sample_answer "choose" 1 7, speak_command, sample_answer "choose" 1 8,
        sample_answer "choose" 2 9] 0) true)
    [] [] [] [] [sample_segment [] 2 9] (sample_segment [] 1 7)
    (sample_segment [speak_command] 1 8)
    (by decide) (by decide) rfl
    (by
      intro g hg
      simp only [List.nil_append, List.mem_cons, List.mem_singleton, List.not_mem_nil,
        or_false] at hg
      rcases hg with hg | hg | hg
      · subst hg
        exact sample_segment_well_formed _ _ _ _ (by decide) (by decide)
      · subst hg
        exact sample_segment_well_formed _ _ _ _ (by decide) (by decide)
      · subst hg
        exact sample_segment_well_formed _ _ _ _ (by decide) (by decide))
    rfl rfl
    (by simp [reads_all, map_insert, sample_segment])
    rfl (by decide) (by decide)

theorem mem_map_insert (m : List (Int × config)) (k : Int) (v : config) (p : Int × config)
    (h : p ∈ map_insert m k v) : p = (k, v) ∨ p ∈ m := by
  induction m with
  | nil =>
    simp only [map_insert, List.mem_singleton] at h
    left
    exact h
  | cons q t ih =>
    obtain ⟨k1, v1⟩ := q
    unfold map_insert at h
    split at h
    · rcases List.mem_cons.mp h with h | h
      · left
        exact h
      · right
        exact h
    · split at h
      · rcases List.mem_cons.mp h with h | h
        · left
          exact h
        · right
          exact List.mem_cons_of_mem _ h
      · rcases List.mem_cons.mp h with h | h
        · right
          rw [h]
          exact List.mem_cons_self _ _
        · rcases ih h with h | h
          · left
            exact h
          · right
            exact List.mem_cons_of_mem _ h

theorem answers_logged_append (name : String) (retv : List (Int × config))
    (commands extra : List config) (h : answers_logged name retv commands) :
    answers_logged name retv (commands ++ extra) := by
  intro p hp
  obtain ⟨c, hc, hl⟩ := h p hp
  exact ⟨c, List.mem_append_left _ hc, hl⟩

theorem answers_logged_insert (name : String) (retv : List (Int × config))
    (commands : List config) (side : Int) (value : config) (c : config)
    (h : answers_logged name retv commands) (hc : c ∈ commands)
    (hl : logged_answer name side value c) :
    answers_logged name (map_insert retv side value) commands := by
  intro p hp
  rcases mem_map_insert retv side value p hp with hp | hp
  · subst hp
    exact ⟨c, hc, hl⟩
  · exact h p hp

theorem find_local_side_mem (env : collaborators) (retv : List (Int × config))
    (sides : List Int) :
    find_local_side env retv sides = 0 ∨ find_local_side env retv sides ∈ sides := by
  induction sides with
  | nil =>
    left
    rfl
  | cons side rest ih =>
    unfold find_local_side
    split
    · right
      exact List.mem_cons_self _ _
    · rcases ih with ih | ih
      · left
        exact ih
      · right
        exact List.mem_cons_of_mem _ ih

theorem user_input_command_logged (name : String) (input : config) (side : Int) :
    logged_answer name side input (user_input_command name input side) := by
  refine ⟨rfl, rfl, ?_⟩
  simp [user_input_command, config.child, config.children, List.lookup]

theorem user_input_appends (r r1 : replay) (name : String) (input : config) (side : Int)
    (hside : side ≠ -1) (h : r.user_input name input side = some r1) :
    r1.base_.commands = r.base_.commands ++ [user_input_command name input side] := by
  by_cases hend : r.base_.pos = r.base_.commands.length
  · rw [user_input_at_end r name input side hend hside] at h
    injection h with h
    rw [← h]
    rfl
  · have hat : r.at_end ≠ some true := fun e => hend ((at_end_eq_true r).mp e)
    have hadd : r.add_command = none := by
      unfold replay.add_command
      split
      · rename_i hh
        exact absurd hh hat
      · rfl
    simp [replay.user_input, hadd] at h

theorem add_config_loop_appends (mark : MARK_SENT) (l : List config) :
    ∀ (r r1 : replay), add_config_loop mark l r = some r1 →
      ∃ extra, r1.base_.commands = r.base_.commands ++ extra := by
  induction l with
  | nil =>
    intro r r1 h
    simp only [add_config_loop] at h
    injection h with h
    exact ⟨[], by rw [← h]; simp⟩
  | cons cmd rest ih =>
    intro r r1 h
    simp only [add_config_loop, replay_recorder_base.insert_command, replay_recorder_base.size,
      Nat.le_refl, if_true] at h
    obtain ⟨extra, he⟩ := ih _ r1 h
    refine ⟨(if mark = MARK_SENT.MARK_AS_SENT then cmd.set "sent" (.bool true) else cmd)
      :: extra, ?_⟩
    rw [he]
    simp only [replay.write_command, List.take_length, List.drop_length]
    rw [set_middle]
    simp

theorem pull_remote_user_input_appends (s s1 : game_state)
    (h : s.pull_remote_user_input = some s1) :
    (∃ extra, s1.recorder.base_.commands = s.recorder.base_.commands ++ extra)
      ∧ s1.oos_errors = s.oos_errors := by
  unfold game_state.pull_remote_user_input at h
  split at h
  · cases h
    exact ⟨⟨[], by simp [game_state.emit]⟩, rfl⟩
  · split at h
    · cases h
    · rename_i r hr
      cases h
      obtain ⟨extra, he⟩ := add_config_loop_appends _ _ _ _ hr
      exact ⟨⟨extra, he⟩, rfl⟩

theorem query_missing_sides_errors (env : collaborators) (sides : List Int) :
    ∀ (retv : List (Int × config)) (s : game_state),
      (query_missing_sides env sides retv s).2.oos_errors = s.oos_errors := by
  induction sides with
  | nil =>
    intro retv s
    rfl
  | cons side rest ih =>
    intro retv s
    unfold query_missing_sides
    split
    · rw [ih]
    · rw [ih]
theorem mem_of_getElem? {α : Type} (l : List α) (i : Nat) (x : α) (h : l[i]? = some x) :
    x ∈ l := by
  obtain ⟨hi, hx⟩ := List.getElem?_eq_some.mp h
  rw [← hx]
  exact List.getElem_mem hi

/-- The loop of `get_user_choice_internal` keeps every answer of its mapping in
the log, as long as it does not fall back on asking the resolver for the
missing sides. -/
theorem get_user_choice_loop_logged (env : collaborators) (name : String) (sides : List Int)
    (hsides : ∀ side ∈ sides, 1 ≤ side) :
    ∀ (fuel : Nat) (retv : List (Int × config)) (s : game_state)
      (res : List (Int × config) × game_state),
      get_user_choice_loop env name sides fuel retv s = some res →
      answers_logged name retv s.recorder.base_.commands →
      oos_error.choice_expected name ∉ res.2.oos_errors →
      answers_logged name res.1 res.2.recorder.base_.commands := by
  intro fuel
  induction fuel with
  | zero =>
    intro retv s res h _ _
    simp [get_user_choice_loop] at h
  | succ fuel ih =>
    intro retv s res h hlogged hno
    unfold get_user_choice_loop at h
    split at h
    · cases h
      exact hlogged
    · split at h
      · cases h
      · rename_i ret s1 hrun
        have hcmd := (do_replay_handle_loop_frame env false _ s s1 ret hrun).1
        have hlogged1 : answers_logged name retv s1.recorder.base_.commands := by
          rw [hcmd]
          exact hlogged
        dsimp only at h
        split at h
        · cases h
        · split at h
          · rename_i hlocal
            split at h
            · cases h
            · rename_i r hr
              have hmem : find_local_side env retv sides ∈ sides := by
                rcases find_local_side_mem env retv sides with h0 | h0
                · exact absurd h0 hlocal
                · exact h0
              have hge := hsides _ hmem
              have happ := user_input_appends _ _ _ _ _ (by omega) hr
              have hlogged2 : answers_logged name
                  (map_insert retv (find_local_side env retv sides)
                    (env.query_user (find_local_side env retv sides)))
                  r.base_.commands := by
                rw [happ]
                exact answers_logged_insert name retv _ _ _ _
                  (answers_logged_append name retv _ _ hlogged1)
                  (List.mem_append_right _ (List.mem_singleton.mpr rfl))
                  (user_input_command_logged name _ _)
              refine ih _ _ res h ?_ hno
              split
              · exact hlogged2
              · exact hlogged2
          · split at h
            · cases h
            · split at h
              · cases h
              · rename_i s2 hpull
                obtain ⟨⟨extra, he⟩, _⟩ := pull_remote_user_input_appends _ _ hpull
                refine ih _ _ res h ?_ hno
                rw [he]
                exact answers_logged_append name retv _ _ hlogged1
        · split at h
          · cases h
          · cases h
          · rename_i action r hnext
            obtain ⟨_, haction, hr⟩ := get_next_action_some _ _ _ hnext
            have hin : action ∈ s1.recorder.base_.commands := mem_of_getElem? _ _ _ haction
            have hrc : r.base_.commands = s1.recorder.base_.commands := by rw [hr]
            split at h
            · exfalso
              cases h
              apply hno
              rw [query_missing_sides_errors]
              simp [game_state.process_error]
            · rename_i hgood
              have hdep : (action.get "dependent").to_bool false = true := by
                by_contra hd
                apply hgood
                right
                simpa using hd
              split at h
              · refine ih _ _ res h ?_ hno
                have : ∀ s3 : game_state, s3.recorder = r →
                    answers_logged name retv s3.recorder.base_.commands := by
                  intro s3 h3
                  rw [h3, hrc]
                  exact hlogged1
                split
                · exact this _ rfl
                · exact this _ rfl
              · split at h
                · cases h
                · rename_i value hvalue
                  refine ih _ _ res h ?_ hno
                  have : ∀ s4 : game_state, s4.recorder = r →
                      answers_logged name
                        (map_insert retv ((action.get "from_side").to_int 0) value)
                        s4.recorder.base_.commands := by
                    intro s4 h4
                    rw [h4, hrc]
                    exact answers_logged_insert name retv _ _ _ action hlogged1 hin
                      ⟨hdep, rfl, hvalue⟩
                  split
                  · split
                    · exact this _ rfl
                    · exact this _ rfl
                  · split
                    · exact this _ rfl
                    · exact this _ rfl
/-- Counterexample to C16 as stated: side 1 is requested and the next command
of the log is a move, not an answer. The routine reports that, asks the
resolver and returns its answer for side 1, and the log, which is still the
move alone, holds no dependent command. -/
theorem fallback_answer_is_not_logged :
    returned_choices (get_user_choice_internal 4 sample_env "choose" [1]
        (game_at (log_with_cursor [move_command] 0) true))
      = some [(1, sample_env.query_user 1)]
    ∧ log_after (get_user_choice_internal 4 sample_env "choose" [1]
        (game_at (log_with_cursor [move_command] 0) true))
      = some [move_command]
    ∧ (move_command.get "dependent").to_bool false = false := by
  refine ⟨rfl, rfl, rfl⟩

/-- C16, amended (every answer is logged). For every call of
`get_user_choice_internal` that returns and has not reported that the answer
to the decision was expected but not found (the report of its fallback, which
asks the resolver and records nothing), each pair of side and value of the
returned mapping is present in the log as a dependent command from that side
whose child named after the decision is the value. -/
theorem returned_answers_are_logged (fuel : Nat) (env : collaborators) (name : String)
    (sides : List Int) (s s1 : game_state) (retv : List (Int × config))
    (hret : get_user_choice_internal fuel env name sides s = some (retv, s1))
    (hno : oos_error.choice_expected name ∉ s1.oos_errors) :
    ∀ side value, (side, value) ∈ retv →
      ∃ c ∈ s1.recorder.base_.commands,
        (c.get "dependent").to_bool false = true
          ∧ (c.get "from_side").to_int 0 = side
          ∧ c.child name = some value := by
  unfold get_user_choice_internal at hret
  split at hret
  · cases hret
  · rename_i hall
    have hall2 : ∀ x ∈ sides, 1 ≤ x ∧ x ≤ (env.nteams : Int) ∧ env.is_empty x = false := by
      simpa using hall
    have hsides : ∀ side ∈ sides, 1 ≤ side := fun side hside => (hall2 side hside).1
    have hlogged := get_user_choice_loop_logged env name sides hsides fuel [] _ _ hret
      (fun p hp => by simp at hp) hno
    intro side value hmem
    exact hlogged (side, value) hmem

/-- Witness of C16, amended: the local resolution for the sides 1 and 2 at the
end of the log `[start]`. -/
theorem returned_answers_are_logged_witness :
    ∃ retv s1, get_user_choice_internal 3 sample_env "advance" [1, 2]
        (game_at (log_at_end [start_command]) true) = some (retv, s1)
      ∧ ∀ side value, (side, value) ∈ retv →
          ∃ c ∈ s1.recorder.base_.commands,
            (c.get "dependent").to_bool false = true
              ∧ (c.get "from_side").to_int 0 = side
              ∧ c.child "advance" = some value := by
  obtain ⟨res, h⟩ : ∃ res, get_user_choice_internal 3 sample_env "advance" [1, 2]
      (game_at (log_at_end [start_command]) true) = some res := ⟨_, rfl⟩
  have he : errors_after (get_user_choice_internal 3 sample_env "advance" [1, 2]
      (game_at (log_at_end [start_command]) true)) = some [] := rfl
  rw [h] at he
  simp only [errors_after, Option.map_some', Option.some.injEq] at he
  exact ⟨res.1, res.2, h, returned_answers_are_logged 3 sample_env "advance" [1, 2]
    (game_at (log_at_end [start_command]) true) res.2 res.1 h (by rw [he]; simp)⟩


/-! ## The execution loop: return values -/

theorem do_replay_handle_loop_mode (env : collaborators) (one_move : Bool) :
    ∀ (fuel : Nat) (s s1 : game_state) (ret : REPLAY_RETURN),
      do_replay_handle_loop env one_move fuel s = some (ret, s1) →
      ret ≠ REPLAY_RETURN.REPLAY_RETURN_AT_END →
      ret ≠ REPLAY_RETURN.REPLAY_FOUND_DEPENDENT → s.is_synced = false := by
  intro fuel
  induction fuel with
  | zero =>
    intro s s1 ret h
    simp [do_replay_handle_loop] at h
  | succ fuel ih =>
    intro s s1 ret h hne hnd
    unfold do_replay_handle_loop at h
    split at h
    · cases h
    · cases h
      exact absurd rfl hne
    · rename_i cfg rec1 hg
      split at h
      · cases h
      · rename_i ret2 s2 hb
        cases h
        exact ((do_replay_branch_return _ _ _ _ _ _ hb).2.2.2 hnd).2
      · rename_i s2 hb
        exact (do_replay_branch_continue _ _ _ _ _ hb).2.2
      · rename_i s2 hb
        obtain ⟨_, hctx⟩ := do_replay_branch_fall_through _ _ _ _ _ hb
        split at h
        · cases h
        · rename_i s3 hv
          obtain ⟨_, hvc, _⟩ := verify_embedded_frame _ _ _ hv
          have := ih s3 s1 ret h hne hnd
          have e1 : s3.is_synced = s2.is_synced := hvc.1
          have e2 : s2.is_synced = s.is_synced := hctx.1
          rw [← e2, ← e1]
          exact this

/-- C26 (return values are partitioned by mode). The loop never changes the
synced flag, so the flag on entry is the flag throughout the call. Whenever
`do_replay_handle` returns: in synced mode the value is `REPLAY_RETURN_AT_END`
or `REPLAY_FOUND_DEPENDENT`; in unsynced mode it is not
`REPLAY_FOUND_DEPENDENT`; and when it is `REPLAY_RETURN_AT_END` the cursor is
the length of the log, which is the length on entry. -/
theorem return_values_partitioned_by_mode (env : collaborators) (one_move : Bool)
    (s s1 : game_state) (ret : REPLAY_RETURN)
    (h : do_replay_handle env one_move s = some (ret, s1)) :
    s1.is_synced = s.is_synced
      ∧ (s.is_synced = true →
          ret = REPLAY_RETURN.REPLAY_RETURN_AT_END ∨ ret = REPLAY_RETURN.REPLAY_FOUND_DEPENDENT)
      ∧ (s.is_synced = false → ret ≠ REPLAY_RETURN.REPLAY_FOUND_DEPENDENT)
      ∧ (ret = REPLAY_RETURN.REPLAY_RETURN_AT_END →
          s1.recorder.base_.pos = s1.recorder.ncommands
          ∧ s1.recorder.ncommands = s.recorder.ncommands) := by
  obtain ⟨h1, h2, _, h4, h5⟩ := do_replay_handle_loop_frame env one_move _ s s1 ret h
  refine ⟨h2.1, ?_, ?_, ?_⟩
  · intro hs
    by_cases ha : ret = REPLAY_RETURN.REPLAY_RETURN_AT_END
    · exact Or.inl ha
    · by_cases hd : ret = REPLAY_RETURN.REPLAY_FOUND_DEPENDENT
      · exact Or.inr hd
      · have := do_replay_handle_loop_mode env one_move _ s s1 ret h ha hd
        rw [hs] at this
        cases this
  · intro hs hd
    have := (h5 hd).1
    rw [hs] at this
    cases this
  · intro ha
    refine ⟨?_, ?_⟩
    · simpa [replay.ncommands, replay_recorder_base.size] using h4 ha
    · simp [replay.ncommands, replay_recorder_base.size, h1]

/-- Witness of C26: in synced mode on `[speak][choice]` from the start the loop
returns `REPLAY_FOUND_DEPENDENT`. -/
theorem return_values_partitioned_by_mode_witness :
    ∃ s1, do_replay_handle sample_env false
        (game_at (log_with_cursor [speak_command, choice_command] 0) true)
        = some (REPLAY_RETURN.REPLAY_FOUND_DEPENDENT, s1)
      ∧ s1.is_synced = true := by
  obtain ⟨s1, h1⟩ : ∃ s1, do_replay_handle sample_env false
      (game_at (log_with_cursor [speak_command, choice_command] 0) true)
      = some (REPLAY_RETURN.REPLAY_FOUND_DEPENDENT, s1) := ⟨_, rfl⟩
  have h := return_values_partitioned_by_mode sample_env false _ s1 _ h1
  exact ⟨s1, h1, h.1⟩

/-! ## The undo engine: reachability and round trip -/

/-- In the last `else` of the repair loop nothing happens to the log or to
`dst`. -/
theorem undo_fix_step_final_else (rl : config → List map_location) (cmd_index i : Nat)
    (r : replay) (dst c : config) (hc : r.command i = some c)
    (h : reaches_final_else cmd_index i c = true) :
    undo_fix_step rl cmd_index i r dst = some (r, dst) := by
  simp only [reaches_final_else, Bool.and_eq_true, Bool.not_eq_true', Bool.or_eq_false_iff,
    beq_eq_false_iff_ne] at h
  obtain ⟨⟨h1, h2⟩, h3, h4⟩ := h
  simp [undo_fix_step, hc, h1, h2, h3, h4]

theorem not_candidate_no_final_else (cmd_index i : Nat) (d : config)
    (h : d.undo_candidate = false) : reaches_final_else cmd_index i d = false := by
  simp only [config.undo_candidate, config.undoable, config.is_async, config.is_dependent] at h
  simp only [reaches_final_else]
  cases h1 : (d.get "undo").to_bool true <;> cases h2 : (d.get "async").to_bool false <;>
    cases h3 : (d.get "dependent").to_bool false <;> simp_all

/-- The repair loop started on a log that ends in the undone command and
commands that are no candidates never takes its last `else`. -/
theorem undo_fix_unhandled_spec (rl : config → List map_location) (pre : List config)
    (cand : config) (hu : cand.undoable = true) (ha : cand.is_async = false)
    (post : List config) :
    ∀ (tail D : List config) (r : replay),
      r.base_.commands = pre ++ cand :: (post ++ tail) →
      (∀ d ∈ post, d.undo_candidate = false) →
      undo_fix_unhandled rl pre.length (post.length + 1) r (config.mk [] (command_children D))
        = [] := by
  induction post using List.reverseRecOn with
  | nil =>
    intro tail D r h _
    obtain ⟨r1, hr1, _⟩ := undo_fix_step_candidate rl r pre cand tail D (by simpa using h) hu ha
    have hget : r.command pre.length = some cand := by
      simp only [replay.command, replay_recorder_base.get_command_at, h]
      exact getElem?_middle _ _ _
    simp [undo_fix_unhandled, hget, hr1, reaches_final_else]
  | append_singleton init d ih =>
    intro tail D r h hall
    have h1 : r.base_.commands = (pre ++ cand :: init) ++ d :: tail := by
      simp [h]
    have hc : (pre ++ cand :: init)[pre.length]? = some cand := getElem?_middle _ _ _
    obtain ⟨r1, hr1, hr1c⟩ := undo_fix_step_after rl r _ d tail pre.length cand D h1 hc
    have hlen : (pre ++ cand :: init).length = pre.length + (init.length + 1) := by
      simp
    have hget : r.command (pre.length + (init.length + 1)) = some d := by
      simp only [replay.command, replay_recorder_base.get_command_at, h1, ← hlen]
      exact getElem?_middle _ _ _
    rw [hlen] at hr1
    have h2 : r1.base_.commands
        = pre ++ cand :: (init ++ ((undo_survivor rl cand d).toList ++ tail)) := by
      simp [hr1c]
    have hd := not_candidate_no_final_else pre.length (pre.length + (init.length + 1)) d
      (hall d (by simp))
    have hrec := ih ((undo_survivor rl cand d).toList ++ tail)
      (if (d.handed_back && d.is_dependent) = true then d :: D else D) r1 h2
      (fun e he => hall e (by simp [he]))
    have hl : (init ++ [d]).length + 1 = (init.length + 1) + 1 := by simp
    rw [hl, undo_fix_unhandled]
    simp only [hget, hd, hr1, hrec]
    simp

/-- What the search loop of `undo_cut` has seen when it stops at an index. -/
theorem undo_scan_found (r : replay) :
    ∀ (k j : Nat), undo_scan r k = some (.found j) →
      j < k ∧ ∃ cand, r.base_.commands[j]? = some cand ∧ cand.undo_candidate = true
        ∧ cand.is_sent = false
        ∧ ∀ i d, j < i → i < k → r.base_.commands[i]? = some d → d.undo_candidate = false := by
  intro k
  induction k with
  | zero =>
    intro j h
    simp [undo_scan] at h
  | succ k ih =>
    intro j h
    unfold undo_scan at h
    split at h
    · cases h
    · rename_i c hc
      split at h
      · rename_i hcand
        split at h
        · cases h
        · rename_i hs
          cases h
          refine ⟨Nat.lt_succ_self _, c, hc, ?_, ?_, ?_⟩
          · simp [config.undo_candidate, config.undoable, config.is_async, config.is_dependent,
              hcand.1, hcand.2.1, hcand.2.2]
          · simpa [config.is_sent] using hs
          · intro i d h1 h2
            omega
      · rename_i hcand
        obtain ⟨hjk, cand, h1, h2, h3, h4⟩ := ih j h
        refine ⟨by omega, cand, h1, h2, h3, ?_⟩
        intro i d hji hik hd
        by_cases hi : i = k
        · subst hi
          simp only [replay.command, replay_recorder_base.get_command_at] at hc
          rw [hc] at hd
          cases hd
          by_contra hx
          apply hcand
          simp only [config.undo_candidate, config.undoable, config.is_async,
            config.is_dependent, Bool.not_eq_false, Bool.and_eq_true, Bool.not_eq_true'] at hx
          simp [hx.1.1, hx.1.2, hx.2]
        · exact h4 i d hji (by omega) hd

theorem split_at_index {α : Type} (l : List α) (j : Nat) (x : α) (h : l[j]? = some x) :
    l = l.take j ++ x :: l.drop (j + 1) ∧ (l.take j).length = j := by
  have hj : j < l.length := by
    by_contra hge
    rw [List.getElem?_eq_none (by omega)] at h
    cases h
  have hx : l[j] = x := by
    rw [List.getElem?_eq_getElem hj] at h
    exact Option.some.inj h
  refine ⟨?_, by simp; omega⟩
  rw [← hx, ← List.drop_eq_getElem_cons hj, List.take_append_drop]

/-- C24 (the "unexpected command" branch of `undo_cut` is unreachable). For
every replay object, whatever its log and cursor, and every reader of move
paths, a call of `undo_cut` with an empty `dst` takes the last `else` of its
repair loop, the one that logs "Coudn't handle command", at no index: every
command that the loop meets has `undo` false, or is async, or is dependent, or
is the undone command itself. -/
theorem undo_cut_never_unhandled (rl : config → List map_location) (r : replay) :
    r.undo_cut_unhandled rl config.empty_config = [] := by
  unfold replay.undo_cut_unhandled
  split
  · rfl
  · split
    · rfl
    · rfl
    · rename_i hat
      split
      · rfl
      · rfl
      · rfl
      · rename_i cmd_index hscan
        obtain ⟨hjk, cand, hc, hcand, _, hpost⟩ := undo_scan_found r _ _ hscan
        obtain ⟨hsplit, hlen⟩ := split_at_index _ _ _ hc
        have hcu : cand.undoable = true ∧ cand.is_async = false := by
          simp [config.undo_candidate] at hcand
          exact ⟨hcand.1.1, hcand.1.2⟩
        have hall : ∀ d ∈ r.base_.commands.drop (cmd_index + 1), d.undo_candidate = false := by
          intro d hd
          obtain ⟨n, hn, hnd⟩ := List.mem_iff_getElem.mp hd
          have hn2 : n < r.base_.commands.length - (cmd_index + 1) := by simpa using hn
          apply hpost (cmd_index + 1 + n) d (by omega)
          · simp only [replay.ncommands, replay_recorder_base.size]
            omega
          · rw [← hnd, List.getElem_drop, List.getElem?_eq_getElem]
        have hm : r.ncommands - cmd_index = (r.base_.commands.drop (cmd_index + 1)).length + 1 := by
          simp only [replay.ncommands, replay_recorder_base.size] at hjk ⊢
          simp
          omega
        have hmain := undo_fix_unhandled_spec rl (r.base_.commands.take cmd_index) cand hcu.1 hcu.2
          (r.base_.commands.drop (cmd_index + 1)) [] [] r (by simpa using hsplit) hall
        rw [hlen] at hmain
        rw [hm]
        exact hmain

/-- The last `else` of the repair loop can be reached by the loop alone: started
at index 0 on two moves it meets the second move, which is neither dependent
nor the command at index 0. The search loop of `undo_cut` never starts it so. -/
theorem undo_fix_unhandled_reachable :
    undo_fix_unhandled sample_read_locations 0 2 (log_at_end [move_command, move_command])
      config.empty_config = [1] := by
  rfl

/-- The loop of `redo` on a log whose cursor is at the end appends the
commands. -/
theorem redo_loop_appends (l : List config) :
    ∀ (r : replay), r.base_.pos = r.base_.commands.length →
      (redo_loop l r).base_.commands = r.base_.commands ++ l
        ∧ (redo_loop l r).base_.pos = r.base_.commands.length + l.length
        ∧ (redo_loop l r).message_locations = r.message_locations := by
  induction l with
  | nil =>
    intro r h
    simp [redo_loop, h]
  | cons cmd rest ih =>
    intro r h
    have hc : (({ r with base_ := r.base_.add_child } : replay).write_command r.base_.pos
        cmd).base_.commands = r.base_.commands ++ [cmd] := by
      simp only [replay.write_command, replay_recorder_base.add_child, h, List.take_length,
        List.drop_length]
      exact set_middle _ _ _ _
    have hp : (({ r with base_ := r.base_.add_child } : replay).write_command r.base_.pos
        cmd).base_.pos = r.base_.commands.length + 1 := by
      simp [replay.write_command, replay_recorder_base.add_child, h]
    obtain ⟨h1, h2, h3⟩ := ih _ (by rw [hp, hc]; simp)
    rw [redo_loop]
    refine ⟨?_, ?_, ?_⟩
    · rw [h1, hc]
      simp
    · rw [h2, hc]
      simp
      omega
    · rw [h3]
      rfl

/-- C25 (undo/redo round trip). The log is at its end; its undo candidate `cand`
is unsent, and every command after it is a dependent command of the handed-back
class (dependent, `undo` not false, not async). Then `undo_cut` with an empty
`dst` returns, `redo` with the `dst` it has filled returns, and after the two
calls the sequence of commands is the original one and the cursor is at the end
of the log. -/
theorem undo_then_redo_restores (rl : config → List map_location) (r : replay)
    (pre : List config) (cand : config) (post : List config)
    (hlog : r.base_.commands = pre ++ cand :: post)
    (hend : r.base_.pos = r.base_.commands.length)
    (hcand : cand.undo_candidate = true)
    (hsent : cand.is_sent = false)
    (hpost : ∀ d ∈ post, d.is_dependent = true ∧ d.undoable = true ∧ d.is_async = false) :
    ∃ r1 dst1 r2, r.undo_cut rl config.empty_config = some (r1, dst1)
      ∧ r1.redo dst1 = some r2
      ∧ r2.base_.commands = r.base_.commands
      ∧ r2.base_.pos = r2.base_.commands.length := by
  have hnc : ∀ d ∈ post, d.undo_candidate = false := by
    intro d hd
    simp [config.undo_candidate, (hpost d hd).1]
  obtain ⟨r1, h1, h2, h3⟩ := undo_cut_spec rl r pre cand post hlog hend hcand hsent hnc
  have hf : post.filter (fun d => d.handed_back && d.is_dependent) = post := by
    apply List.filter_eq_self.mpr
    intro d hd
    obtain ⟨a, b, c⟩ := hpost d hd
    simp [config.handed_back, a, b, c]
  have hs : post.filterMap (undo_survivor rl cand) = [] := by
    apply List.filterMap_eq_nil_iff.mpr
    intro d hd
    obtain ⟨a, b, c⟩ := hpost d hd
    simp [undo_survivor, a, b, c]
  rw [hf] at h1
  rw [hs, List.append_nil] at h2
  obtain ⟨g1, g2, _⟩ := redo_loop_appends (cand :: post) r1 h3
  refine ⟨r1, _, (redo_loop (cand :: post) r1).set_to_end, h1, ?_, ?_, ?_⟩
  · simp [replay.redo, replay_recorder_base.get_pos, replay.ncommands,
      replay_recorder_base.size, h3, child_range_command_children]
  · simp only [replay.set_to_end, replay_recorder_base.set_to_end,
      child_range_command_children, g1, h2, hlog]
  · simp [replay.set_to_end, replay_recorder_base.set_to_end, replay_recorder_base.size]

/-- Witness of C25: on the log `[start][move][choice]` undo takes the move and
the answer that depends on it out of the log, and redo puts both back. -/
theorem undo_then_redo_restores_witness :
    ∃ r1 dst1 r2, (log_at_end [start_command, move_command, choice_command]).undo_cut
          sample_read_locations config.empty_config = some (r1, dst1)
      ∧ r1.redo dst1 = some r2
      ∧ r2.base_.commands = [start_command, move_command, choice_command]
      ∧ r2.base_.pos = r2.base_.commands.length :=
  undo_then_redo_restores sample_read_locations
    (log_at_end [start_command, move_command, choice_command])
    [start_command] move_command [choice_command] rfl rfl rfl rfl
    (by
      intro d hd
      simp only [List.mem_singleton] at hd
      subst hd
      exact ⟨rfl, rfl, rfl⟩)



/-! ## The execution loop: embedded verification -/

theorem verify_embedded_verified (s s1 : game_state) (cfg : config)
    (h : s.verify_embedded cfg = some s1) :
    s1.verified = s.verified ++ (cfg.child "verify").toList := by
  unfold game_state.verify_embedded at h
  split at h
  · rename_i child hc
    unfold game_state.verify at h
    split at h
    · cases h
      simp [hc]
    · cases h
  · rename_i hc
    cases h
    simp [hc]

theorem do_replay_branch_fall_through_verified (env : collaborators) (one_move : Bool)
    (cfg : config) (s s1 : game_state)
    (h : do_replay_branch env one_move cfg s = some (.fall_through s1)) :
    s1.verified = s.verified ∧ reaches_dependent_branch cfg = false := by
  unfold do_replay_branch at h
  dsimp only at h
  repeat' split at h
  all_goals first
    | (cases h
       done)
    | (cases h
       refine ⟨rfl, ?_⟩
       simp_all [reaches_dependent_branch] <;> (intros; simp_all))

theorem do_replay_branch_continue_verified (env : collaborators) (one_move : Bool)
    (cfg : config) (s s1 : game_state)
    (h : do_replay_branch env one_move cfg s = some (.continue_loop s1)) :
    s1.verified = s.verified ∧ reaches_dependent_branch cfg = true := by
  unfold do_replay_branch at h
  dsimp only at h
  repeat' split at h
  all_goals first
    | (cases h
       done)
    | (cases h
       refine ⟨rfl, ?_⟩
       simp_all [reaches_dependent_branch])

theorem do_replay_branch_return_verified (env : collaborators) (one_move : Bool)
    (cfg : config) (s s1 : game_state) (ret : REPLAY_RETURN)
    (h : do_replay_branch env one_move cfg s = some (.return_value ret s1)) :
    (ret = REPLAY_RETURN.REPLAY_FOUND_END_TURN →
        s.verify_embedded cfg = some s1 ∧ reaches_dependent_branch cfg = false)
      ∧ (ret ≠ REPLAY_RETURN.REPLAY_FOUND_END_TURN → s1.verified = s.verified) := by
  unfold do_replay_branch at h
  dsimp only at h
  repeat' split at h
  all_goals first
    | (cases h
       done)
    | (cases h
       refine ⟨fun he => (by cases he), fun _ => rfl⟩)
    | (rename_i s2 hv
       cases h
       refine ⟨fun _ => ⟨hv, ?_⟩, fun hne => absurd rfl hne⟩
       simp_all [reaches_dependent_branch]
       intros
       simp_all)

theorem drop_take_cons {α : Type} (l : List α) (p e : Nat) (x : α) (h : l[p]? = some x)
    (he : p + 1 ≤ e) :
    (l.drop p).take (e - p) = x :: (l.drop (p + 1)).take (e - (p + 1)) := by
  have hp : p < l.length := by
    by_contra hge
    rw [List.getElem?_eq_none (by omega)] at h
    cases h
  have hx : l[p] = x := by
    rw [List.getElem?_eq_getElem hp] at h
    exact Option.some.inj h
  have he2 : e - p = (e - (p + 1)) + 1 := by omega
  rw [List.drop_eq_getElem_cons hp, hx, he2, List.take_succ_cons]

/-- The blocks that a run of the loop of `do_replay_handle` has verified when
it returns: the `verify` children of the commands it has passed, apart from the
dependent commands that it ignores. -/
theorem do_replay_handle_loop_verified (env : collaborators) (one_move : Bool) :
    ∀ (fuel : Nat) (s s1 : game_state) (ret : REPLAY_RETURN),
      do_replay_handle_loop env one_move fuel s = some (ret, s1) →
      s.recorder.base_.pos ≤ passed_end ret s1
        ∧ s1.verified = s.verified ++ verify_blocks (passed_commands s ret s1) := by
  intro fuel
  induction fuel with
  | zero =>
    intro s s1 ret h
    simp [do_replay_handle_loop] at h
  | succ fuel ih =>
    intro s s1 ret h
    have hframe := do_replay_handle_loop_frame env one_move _ s s1 ret h
    unfold do_replay_handle_loop at h
    split at h
    · cases h
    · cases h
      simp [passed_end, passed_commands, verify_blocks]
    · rename_i cfg rec1 hg
      obtain ⟨hlt, hcfg, hrec⟩ := get_next_action_some _ _ _ hg
      subst hrec
      split at h
      · cases h
      · rename_i ret2 s2 hb
        cases h
        obtain ⟨_, hne, hdep, hother⟩ := do_replay_branch_return _ _ _ _ _ _ hb
        obtain ⟨hturn, hnoturn⟩ := do_replay_branch_return_verified _ _ _ _ _ _ hb
        by_cases hr : ret = REPLAY_RETURN.REPLAY_FOUND_DEPENDENT
        · obtain ⟨hrec, _⟩ := hdep hr
          rw [revert_after_fetch] at hrec
          subst hr
          have hv := hnoturn (by decide)
          simp only [passed_end, passed_commands, hrec]
          simp [verify_blocks]
          exact hv
        · obtain ⟨hrec, _⟩ := hother hr
          have hpos : s1.recorder.base_.pos = s.recorder.base_.pos + 1 := by rw [hrec]
          by_cases ht : ret = REPLAY_RETURN.REPLAY_FOUND_END_TURN
          · subst ht
            obtain ⟨hv, hnd⟩ := hturn rfl
            have hv2 := verify_embedded_verified _ _ _ hv
            have hpe : passed_end REPLAY_RETURN.REPLAY_FOUND_END_TURN s1
                = s.recorder.base_.pos + 1 := by
              simp [passed_end, hpos]
            refine ⟨by rw [hpe]; omega, ?_⟩
            simp only [passed_commands, hpe]
            rw [drop_take_cons _ _ _ _ hcfg (Nat.le_refl _)]
            rw [hv2]
            cases hc : cfg.child "verify" <;> simp [verify_blocks, hnd, hc]
          · have hv := hnoturn ht
            have hml : ret = REPLAY_RETURN.REPLAY_FOUND_END_MOVE
                ∨ ret = REPLAY_RETURN.REPLAY_FOUND_END_LEVEL := by
              cases ret <;> simp_all
            have hpe : passed_end ret s1 = s.recorder.base_.pos := by
              simp [passed_end, hml, hpos]
            simp only [passed_commands, hpe]
            simp [verify_blocks]
            exact hv
      · rename_i s2 hb
        obtain ⟨hrec, _, _⟩ := do_replay_branch_continue _ _ _ _ _ hb
        obtain ⟨hv, hd⟩ := do_replay_branch_continue_verified _ _ _ _ _ hb
        obtain ⟨h1, h2⟩ := ih s2 s1 ret h
        rw [hrec] at h1
        simp only at h1
        refine ⟨by omega, ?_⟩
        have hpc : passed_commands s ret s1 = cfg :: passed_commands s2 ret s1 := by
          simp only [passed_commands, hrec]
          exact drop_take_cons _ _ _ _ hcfg h1
        rw [h2, hpc, hv]
        simp [verify_blocks, hd]
      · rename_i s2 hb
        obtain ⟨hrec, _⟩ := do_replay_branch_fall_through _ _ _ _ _ hb
        obtain ⟨hv, hd⟩ := do_replay_branch_fall_through_verified _ _ _ _ _ hb
        split at h
        · cases h
        · rename_i s3 hve
          obtain ⟨hvr, _, _⟩ := verify_embedded_frame _ _ _ hve
          have hv3 := verify_embedded_verified _ _ _ hve
          obtain ⟨h1, h2⟩ := ih s3 s1 ret h
          rw [hvr, hrec] at h1
          simp only at h1
          refine ⟨by omega, ?_⟩
          have hpc : passed_commands s ret s1 = cfg :: passed_commands s3 ret s1 := by
            simp only [passed_commands, hvr, hrec]
            exact drop_take_cons _ _ _ _ hcfg h1
          rw [h2, hpc, hv3, hv]
          cases hc : cfg.child "verify" <;> simp [verify_blocks, hd, hc]

theorem mem_drop_take {α : Type} (l : List α) (p e i : Nat) (x : α) (h : l[i]? = some x)
    (h1 : p ≤ i) (h2 : i < e) : x ∈ (l.drop p).take (e - p) := by
  have hi : p + (i - p) = i := by omega
  have hg : ((l.drop p).take (e - p))[i - p]? = some x := by
    rw [List.getElem?_take_of_lt (by omega), List.getElem?_drop, hi]
    exact h
  exact List.getElem?_mem hg

/-- Counterexample to C21 as stated. In unsynced mode the loop fetches the
dependent command of the log `[choice + verify]`, ignores it with `continue`
and returns `REPLAY_RETURN_AT_END` without a call to the verifier; in synced
mode it fetches the command of the log `[end_turn + verify]` and returns
`REPLAY_FOUND_DEPENDENT`, again without a call to the verifier. -/
theorem ignored_dependent_command_is_not_verified :
    (verified_choice_command.child "verify").isSome = true
      ∧ (do_replay_handle sample_env false
            (game_at (log_with_cursor [verified_choice_command] 0) false)).map
          (fun p => (p.1, p.2.verified.length, p.2.recorder.base_.pos))
          = some (REPLAY_RETURN.REPLAY_RETURN_AT_END, 0, 1)
      ∧ (verified_end_turn_command.child "verify").isSome = true
      ∧ (do_replay_handle sample_env false
            (game_at (log_with_cursor [verified_end_turn_command] 0) true)).map
          (fun p => (p.1, p.2.verified.length, p.2.recorder.base_.pos))
          = some (REPLAY_RETURN.REPLAY_FOUND_DEPENDENT, 0, 0) := by
  refine ⟨rfl, rfl, rfl, rfl⟩

/-- C21, amended (which embedded `verify` blocks are verified). Whenever
`do_replay_handle` returns, the blocks it has handed to the verifier during the
call are, in their order, exactly the `verify` children of the commands it has
passed, apart from the dependent commands, which unsynced mode ignores: the
statement that closes the loop body verifies the block of every command whose
branch reaches it (empty or `start`, `speak`, `label`, `clear_labels`, `rename`,
`init_side`, `countdown_update`, a synced action), and the branch for `end_turn`
verifies the block before it returns. The command on which the loop returns
`REPLAY_FOUND_DEPENDENT` is not passed, and not verified. So for every command
at an index from the cursor on entry up to `passed_end` that carries a `verify`
child and does not go to the branch for dependent commands, that child is among
the verified blocks. -/
theorem verify_invoked_on_passed_commands (env : collaborators) (one_move : Bool)
    (s s1 : game_state) (ret : REPLAY_RETURN)
    (h : do_replay_handle env one_move s = some (ret, s1)) :
    s1.verified = s.verified ++ verify_blocks (passed_commands s ret s1)
      ∧ ∀ (i : Nat) (cfg child : config),
          s.recorder.base_.pos ≤ i → i < passed_end ret s1 →
          s.recorder.base_.commands[i]? = some cfg →
          reaches_dependent_branch cfg = false →
          cfg.child "verify" = some child → child ∈ s1.verified := by
  obtain ⟨_, hv⟩ := do_replay_handle_loop_verified env one_move _ s s1 ret h
  refine ⟨hv, ?_⟩
  intro i cfg child h1 h2 hc hd hch
  rw [hv]
  apply List.mem_append_right
  have hm : cfg ∈ passed_commands s ret s1 := mem_drop_take _ _ _ _ _ hc h1 h2
  exact List.mem_filterMap.mpr ⟨cfg, hm, by simp [hd, hch]⟩

/-- Witness of C21, amended: in unsynced mode on `[speak + verify][end_turn +
verify]` from the start the loop returns `REPLAY_FOUND_END_TURN`, and the block
of the end of turn is among the verified ones. -/
theorem verify_invoked_on_passed_commands_witness :
    ∃ s1, do_replay_handle sample_env false
        (game_at (log_with_cursor [verified_speak_command, verified_end_turn_command] 0) false)
        = some (REPLAY_RETURN.REPLAY_FOUND_END_TURN, s1)
      ∧ s1.verified.length = 2
      ∧ agreeing_digest ∈ s1.verified := by
  refine ⟨_, rfl, rfl, ?_⟩
  exact (verify_invoked_on_passed_commands sample_env false
    (game_at (log_with_cursor [verified_speak_command, verified_end_turn_command] 0) false)
    _ _ rfl).2 1 verified_end_turn_command agreeing_digest (by decide) (by decide) rfl rfl rfl



/-! ## The execution loop: termination -/

/-- The loop body ends for every command on which the assertion of the branch
for dependent commands holds and the call of the verifier in the branch for
`end_turn`, when the command reaches it, returns. -/
theorem do_replay_branch_returns (env : collaborators) (one_move : Bool) (cfg : config)
    (s : game_state)
    (hdep : s.is_synced = true → reaches_dependent_branch cfg = true → cfg.children.length = 1)
    (hver : reaches_end_turn_verify cfg s = true → (s.verify_embedded cfg).isSome = true) :
    ∃ b, do_replay_branch env one_move cfg s = some b := by
  unfold do_replay_branch
  dsimp only
  repeat' split
  all_goals first
    | exact ⟨_, rfl⟩
    | (exfalso
       rename_i hnone
       have hreach : reaches_end_turn_verify cfg s = true := by
         simp_all [reaches_end_turn_verify]
       have := hver hreach
       rw [hnone] at this
       cases this)
    | (exfalso
       rename_i hlen
       apply hlen
       apply hdep
       · simp_all
       · simp_all [reaches_dependent_branch])
    | simp_all

theorem mem_drop_succ {α : Type} (l : List α) (p : Nat) (x : α) (h : x ∈ l.drop (p + 1)) :
    x ∈ l.drop p := by
  rw [← List.drop_drop] at h
  exact List.mem_of_mem_drop h

theorem mem_drop_of_getElem? {α : Type} (l : List α) (p : Nat) (x : α) (h : l[p]? = some x) :
    x ∈ l.drop p := by
  have hp : p < l.length := by
    by_contra hge
    rw [List.getElem?_eq_none (by omega)] at h
    cases h
  have hx : l[p] = x := by
    rw [List.getElem?_eq_getElem hp] at h
    exact Option.some.inj h
  rw [List.drop_eq_getElem_cons hp, hx]
  exact List.mem_cons_self _ _

/-- The loop of `do_replay_handle` returns when its fuel exceeds the number of
commands from the cursor on, the assertion of the branch for dependent commands
holds and the calls of the verifier during the run return; and it moves the
cursor one step for every command it fetches, and one step back before it
returns `REPLAY_FOUND_DEPENDENT`. -/
theorem do_replay_handle_loop_returns (env : collaborators) (one_move : Bool) :
    ∀ (fuel : Nat) (s : game_state),
      s.recorder.base_.pos ≤ s.recorder.base_.commands.length →
      s.recorder.base_.commands.length - s.recorder.base_.pos < fuel →
      (∀ c ∈ s.recorder.base_.commands.drop s.recorder.base_.pos,
        s.is_synced = true → reaches_dependent_branch c = true → c.children.length = 1) →
      verifier_calls_return env one_move fuel s = true →
      ∃ ret s1, do_replay_handle_loop env one_move fuel s = some (ret, s1)
        ∧ s1.recorder.base_.pos + rewind_steps ret
            = s.recorder.base_.pos + do_replay_handle_fetches env one_move fuel s
        ∧ s1.recorder.base_.pos + rewind_steps ret ≤ s.recorder.base_.commands.length := by
  intro fuel
  induction fuel with
  | zero =>
    intro s _ hf
    omega
  | succ fuel ih =>
    intro s hp hf hdep hver
    by_cases hend : s.recorder.base_.pos = s.recorder.base_.commands.length
    · have hat := (at_end_eq_true s.recorder).mpr hend
      refine ⟨REPLAY_RETURN.REPLAY_RETURN_AT_END, s, ?_, ?_, ?_⟩
      · simp [do_replay_handle_loop, replay.get_next_action, hat]
      · simp [do_replay_handle_fetches, replay.get_next_action, hat, rewind_steps]
      · simp [rewind_steps, hend]
    · have hlt : s.recorder.base_.pos < s.recorder.base_.commands.length := by omega
      obtain ⟨cfg, hcfg, hnext⟩ := get_next_action_below_end s.recorder hlt
      have hmem := mem_drop_of_getElem? _ _ _ hcfg
      unfold verifier_calls_return at hver
      simp only [hnext, Bool.and_eq_true, Bool.or_eq_true, Bool.not_eq_true'] at hver
      obtain ⟨hturn, hrest⟩ := hver
      obtain ⟨b, hb⟩ := do_replay_branch_returns env one_move cfg
        { s with recorder := { s.recorder with base_ := { s.recorder.base_ with
            pos := s.recorder.base_.pos + 1 } } }
        (hdep cfg hmem)
        (by
          intro hreach
          rcases hturn with hturn | hturn
          · rw [hreach] at hturn
            cases hturn
          · exact hturn)
      rw [hb] at hrest
      cases b with
      | return_value ret s2 =>
        obtain ⟨_, _, hd, ho⟩ := do_replay_branch_return _ _ _ _ _ _ hb
        refine ⟨ret, s2, ?_, ?_, ?_⟩
        · simp [do_replay_handle_loop, hnext, hb]
        · simp only [do_replay_handle_fetches, hnext, hb]
          by_cases hr : ret = REPLAY_RETURN.REPLAY_FOUND_DEPENDENT
          · rw [(hd hr).1, revert_after_fetch]
            simp [rewind_steps, hr]
          · rw [(ho hr).1]
            simp [rewind_steps, hr]
        · by_cases hr : ret = REPLAY_RETURN.REPLAY_FOUND_DEPENDENT
          · rw [(hd hr).1, revert_after_fetch]
            simp [rewind_steps, hr]
            omega
          · rw [(ho hr).1]
            simp [rewind_steps, hr]
            omega
      | continue_loop s2 =>
        obtain ⟨hrec, hctx, _⟩ := do_replay_branch_continue _ _ _ _ _ hb
        have hc2 : s2.recorder.base_.commands = s.recorder.base_.commands := by rw [hrec]
        have hp2 : s2.recorder.base_.pos = s.recorder.base_.pos + 1 := by rw [hrec]
        have hs2 : s2.is_synced = s.is_synced := hctx.1
        dsimp only at hrest
        obtain ⟨ret, s1, h1, h2, h3⟩ := ih s2 (by rw [hc2, hp2]; omega) (by rw [hc2, hp2]; omega)
          (by
            rw [hc2, hp2, hs2]
            intro c hc
            exact hdep c (mem_drop_succ _ _ _ hc))
          hrest
        refine ⟨ret, s1, ?_, ?_, ?_⟩
        · simp [do_replay_handle_loop, hnext, hb, h1]
        · simp only [do_replay_handle_fetches, hnext, hb]
          rw [h2, hp2]
          omega
        · rw [hc2] at h3
          exact h3
      | fall_through s2 =>
        obtain ⟨hrec, hctx⟩ := do_replay_branch_fall_through _ _ _ _ _ hb
        dsimp only at hrest
        cases hv : s2.verify_embedded cfg with
        | none =>
          rw [hv] at hrest
          cases hrest
        | some s3 =>
          rw [hv] at hrest
          dsimp only at hrest
          obtain ⟨hvr, hvc, _⟩ := verify_embedded_frame _ _ _ hv
          have hc2 : s3.recorder.base_.commands = s.recorder.base_.commands := by rw [hvr, hrec]
          have hp2 : s3.recorder.base_.pos = s.recorder.base_.pos + 1 := by rw [hvr, hrec]
          have hs2 : s3.is_synced = s.is_synced := hvc.1.trans hctx.1
          obtain ⟨ret, s1, h1, h2, h3⟩ := ih s3 (by rw [hc2, hp2]; omega)
            (by rw [hc2, hp2]; omega)
            (by
              rw [hc2, hp2, hs2]
              intro c hc
              exact hdep c (mem_drop_succ _ _ _ hc))
            hrest
          refine ⟨ret, s1, ?_, ?_, ?_⟩
          · simp [do_replay_handle_loop, hnext, hb, hv, h1]
          · simp only [do_replay_handle_fetches, hnext, hb, hv]
            rw [h2, hp2]
            omega
          · rw [hc2] at h3
            exact h3

/-- The cursor during a run of the loop that returns: it never decreases before
its last value, and its last value is the one before it, or one less when the
loop returns `REPLAY_FOUND_DEPENDENT`. -/
theorem do_replay_handle_loop_cursors (env : collaborators) (one_move : Bool) :
    ∀ (fuel : Nat) (s s1 : game_state) (ret : REPLAY_RETURN),
      do_replay_handle_loop env one_move fuel s = some (ret, s1) →
      ∃ up, do_replay_handle_cursors env one_move fuel s = up ++ [s1.recorder.base_.pos]
        ∧ List.Chain (fun a b => a ≤ b) s.recorder.base_.pos up
        ∧ (s.recorder.base_.pos :: up).getLast?
            = some (s1.recorder.base_.pos + rewind_steps ret) := by
  intro fuel
  induction fuel with
  | zero =>
    intro s s1 ret h
    simp [do_replay_handle_loop] at h
  | succ fuel ih =>
    intro s s1 ret h
    unfold do_replay_handle_loop at h
    unfold do_replay_handle_cursors
    split at h
    · cases h
    · rename_i r1 hg
      obtain ⟨hr, _⟩ := get_next_action_none _ _ hg
      cases h
      refine ⟨[], by simp [hg, hr], List.Chain.nil, by simp [rewind_steps]⟩
    · rename_i cfg rec1 hg
      obtain ⟨hlt, hcfg, hrec⟩ := get_next_action_some _ _ _ hg
      subst hrec
      simp only [hg]
      split at h
      · cases h
      · rename_i ret2 s2 hb
        cases h
        obtain ⟨_, _, hd, ho⟩ := do_replay_branch_return _ _ _ _ _ _ hb
        refine ⟨[s.recorder.base_.pos + 1], by simp [hb],
          List.Chain.cons (Nat.le_succ _) List.Chain.nil, ?_⟩
        by_cases hr : ret = REPLAY_RETURN.REPLAY_FOUND_DEPENDENT
        · rw [(hd hr).1, revert_after_fetch]
          simp [rewind_steps, hr]
        · rw [(ho hr).1]
          simp [rewind_steps, hr]
      · rename_i s2 hb
        obtain ⟨hrec, _, _⟩ := do_replay_branch_continue _ _ _ _ _ hb
        have hp2 : s2.recorder.base_.pos = s.recorder.base_.pos + 1 := by rw [hrec]
        obtain ⟨up, h1, h2, h3⟩ := ih s2 s1 ret h
        rw [hp2] at h2 h3
        refine ⟨(s.recorder.base_.pos + 1) :: (s.recorder.base_.pos + 1) :: up, ?_, ?_, ?_⟩
        · simp [hb, h1, hp2]
        · exact List.Chain.cons (Nat.le_succ _) (List.Chain.cons (Nat.le_refl _) h2)
        · rw [List.getLast?_cons_cons, List.getLast?_cons_cons]
          exact h3
      · rename_i s2 hb
        obtain ⟨hrec, _⟩ := do_replay_branch_fall_through _ _ _ _ _ hb
        split at h
        · cases h
        · rename_i s3 hv
          obtain ⟨hvr, _, _⟩ := verify_embedded_frame _ _ _ hv
          have hp2 : s3.recorder.base_.pos = s.recorder.base_.pos + 1 := by rw [hvr, hrec]
          obtain ⟨up, h1, h2, h3⟩ := ih s3 s1 ret h
          rw [hp2] at h2 h3
          refine ⟨(s.recorder.base_.pos + 1) :: (s.recorder.base_.pos + 1) :: up, ?_, ?_, ?_⟩
          · simp [hb, hv, h1, hp2]
          · exact List.Chain.cons (Nat.le_succ _) (List.Chain.cons (Nat.le_refl _) h2)
          · rw [List.getLast?_cons_cons, List.getLast?_cons_cons]
            exact h3

/-- Counterexample to C27 as stated. In synced mode on the log `[choice +
checksum]` from the start the loop fetches the command, which goes to the branch
for dependent commands and has two children; the assertion
`cfg->all_children_count() == 1` fails there, so `do_replay_handle` does not
return. -/
theorem dependent_command_with_two_children_stops_loop :
    reaches_dependent_branch choice_with_checksum_command = true
      ∧ choice_with_checksum_command.children.length = 2
      ∧ (log_with_cursor [choice_with_checksum_command] 0).base_.pos
          ≤ (log_with_cursor [choice_with_checksum_command] 0).ncommands
      ∧ do_replay_handle sample_env false
          (game_at (log_with_cursor [choice_with_checksum_command] 0) true) = none := by
  refine ⟨rfl, rfl, by decide, rfl⟩

/-- The assumption on the verifier is what a digest with a missing unit breaks:
in unsynced mode on the log `[end_turn + verify]`, where the digest names a unit
at a location without a local unit, the call of the verifier in the branch for
`end_turn` does not return, and neither does `do_replay_handle`. -/
theorem missing_unit_stops_loop :
    do_replay_handle_verifier_returns sample_env false
        (game_at (log_with_cursor [missing_unit_end_turn_command] 0) false) = false
      ∧ do_replay_handle sample_env false
          (game_at (log_with_cursor [missing_unit_end_turn_command] 0) false) = none := by
  refine ⟨rfl, rfl⟩

/-- C27, amended (the execution loop terminates). The cursor on entry is at
most the length of the log; in synced mode every command from the cursor on
that goes to the branch for dependent commands has exactly one child, as the
assertion in that branch asks; and every call of the verifier that the run
makes returns, with the units and the reports as they are at the moment of the
call. The collaborators return and append nothing. Then `do_replay_handle`
returns; it fetches at most `len - p` commands; the final cursor is the cursor
on entry plus one step for every command fetched, minus the one step of the
rewind when the value returned is `REPLAY_FOUND_DEPENDENT`; the final cursor is
at least the cursor on entry and at most the length of the log; and of the
values that the cursor takes during the call none is below the one before it,
apart from the last one, which is the one before it, or one less when the value
returned is `REPLAY_FOUND_DEPENDENT`. -/
theorem do_replay_handle_terminates (env : collaborators) (one_move : Bool) (s : game_state)
    (hp : s.recorder.base_.pos ≤ s.recorder.ncommands)
    (hdep : ∀ c ∈ s.recorder.base_.commands.drop s.recorder.base_.pos,
      s.is_synced = true → reaches_dependent_branch c = true → c.children.length = 1)
    (hver : do_replay_handle_verifier_returns env one_move s = true) :
    ∃ ret s1, do_replay_handle env one_move s = some (ret, s1)
      ∧ do_replay_handle_fetch_count env one_move s
          ≤ s.recorder.ncommands - s.recorder.base_.pos
      ∧ s1.recorder.base_.pos + rewind_steps ret
          = s.recorder.base_.pos + do_replay_handle_fetch_count env one_move s
      ∧ s.recorder.base_.pos ≤ s1.recorder.base_.pos
      ∧ s1.recorder.base_.pos ≤ s1.recorder.ncommands
      ∧ s1.recorder.ncommands = s.recorder.ncommands
      ∧ ∃ up, do_replay_handle_cursor_trace env one_move s = up ++ [s1.recorder.base_.pos]
          ∧ List.Chain (fun a b => a ≤ b) s.recorder.base_.pos up
          ∧ (s.recorder.base_.pos :: up).getLast?
              = some (s1.recorder.base_.pos + rewind_steps ret) := by
  simp only [replay.ncommands, replay_recorder_base.size] at hp ⊢
  have hver2 : verifier_calls_return env one_move
      (s.recorder.base_.commands.length - s.recorder.base_.pos + 1) s = true := by
    simpa [do_replay_handle_verifier_returns, replay.ncommands, replay_recorder_base.size,
      replay_recorder_base.get_pos] using hver
  obtain ⟨ret, s1, h1, h2, h3⟩ := do_replay_handle_loop_returns env one_move
    (s.recorder.base_.commands.length - s.recorder.base_.pos + 1) s hp (by omega) hdep hver2
  have h1b : do_replay_handle env one_move s = some (ret, s1) := by
    simpa [do_replay_handle, replay.ncommands, replay_recorder_base.size,
      replay_recorder_base.get_pos] using h1
  obtain ⟨hc, _, hmono, _, _⟩ := do_replay_handle_loop_frame env one_move _ s s1 ret h1
  have h2b : s1.recorder.base_.pos + rewind_steps ret
      = s.recorder.base_.pos + do_replay_handle_fetch_count env one_move s := by
    simpa [do_replay_handle_fetch_count, replay.ncommands, replay_recorder_base.size,
      replay_recorder_base.get_pos] using h2
  have htrace := do_replay_handle_loop_cursors env one_move _ s s1 ret h1
  refine ⟨ret, s1, h1b, by omega, h2b, hmono, by rw [hc]; omega, by rw [hc], ?_⟩
  simpa [do_replay_handle_cursor_trace, replay.ncommands, replay_recorder_base.size,
    replay_recorder_base.get_pos] using htrace

/-- Witness of C27, amended: in synced mode on `[speak + verify][choice]` from
the start, where the digest of the `verify` block agrees with the two local
units, the verifier is called once and returns, and the loop returns after two
fetches with the cursor on the choice. -/
theorem do_replay_handle_terminates_witness :
    ∃ ret s1, do_replay_handle sample_env false
          (game_at (log_with_cursor [verified_speak_command, choice_command] 0) true)
          = some (ret, s1)
      ∧ do_replay_handle_fetch_count sample_env false
          (game_at (log_with_cursor [verified_speak_command, choice_command] 0) true) ≤ 2 - 0
      ∧ s1.recorder.base_.pos + rewind_steps ret
          = 0 + do_replay_handle_fetch_count sample_env false
              (game_at (log_with_cursor [verified_speak_command, choice_command] 0) true)
      ∧ 0 ≤ s1.recorder.base_.pos
      ∧ s1.recorder.base_.pos ≤ s1.recorder.ncommands
      ∧ s1.recorder.ncommands = 2
      ∧ ∃ up, do_replay_handle_cursor_trace sample_env false
            (game_at (log_with_cursor [verified_speak_command, choice_command] 0) true)
            = up ++ [s1.recorder.base_.pos]
          ∧ List.Chain (fun a b => a ≤ b) 0 up
          ∧ (0 :: up).getLast? = some (s1.recorder.base_.pos + rewind_steps ret) :=
  do_replay_handle_terminates sample_env false
    (game_at (log_with_cursor [verified_speak_command, choice_command] 0) true) (by decide)
    (by
      intro c hc _ _
      simp only [game_at, log_with_cursor, List.drop_zero, List.mem_cons, List.mem_singleton,
        List.not_mem_nil, or_false] at hc
      rcases hc with hc | hc
      · subst hc
        rename_i h
        cases h
      · subst hc
        rfl)
    rfl

/-! ## User choices of several sides: properties -/

theorem resolution_progress_same (env : collaborators) (name : String) (sides : List Int)
    (s s1 : game_state) (h1 : s1.recorder.base_.commands = s.recorder.base_.commands)
    (h2 : s1.resolver_calls = s.resolver_calls) (h3 : s1.incoming = s.incoming) :
    resolution_progress env name sides s s1 := by
  refine ⟨⟨[], by simp [h1], by simp⟩, ⟨[], by simp [h2], by simp⟩, ?_⟩
  intro batch hb
  rw [h3] at hb
  exact hb

theorem handed_over_mono (a b : List config) (c : config) (h : ∀ batch ∈ b, batch ∈ a)
    (hc : handed_over b c) : handed_over a c := by
  obtain ⟨batch, hb, cmd, hcmd, he⟩ := hc
  exact ⟨batch, h batch hb, cmd, hcmd, he⟩

theorem resolution_progress_trans (env : collaborators) (name : String) (sides : List Int)
    (s s1 s2 : game_state) (h1 : resolution_progress env name sides s s1)
    (h2 : resolution_progress env name sides s1 s2) :
    resolution_progress env name sides s s2 := by
  obtain ⟨⟨e1, he1, hp1⟩, ⟨c1, hc1, hq1⟩, hi1⟩ := h1
  obtain ⟨⟨e2, he2, hp2⟩, ⟨c2, hc2, hq2⟩, hi2⟩ := h2
  refine ⟨⟨e1 ++ e2, by rw [he2, he1, List.append_assoc], ?_⟩,
    ⟨c1 ++ c2, by rw [hc2, hc1, List.append_assoc], ?_⟩, ?_⟩
  · intro c hc
    rcases List.mem_append.mp hc with hc | hc
    · exact hp1 c hc
    · rcases hp2 c hc with hx | hx
      · exact Or.inl hx
      · exact Or.inr (handed_over_mono _ _ _ hi1 hx)
  · intro call hcall
    rcases List.mem_append.mp hcall with hcall | hcall
    · exact hq1 call hcall
    · exact hq2 call hcall
  · intro batch hb
    exact hi1 batch (hi2 batch hb)

theorem add_config_loop_marks (l : List config) :
    ∀ (r r1 : replay), add_config_loop MARK_SENT.MARK_AS_SENT l r = some r1 →
      r1.base_.commands = r.base_.commands ++ l.map (fun cmd => cmd.set "sent" (.bool true)) := by
  induction l with
  | nil =>
    intro r r1 h
    simp only [add_config_loop] at h
    injection h with h
    rw [← h]
    simp
  | cons cmd rest ih =>
    intro r r1 h
    simp only [add_config_loop, replay_recorder_base.insert_command, replay_recorder_base.size,
      Nat.le_refl, if_true] at h
    rw [ih _ r1 h]
    simp only [replay.write_command, List.take_length, List.drop_length]
    rw [set_middle]
    simp

theorem pull_remote_user_input_progress (env : collaborators) (name : String)
    (sides : List Int) (s s1 : game_state) (h : s.pull_remote_user_input = some s1) :
    resolution_progress env name sides s s1 := by
  unfold game_state.pull_remote_user_input at h
  split at h
  · cases h
    exact resolution_progress_same env name sides _ _ rfl rfl rfl
  · rename_i batch rest hin
    split at h
    · cases h
    · rename_i r hr
      cases h
      have hm := add_config_loop_marks _ _ _ hr
      refine ⟨⟨_, hm, ?_⟩, ⟨[], by simp [game_state.emit], by simp⟩, ?_⟩
      · intro c hc
        right
        obtain ⟨cmd, hcmd, he⟩ := List.mem_map.mp hc
        exact ⟨batch, by rw [hin]; exact List.mem_cons_self _ _, cmd, hcmd, he.symm⟩
      · intro b hb
        rw [hin]
        exact List.mem_cons_of_mem _ hb

theorem query_missing_sides_progress (env : collaborators) (name : String) (sides : List Int)
    (l : List Int) :
    ∀ (retv : List (Int × config)) (s : game_state), (∀ side ∈ l, side ∈ sides) →
      resolution_progress env name sides s (query_missing_sides env l retv s).2 := by
  induction l with
  | nil =>
    intro retv s _
    exact resolution_progress_same env name sides _ _ rfl rfl rfl
  | cons side rest ih =>
    intro retv s hl
    unfold query_missing_sides
    split
    · refine resolution_progress_trans env name sides s _ _ ?_
        (ih _ _ (fun x hx => hl x (List.mem_cons_of_mem _ hx)))
      refine ⟨⟨[], by simp, by simp⟩, ⟨[resolver_call.query_user side], rfl, ?_⟩,
        fun b hb => hb⟩
      intro call hcall
      exact ⟨side, hl side (List.mem_cons_self _ _), List.mem_singleton.mp hcall⟩
    · exact ih _ _ (fun x hx => hl x (List.mem_cons_of_mem _ hx))

/-- The loop of `get_user_choice_internal` appends only answers of the resolver
for requested sides and commands from the network layer, and asks the resolver
for requested sides only. -/
theorem get_user_choice_loop_progress (env : collaborators) (name : String) (sides : List Int)
    (hsides : ∀ side ∈ sides, 1 ≤ side) :
    ∀ (fuel : Nat) (retv : List (Int × config)) (s : game_state)
      (res : List (Int × config) × game_state),
      get_user_choice_loop env name sides fuel retv s = some res →
      resolution_progress env name sides s res.2 := by
  intro fuel
  induction fuel with
  | zero =>
    intro retv s res h
    simp [get_user_choice_loop] at h
  | succ fuel ih =>
    intro retv s res h
    unfold get_user_choice_loop at h
    split at h
    · cases h
      exact resolution_progress_same env name sides _ _ rfl rfl rfl
    · split at h
      · cases h
      · rename_i ret s1 hrun
        obtain ⟨hcmd, hctx, _⟩ := do_replay_handle_loop_frame env false _ s s1 ret hrun
        have h01 : resolution_progress env name sides s s1 :=
          resolution_progress_same env name sides _ _ hcmd hctx.2.2.1 hctx.2.2.2
        refine resolution_progress_trans env name sides s s1 _ h01 ?_
        dsimp only at h
        split at h
        · cases h
        · split at h
          · rename_i hlocal
            split at h
            · cases h
            · rename_i r hr
              have hmem : find_local_side env retv sides ∈ sides := by
                rcases find_local_side_mem env retv sides with h0 | h0
                · exact absurd h0 hlocal
                · exact h0
              have hge := hsides _ hmem
              have happ := user_input_appends _ _ _ _ _ (by omega) hr
              have key : ∀ s4 : game_state, s4.recorder = r →
                  s4.resolver_calls = s1.resolver_calls
                    ++ [resolver_call.query_user (find_local_side env retv sides)] →
                  s4.incoming = s1.incoming →
                  resolution_progress env name sides s1 s4 := by
                intro s4 h4 h5 h6
                refine ⟨⟨_, by rw [h4, happ], ?_⟩, ⟨_, h5, ?_⟩, ?_⟩
                · intro c hc
                  left
                  exact ⟨_, hmem, List.mem_singleton.mp hc⟩
                · intro call hcall
                  exact ⟨_, hmem, List.mem_singleton.mp hcall⟩
                · intro b hb
                  rw [h6] at hb
                  exact hb
              refine resolution_progress_trans env name sides s1 _ _ ?_ (ih _ _ res h)
              split
              · exact key _ rfl rfl rfl
              · exact key _ rfl rfl rfl
          · split at h
            · cases h
            · split at h
              · cases h
              · rename_i s2 hpull
                exact resolution_progress_trans env name sides s1 _ _
                  (pull_remote_user_input_progress env name sides _ _ hpull) (ih _ _ res h)
        · split at h
          · cases h
          · cases h
          · rename_i action r hnext
            obtain ⟨_, _, hr⟩ := get_next_action_some _ _ _ hnext
            have hrc : r.base_.commands = s1.recorder.base_.commands := by rw [hr]
            split at h
            · cases h
              refine resolution_progress_trans env name sides s1 _ _ ?_
                (query_missing_sides_progress env name sides sides _ _ (fun x hx => hx))
              refine resolution_progress_same env name sides _ _ ?_ rfl rfl
              simp only [game_state.process_error, replay.revert_action]
              split
              · exact hrc
              · exact hrc
            · have key : ∀ s4 : game_state, s4.recorder = r →
                  s4.resolver_calls = s1.resolver_calls → s4.incoming = s1.incoming →
                  resolution_progress env name sides s1 s4 := by
                intro s4 h4 h5 h6
                exact resolution_progress_same env name sides _ _ (by rw [h4, hrc]) h5 h6
              split at h
              · refine resolution_progress_trans env name sides s1 _ _ ?_ (ih _ _ res h)
                split
                · exact key _ rfl rfl rfl
                · exact key _ rfl rfl rfl
              · split at h
                · cases h
                · refine resolution_progress_trans env name sides s1 _ _ ?_ (ih _ _ res h)
                  split
                  · split
                    · exact key _ rfl rfl rfl
                    · exact key _ rfl rfl rfl
                  · split
                    · exact key _ rfl rfl rfl
                    · exact key _ rfl rfl rfl

theorem get_user_choice_internal_progress (fuel : Nat) (env : collaborators) (name : String)
    (sides : List Int) (s : game_state) (res : List (Int × config) × game_state)
    (h : get_user_choice_internal fuel env name sides s = some res) :
    resolution_progress env name sides s res.2 := by
  unfold get_user_choice_internal at h
  split at h
  · cases h
  · rename_i hall
    have hall2 : ∀ x ∈ sides, 1 ≤ x ∧ x ≤ (env.nteams : Int) ∧ env.is_empty x = false := by
      simpa using hall
    have hsides : ∀ side ∈ sides, 1 ≤ side := fun side hside => (hall2 side hside).1
    have hp := get_user_choice_loop_progress env name sides hsides fuel [] _ _ h
    refine resolution_progress_trans env name sides s _ _ ?_ hp
    split
    · exact resolution_progress_same env name sides _ _ rfl rfl rfl
    · exact resolution_progress_same env name sides _ _ rfl rfl rfl

/-- The last loop of `get_user_choice_multiple_sides`: the mapping has the
random choice for every side of the loop and is as it was for every other side;
the log is as it was, and the resolver was asked for the random choices. -/
theorem random_choices_spec (env : collaborators) (l : List Int) :
    ∀ (retv : List (Int × config)) (s : game_state),
      (∀ side, (random_choices env l retv s).1.lookup side
          = if side ∈ l then some (env.random_choice side) else retv.lookup side)
        ∧ (random_choices env l retv s).2.recorder = s.recorder
        ∧ (random_choices env l retv s).2.resolver_calls
            = s.resolver_calls ++ l.map resolver_call.random_choice
        ∧ (random_choices env l retv s).2.oos_errors = s.oos_errors := by
  induction l with
  | nil =>
    intro retv s
    simp [random_choices]
  | cons a rest ih =>
    intro retv s
    obtain ⟨h1, h2, h3, h4⟩ := ih (map_insert retv a (env.random_choice a))
      { s with resolver_calls := s.resolver_calls ++ [resolver_call.random_choice a] }
    refine ⟨?_, ?_, ?_, ?_⟩
    · intro side
      rw [random_choices, h1, lookup_map_insert]
      by_cases hr : side ∈ rest
      · simp [hr]
      · by_cases ha : side = a
        · simp [ha]
        · simp [hr, ha]
    · rw [random_choices, h2]
    · rw [random_choices, h3]
      simp
    · rw [random_choices, h4]

/-- The resolution for sides that are all occupied, local and not idle, at the
end of the log: `get_user_choice_internal` returns once its loop may take one
turn more than there are sides. -/
theorem get_user_choice_internal_local (fuel : Nat) (env : collaborators) (name : String)
    (sides : List Int) (s : game_state)
    (hsorted : sides.Pairwise (fun a b => a < b))
    (hsides : ∀ side ∈ sides, 1 ≤ side ∧ side ≤ (env.nteams : Int)
      ∧ env.is_empty side = false ∧ env.is_local side = true ∧ env.is_idle side = false)
    (hend : s.recorder.base_.pos = s.recorder.base_.commands.length)
    (hfuel : sides.length < fuel) :
    ∃ s1, get_user_choice_internal fuel env name sides s
        = some (sides.map (fun side => (side, env.query_user side)), s1)
      ∧ s1.recorder.base_.commands = s.recorder.base_.commands
          ++ sides.map (fun side => user_input_command name (env.query_user side) side)
      ∧ s1.resolver_calls = s.resolver_calls ++ sides.map resolver_call.query_user
      ∧ s1.recorder.base_.pos = s1.recorder.base_.commands.length
      ∧ s1.oos_errors = s.oos_errors := by
  have hentry := entry_assertions_hold env sides
    (fun side h => ⟨(hsides side h).1, (hsides side h).2.1, (hsides side h).2.2.1⟩)
  have key : ∀ s0 : game_state, s0.recorder = s.recorder → s0.resolver_calls = s.resolver_calls →
      s0.oos_errors = s.oos_errors →
      ∃ s1, get_user_choice_loop env name sides fuel [] s0
          = some (sides.map (fun side => (side, env.query_user side)), s1)
        ∧ s1.recorder.base_.commands = s.recorder.base_.commands
            ++ sides.map (fun side => user_input_command name (env.query_user side) side)
        ∧ s1.resolver_calls = s.resolver_calls ++ sides.map resolver_call.query_user
        ∧ s1.recorder.base_.pos = s1.recorder.base_.commands.length
        ∧ s1.oos_errors = s.oos_errors := by
    intro s0 hrec hcalls herr
    obtain ⟨s1, h1, h2, h3, h4, h5, _⟩ := get_user_choice_loop_local env name sides sides []
      s0 fuel rfl hsorted
      (fun side h => ⟨(hsides side h).1, (hsides side h).2.2.2.1, (hsides side h).2.2.2.2⟩)
      (by rw [hrec]; exact hend) hfuel
    refine ⟨s1, h1, ?_, ?_, h3, ?_⟩
    · rw [h2, hrec]
    · rw [h4, hcalls]
    · rw [h5, herr]
  unfold get_user_choice_internal
  rw [hentry]
  simp only [Bool.true_eq_false, if_false]
  split
  · exact key _ rfl rfl rfl
  · exact key _ rfl rfl rfl

/-- C22 (unoccupied sides bypass the protocol). Outside a synced context
`get_user_choice_multiple_sides` returns the empty mapping, with one report
more and the replay object as it was. In a synced context, whenever it returns,
each requested side whose team is empty is mapped in the result to
`random_choice(side)`; the calls to the resolver during the call hold no
`query_user` for that side; and the log has only grown at its end, by commands
of which none is recorded for that side, apart from commands that the network
layer has handed over. And it does return: in a synced context with the
requested sides within the range of the teams, it returns whenever the
resolution `get_user_choice_internal` for the occupied sides alone returns,
with the log of that resolution and its answers for the occupied sides; so
when the occupied sides are all local and not idle and the cursor is at the end
of the log, it returns as soon as the loop may take one turn more than there
are occupied sides, with the random choice for every empty side and the answer
of `query_user` for every occupied side, the log grown by one recorded answer
for each occupied side and for no other, and the resolver asked `query_user`
for the occupied sides and `random_choice` for the empty ones. -/
theorem empty_sides_bypass_protocol (fuel : Nat) (env : collaborators) (name : String)
    (sides : List Int) (s : game_state) :
    (s.is_synced = false →
        get_user_choice_multiple_sides fuel env name sides s
          = some ([], s.process_error .not_synced)
        ∧ (s.process_error .not_synced).recorder = s.recorder
        ∧ (s.process_error .not_synced).oos_errors = s.oos_errors ++ [oos_error.not_synced])
      ∧ (s.is_synced = true →
          ∀ (retv : List (Int × config)) (s1 : game_state),
            get_user_choice_multiple_sides fuel env name sides s = some (retv, s1) →
            ∀ side ∈ sides, env.is_empty side = true →
              retv.lookup side = some (env.random_choice side)
                ∧ ∃ calls extra, s1.resolver_calls = s.resolver_calls ++ calls
                  ∧ resolver_call.query_user side ∉ calls
                  ∧ s1.recorder.base_.commands = s.recorder.base_.commands ++ extra
                  ∧ ∀ c ∈ extra, (c.get "from_side").to_int 0 = side →
                      handed_over s.incoming c)
      ∧ (s.is_synced = true →
          (∀ side ∈ sides, 1 ≤ side ∧ side ≤ (env.nteams : Int)) →
          ∀ (retv0 : List (Int × config)) (s0 : game_state),
            get_user_choice_internal fuel env name
                (sides.filter (fun side => !env.is_empty side)) s = some (retv0, s0) →
            ∃ retv s1, get_user_choice_multiple_sides fuel env name sides s = some (retv, s1)
              ∧ s1.recorder = s0.recorder
              ∧ (∀ side ∈ sides, env.is_empty side = true →
                  retv.lookup side = some (env.random_choice side))
              ∧ (∀ side ∈ sides, env.is_empty side = false →
                  retv.lookup side = retv0.lookup side))
      ∧ (s.is_synced = true →
          sides.Pairwise (fun a b => a < b) →
          (∀ side ∈ sides, 1 ≤ side ∧ side ≤ (env.nteams : Int)) →
          (∀ side ∈ sides, env.is_empty side = false →
            env.is_local side = true ∧ env.is_idle side = false) →
          s.recorder.base_.pos = s.recorder.base_.commands.length →
          (sides.filter (fun side => !env.is_empty side)).length < fuel →
          ∃ retv s1, get_user_choice_multiple_sides fuel env name sides s = some (retv, s1)
            ∧ (∀ side ∈ sides, retv.lookup side
                = some (if env.is_empty side = true then env.random_choice side
                    else env.query_user side))
            ∧ s1.recorder.base_.commands = s.recorder.base_.commands
                ++ (sides.filter (fun side => !env.is_empty side)).map
                    (fun side => user_input_command name (env.query_user side) side)
            ∧ s1.resolver_calls = s.resolver_calls
                ++ (sides.filter (fun side => !env.is_empty side)).map resolver_call.query_user
                ++ (sides.filter (fun side => env.is_empty side)).map
                    resolver_call.random_choice) := by
  have hrel : s.is_synced = true →
      (∀ side ∈ sides, 1 ≤ side ∧ side ≤ (env.nteams : Int)) →
      ∀ (retv0 : List (Int × config)) (s0 : game_state),
        get_user_choice_internal fuel env name
            (sides.filter (fun side => !env.is_empty side)) s = some (retv0, s0) →
        get_user_choice_multiple_sides fuel env name sides s
          = some (random_choices env (sides.filter (fun side => env.is_empty side)) retv0 s0) := by
    intro hs hrange retv0 s0 hint
    have hall : sides.all (fun side => decide (1 ≤ side ∧ side ≤ (env.nteams : Int))) = true := by
      rw [List.all_eq_true]
      intro side hside
      simpa using hrange side hside
    unfold get_user_choice_multiple_sides
    rw [hs, hall]
    simp only [Bool.true_eq_false, if_false, hint]
  refine ⟨?_, ?_, ?_, ?_⟩
  · intro hs
    refine ⟨by simp [get_user_choice_multiple_sides, hs], rfl, rfl⟩
  · intro hs retv s1 h side hside hempty
    unfold get_user_choice_multiple_sides at h
    rw [hs] at h
    simp only [Bool.true_eq_false, if_false] at h
    split at h
    · cases h
    · split at h
      · cases h
      · rename_i retv0 s0 hint
        injection h with h
        obtain ⟨⟨extra, he, hp⟩, ⟨calls, hc, hq⟩, _⟩ :=
          get_user_choice_internal_progress fuel env name _ s _ hint
        obtain ⟨g1, g2, g3, _⟩ := random_choices_spec env
          (sides.filter (fun side => env.is_empty side)) retv0 s0
        rw [h] at g1 g2 g3
        simp only at g1 g2 g3
        have hmem : side ∈ sides.filter (fun side => env.is_empty side) :=
          List.mem_filter.mpr ⟨hside, hempty⟩
        refine ⟨by rw [g1 side, if_pos hmem], calls ++ (sides.filter
          (fun side => env.is_empty side)).map resolver_call.random_choice, extra, ?_, ?_, ?_, ?_⟩
        · rw [g3, hc, List.append_assoc]
        · intro hin
          rcases List.mem_append.mp hin with hin | hin
          · obtain ⟨side2, hs2, he2⟩ := hq _ hin
            injection he2 with he2
            subst he2
            have := (List.mem_filter.mp hs2).2
            simp [hempty] at this
          · obtain ⟨x, _, hx⟩ := List.mem_map.mp hin
            cases hx
        · rw [g2, he]
        · intro c hc2 hfrom
          rcases hp c hc2 with hx | hx
          · exfalso
            obtain ⟨side2, hs2, he2⟩ := hx
            have hf : (c.get "from_side").to_int 0 = side2 := by
              rw [he2]
              rfl
            rw [hfrom] at hf
            subst hf
            have := (List.mem_filter.mp hs2).2
            simp [hempty] at this
          · exact hx
  · intro hs hrange retv0 s0 hint
    obtain ⟨g1, g2, _, _⟩ := random_choices_spec env
      (sides.filter (fun side => env.is_empty side)) retv0 s0
    refine ⟨_, _, hrel hs hrange retv0 s0 hint, g2, ?_, ?_⟩
    · intro side hside hempty
      rw [g1 side, if_pos (List.mem_filter.mpr ⟨hside, hempty⟩)]
    · intro side hside hempty
      rw [g1 side, if_neg]
      intro hmem
      have := (List.mem_filter.mp hmem).2
      rw [hempty] at this
      cases this
  · intro hs hsorted hrange hlocal hend hfuel
    have hocc : ∀ side ∈ sides.filter (fun side => !env.is_empty side),
        1 ≤ side ∧ side ≤ (env.nteams : Int) ∧ env.is_empty side = false
          ∧ env.is_local side = true ∧ env.is_idle side = false := by
      intro side hside
      obtain ⟨h1, h2⟩ := List.mem_filter.mp hside
      have h3 : env.is_empty side = false := by simpa using h2
      exact ⟨(hrange side h1).1, (hrange side h1).2, h3, hlocal side h1 h3⟩
    obtain ⟨s0, hint, hcmd, hcalls, _, _⟩ := get_user_choice_internal_local fuel env name
      (sides.filter (fun side => !env.is_empty side)) s (List.Pairwise.filter _ hsorted)
      hocc hend hfuel
    obtain ⟨g1, g2, g3, _⟩ := random_choices_spec env
      (sides.filter (fun side => env.is_empty side))
      ((sides.filter (fun side => !env.is_empty side)).map
        (fun side => (side, env.query_user side))) s0
    refine ⟨_, _, hrel hs hrange _ s0 hint, ?_, ?_, ?_⟩
    · intro side hside
      rw [g1 side]
      by_cases hempty : env.is_empty side = true
      · rw [if_pos (List.mem_filter.mpr ⟨hside, hempty⟩), if_pos hempty]
      · have hne : side ∉ sides.filter (fun side => env.is_empty side) := by
          intro hmem
          exact hempty (List.mem_filter.mp hmem).2
        have hin : side ∈ sides.filter (fun side => !env.is_empty side) :=
          List.mem_filter.mpr ⟨hside, by simpa using hempty⟩
        rw [if_neg hne, if_neg hempty, lookup_map_answered, if_pos hin]
    · rw [g2, hcmd]
    · rw [g3, hcalls]

/-- Witness of C22: the sides 1 and 2 are requested at the end of the log
`[start]` and the side 2 is empty. Outside a synced context the call returns
the empty mapping; in a synced context it returns, with the answer of
`query_user` for the side 1 and the random choice for the side 2, one recorded
answer, of the side 1, and the resolver asked in that order. -/
theorem empty_sides_bypass_protocol_witness :
    get_user_choice_multiple_sides 3 sample_env_empty_side "advance" [1, 2]
        (game_at (log_at_end [start_command]) false)
      = some ([], (game_at (log_at_end [start_command]) false).process_error .not_synced)
    ∧ ∃ retv s1, get_user_choice_multiple_sides 3 sample_env_empty_side "advance" [1, 2]
          (game_at (log_at_end [start_command]) true) = some (retv, s1)
        ∧ retv.lookup 1 = some (sample_env_empty_side.query_user 1)
        ∧ retv.lookup 2 = some (sample_env_empty_side.random_choice 2)
        ∧ s1.recorder.base_.commands = [start_command, sample_answer "advance" 1 1]
        ∧ s1.resolver_calls = [resolver_call.query_user 1, resolver_call.random_choice 2] := by
  refine ⟨((empty_sides_bypass_protocol 3 sample_env_empty_side "advance" [1, 2]
    (game_at (log_at_end [start_command]) false)).1 rfl).1, ?_⟩
  obtain ⟨retv, s1, h1, h2, h3, h4⟩ :=
    (empty_sides_bypass_protocol 3 sample_env_empty_side "advance" [1, 2]
      (game_at (log_at_end [start_command]) true)).2.2.2 rfl (by decide) (by decide)
      (by decide) rfl (by decide)
  exact ⟨retv, s1, h1, h2 1 (by decide), h2 2 (by decide), h3, h4⟩

/-! ## The network sender: properties -/

theorem drop_take_eq_range {α : Type} (l : List α) :
    ∀ (n a : Nat), a + n ≤ l.length →
      (l.drop a).take n = (List.range' a n).filterMap (fun i => l[i]?) := by
  intro n
  induction n with
  | zero =>
    intro a _
    simp
  | succ n ih =>
    intro a h
    have ha : a < l.length := by omega
    rw [List.drop_eq_getElem_cons ha, List.take_succ_cons, List.range'_succ,
      List.filterMap_cons, List.getElem?_eq_getElem ha]
    simp only
    rw [ih (a + 1) (by omega)]

theorem selected_indices_commands (r : replay) (a b : Nat) (dt : DATA_TYPE)
    (hb : b ≤ r.base_.commands.length) (hab : a ≤ b) :
    (selected_indices r a b dt).filterMap (fun i => r.base_.commands[i]?)
      = (range_commands r a b).filter (data_range_selects dt) := by
  rw [range_commands, drop_take_eq_range _ _ _ (by omega), selected_indices,
    List.filterMap_filter, List.filter_filterMap]
  apply List.filterMap_congr
  intro i _
  cases r.base_.commands[i]? with
  | none => simp
  | some c => simp [Option.filter]

theorem selected_indices_nodup (r : replay) (a b : Nat) (dt : DATA_TYPE) :
    (selected_indices r a b dt).Nodup :=
  List.Nodup.filter _ (List.nodup_range' a (b - a))

theorem mem_selected_indices (r : replay) (a b : Nat) (dt : DATA_TYPE) (j : Nat)
    (h : j ∈ selected_indices r a b dt) :
    a ≤ j ∧ j < b ∧ ∃ c, r.base_.commands[j]? = some c ∧ data_range_selects dt c = true := by
  obtain ⟨h1, h2⟩ := List.mem_filter.mp h
  have h3 := List.mem_range'_1.mp h1
  refine ⟨h3.1, by omega, ?_⟩
  cases hc : r.base_.commands[j]? with
  | none => simp [hc] at h2
  | some c =>
    simp only [hc] at h2
    exact ⟨c, rfl, h2⟩

theorem selected_is_unsent (dt : DATA_TYPE) (c : config) (h : data_range_selects dt c = true) :
    c.is_sent = false := by
  simp only [data_range_selects, Bool.and_eq_true, Bool.not_eq_true'] at h
  exact h.2

theorem marks_keeps_sent (dt : DATA_TYPE) (c : config) (h : c.is_sent = true) :
    (data_range_marks dt c).is_sent = true := by
  have hsel : data_range_selects dt c = false := by
    simp [data_range_selects, h]
  simp [data_range_marks, hsel, h]

theorem marks_selected_sent (c : config)
    (h : data_range_selects DATA_TYPE.NON_UNDO_DATA c = true) :
    (data_range_marks DATA_TYPE.NON_UNDO_DATA c).is_sent = true := by
  simp [data_range_marks, h, is_sent_after_stamp]

/-- The log after `get_data_range(a, len, dt)`, command by command. -/
theorem get_data_range_to_end (r : replay) (a : Nat) (dt : DATA_TYPE)
    (ha : a ≤ r.base_.commands.length) :
    ∃ r1, r.get_data_range a r.ncommands dt
        = some (config.mk [] (command_children
            ((selected_indices r a r.ncommands dt).filterMap (fun i => r.base_.commands[i]?))), r1)
      ∧ r1.base_.commands.length = r.base_.commands.length
      ∧ r1.base_.pos = r.base_.pos
      ∧ (∀ i, i < a → r1.base_.commands[i]? = r.base_.commands[i]?)
      ∧ (∀ i, a ≤ i → r1.base_.commands[i]? = (r.base_.commands[i]?).map (data_range_marks dt)) := by
  have hspec := get_data_range_spec r a r.base_.commands.length dt ha (Nat.le_refl _)
  have hsel := selected_indices_commands r a r.base_.commands.length dt (Nat.le_refl _) ha
  have hrange : range_commands r a r.base_.commands.length = r.base_.commands.drop a := by
    simp [range_commands]
  have hlog : r.base_.commands.take a
      ++ ((range_commands r a r.base_.commands.length).map (data_range_marks dt)
        ++ r.base_.commands.drop r.base_.commands.length)
      = r.base_.commands.take a ++ (r.base_.commands.drop a).map (data_range_marks dt) := by
    rw [hrange]
    simp
  rw [hlog] at hspec
  refine ⟨r.with_commands (r.base_.commands.take a
    ++ (r.base_.commands.drop a).map (data_range_marks dt)), ?_, ?_, rfl, ?_, ?_⟩
  · simp only [replay.ncommands, replay_recorder_base.size]
    rw [hsel, hspec]
  · simp [replay.with_commands]
    omega
  · intro i hi
    simp only [replay.with_commands]
    rw [List.getElem?_append_left (by simp; omega), List.getElem?_take_of_lt hi]
  · intro i hi
    simp only [replay.with_commands]
    rw [List.getElem?_append_right (by simp; omega)]
    simp only [List.length_take, Nat.min_eq_left ha, List.getElem?_map, List.getElem?_drop]
    have : a + (i - a) = i := by omega
    rw [this]

theorem selected_commands_isEmpty (r : replay) (a b : Nat) (dt : DATA_TYPE) :
    ((selected_indices r a b dt).filterMap (fun i => r.base_.commands[i]?)).isEmpty
      = (selected_indices r a b dt).isEmpty := by
  cases hs : selected_indices r a b dt with
  | nil => rfl
  | cons j rest =>
    obtain ⟨_, _, c, hc, _⟩ := mem_selected_indices r a b dt j (by rw [hs]; exact List.mem_cons_self _ _)
    simp [List.filterMap_cons, hc]

theorem sent_data_after (r : replay) (a b : Nat) (dt : DATA_TYPE) (sent : List config) :
    (if (config.mk [] (command_children
          ((selected_indices r a b dt).filterMap (fun i => r.base_.commands[i]?)))).empty = false
      then sent ++ [turn_document (config.mk [] (command_children
          ((selected_indices r a b dt).filterMap (fun i => r.base_.commands[i]?))))]
      else sent)
      = sent ++ shipped_documents r (selected_indices r a b dt) := by
  have he : (config.mk [] (command_children
      ((selected_indices r a b dt).filterMap (fun i => r.base_.commands[i]?)))).empty
      = (selected_indices r a b dt).isEmpty := by
    rw [← selected_commands_isEmpty]
    simp only [config.empty, config.values, config.children, command_children,
      List.isEmpty_nil, Bool.true_and]
    cases (selected_indices r a b dt).filterMap (fun i => r.base_.commands[i]?) <;> rfl
  rw [he, shipped_documents]
  cases (selected_indices r a b dt).isEmpty <;> simp

/-- The call `sync_non_undoable`, in full. -/
theorem sync_non_undoable_spec (env : collaborators) (st : replay_network_sender)
    (hconn : env.nconnections > 0) (hupto : st.upto_ ≤ st.obj_.base_.commands.length) :
    ∃ r1, st.sync_non_undoable env
        = some { obj_ := r1, upto_ := st.upto_,
                 sent_data := st.sent_data ++ shipped_documents st.obj_
                   (selected_indices st.obj_ st.upto_ st.obj_.ncommands DATA_TYPE.NON_UNDO_DATA) }
      ∧ r1.base_.commands.length = st.obj_.base_.commands.length
      ∧ (∀ i, i < st.upto_ → r1.base_.commands[i]? = st.obj_.base_.commands[i]?)
      ∧ (∀ i, st.upto_ ≤ i → r1.base_.commands[i]?
          = (st.obj_.base_.commands[i]?).map (data_range_marks DATA_TYPE.NON_UNDO_DATA)) := by
  obtain ⟨r1, h1, h2, _, h4, h5⟩ := get_data_range_to_end st.obj_ st.upto_
    DATA_TYPE.NON_UNDO_DATA hupto
  refine ⟨r1, ?_, h2, h4, h5⟩
  simp only [replay_network_sender.sync_non_undoable, hconn, if_true, h1, sent_data_after]

/-- The call `commit_and_sync`, in full. -/
theorem commit_and_sync_spec (env : collaborators) (st : replay_network_sender)
    (hconn : env.nconnections > 0) (hupto : st.upto_ ≤ st.obj_.base_.commands.length) :
    ∃ r1, st.commit_and_sync env
        = some { obj_ := r1, upto_ := st.obj_.ncommands,
                 sent_data := st.sent_data ++ shipped_documents st.obj_
                   (selected_indices st.obj_ st.upto_ st.obj_.ncommands DATA_TYPE.ALL_DATA) }
      ∧ r1.base_.commands = st.obj_.base_.commands := by
  obtain ⟨r1, h1, h2, _, h4, h5⟩ := get_data_range_to_end st.obj_ st.upto_
    DATA_TYPE.ALL_DATA hupto
  have hcmd : r1.base_.commands = st.obj_.base_.commands := by
    apply List.ext_getElem?
    intro i
    by_cases hi : i < st.upto_
    · exact h4 i hi
    · rw [h5 i (by omega)]
      cases st.obj_.base_.commands[i]? with
      | none => rfl
      | some c => simp [data_range_marks]
  refine ⟨r1, ?_, hcmd⟩
  simp only [replay_network_sender.commit_and_sync, hconn, if_true, h1, sent_data_after]
  simp only [replay.ncommands, replay_recorder_base.size, h2]

theorem lt_length_of_getElem? {α : Type} (l : List α) (i : Nat) (x : α) (h : l[i]? = some x) :
    i < l.length := by
  by_contra hge
  rw [List.getElem?_eq_none (by omega)] at h
  cases h

/-- One call during the life of a sender: the indices it ships are new, and
every index shipped so far is afterwards below the checkpoint or marked sent. -/
theorem sender_call_step (env : collaborators) (hconn : env.nconnections > 0)
    (call : sender_call) (st st1 : replay_network_sender) (prev : List Nat)
    (hupto : st.upto_ ≤ st.obj_.base_.commands.length)
    (hnd : prev.Nodup)
    (hprev : ∀ i ∈ prev, i < st.upto_
      ∨ ∃ c, st.obj_.base_.commands[i]? = some c ∧ c.is_sent = true)
    (h : call.apply env st = some st1) :
    st1.upto_ ≤ st1.obj_.base_.commands.length
      ∧ (prev ++ call.shipped env st).Nodup
      ∧ (∀ i ∈ prev ++ call.shipped env st, i < st1.upto_
          ∨ ∃ c, st1.obj_.base_.commands[i]? = some c ∧ c.is_sent = true)
      ∧ st1.sent_data = st.sent_data ++ shipped_documents st.obj_ (call.shipped env st) := by
  have hdisj : ∀ dt, List.Disjoint prev
      (selected_indices st.obj_ st.upto_ st.obj_.ncommands dt) := by
    intro dt i hi hj
    obtain ⟨h1, _, c, hc, hsel⟩ := mem_selected_indices _ _ _ _ _ hj
    rcases hprev i hi with hlt | ⟨c2, hc2, hs2⟩
    · omega
    · rw [hc] at hc2
      cases hc2
      rw [selected_is_unsent dt c hsel] at hs2
      cases hs2
  cases call with
  | sync_non_undoable =>
    obtain ⟨r1, hr1, hlen, hlow, hhigh⟩ := sync_non_undoable_spec env st hconn hupto
    simp only [sender_call.apply, hr1, Option.some.injEq] at h
    subst h
    simp only [sender_call.shipped, hconn, if_true]
    refine ⟨by simp only [hlen]; exact hupto, ?_, ?_, trivial⟩
    · exact List.Nodup.append hnd (selected_indices_nodup _ _ _ _) (hdisj _)
    · intro i hi
      rcases List.mem_append.mp hi with hi | hi
      · rcases hprev i hi with hlt | ⟨c, hc, hs⟩
        · exact Or.inl hlt
        · by_cases hlt : i < st.upto_
          · exact Or.inl hlt
          · right
            refine ⟨data_range_marks DATA_TYPE.NON_UNDO_DATA c, ?_, marks_keeps_sent _ c hs⟩
            rw [hhigh i (by omega), hc]
            rfl
      · obtain ⟨h1, _, c, hc, hsel⟩ := mem_selected_indices _ _ _ _ _ hi
        right
        refine ⟨data_range_marks DATA_TYPE.NON_UNDO_DATA c, ?_, marks_selected_sent c hsel⟩
        rw [hhigh i h1, hc]
        rfl
  | commit_and_sync =>
    obtain ⟨r1, hr1, hcmd⟩ := commit_and_sync_spec env st hconn hupto
    simp only [sender_call.apply, hr1, Option.some.injEq] at h
    subst h
    simp only [sender_call.shipped, hconn, if_true]
    refine ⟨by simp [replay.ncommands, replay_recorder_base.size, hcmd], ?_, ?_, trivial⟩
    · exact List.Nodup.append hnd (selected_indices_nodup _ _ _ _) (hdisj _)
    · intro i hi
      left
      simp only [replay.ncommands, replay_recorder_base.size]
      rcases List.mem_append.mp hi with hi | hi
      · rcases hprev i hi with hlt | ⟨c, hc, _⟩
        · omega
        · exact lt_length_of_getElem? _ _ _ hc
      · obtain ⟨_, h2, _⟩ := mem_selected_indices _ _ _ _ _ hi
        simpa [replay.ncommands, replay_recorder_base.size] using h2
  | record cmd =>
    simp only [sender_call.apply, Option.some.injEq] at h
    subst h
    simp only [sender_call.shipped, List.append_nil]
    refine ⟨by simp [replay.with_commands]; omega, hnd, ?_, by simp [shipped_documents]⟩
    intro i hi
    rcases hprev i hi with hlt | ⟨c, hc, hs⟩
    · exact Or.inl hlt
    · right
      refine ⟨c, ?_, hs⟩
      simp only [replay.with_commands]
      rw [List.getElem?_append_left (lt_length_of_getElem? _ _ _ hc)]
      exact hc

/-- Along an interleaving of calls no index is shipped twice. -/
theorem shipped_indices_nodup (env : collaborators) (hconn : env.nconnections > 0)
    (calls : List sender_call) :
    ∀ (st st1 : replay_network_sender) (prev : List Nat),
      st.upto_ ≤ st.obj_.base_.commands.length →
      prev.Nodup →
      (∀ i ∈ prev, i < st.upto_ ∨ ∃ c, st.obj_.base_.commands[i]? = some c ∧ c.is_sent = true) →
      run_sender_calls env calls st = some st1 →
      (prev ++ (shipped_indices env calls st).flatten).Nodup := by
  induction calls with
  | nil =>
    intro st st1 prev _ hnd _ _
    simpa [shipped_indices] using hnd
  | cons call rest ih =>
    intro st st1 prev hupto hnd hprev hrun
    unfold run_sender_calls at hrun
    split at hrun
    · cases hrun
    · rename_i st2 happ
      obtain ⟨h1, h2, h3, _⟩ := sender_call_step env hconn call st st2 prev hupto hnd hprev happ
      have := ih st2 st1 _ h1 h2 h3 hrun
      simp only [shipped_indices, happ, List.flatten_cons]
      rw [← List.append_assoc]
      exact this

theorem sender_call_returns (env : collaborators) (hconn : env.nconnections > 0)
    (call : sender_call) (st : replay_network_sender)
    (hupto : st.upto_ ≤ st.obj_.base_.commands.length) :
    ∃ st1, call.apply env st = some st1 := by
  cases call with
  | sync_non_undoable =>
    obtain ⟨r1, hr1, _⟩ := sync_non_undoable_spec env st hconn hupto
    exact ⟨_, hr1⟩
  | commit_and_sync =>
    obtain ⟨r1, hr1, _⟩ := commit_and_sync_spec env st hconn hupto
    exact ⟨_, hr1⟩
  | record cmd => exact ⟨_, rfl⟩

theorem run_sender_calls_returns (env : collaborators) (hconn : env.nconnections > 0)
    (calls : List sender_call) :
    ∀ (st : replay_network_sender), st.upto_ ≤ st.obj_.base_.commands.length →
      ∃ st1, run_sender_calls env calls st = some st1 := by
  induction calls with
  | nil =>
    intro st _
    exact ⟨st, rfl⟩
  | cons call rest ih =>
    intro st hupto
    obtain ⟨st2, h2⟩ := sender_call_returns env hconn call st hupto
    obtain ⟨h3, _⟩ := sender_call_step env hconn call st st2 [] hupto List.nodup_nil
      (fun i hi => by simp at hi) h2
    obtain ⟨st1, h1⟩ := ih st2 h3
    exact ⟨st1, by simp [run_sender_calls, h2, h1]⟩

/-- C23 (the network sender delivers each command at most once). There is at
least one connection, the sender is constructed on the replay object `obj`, and
during its life `sync_non_undoable` and `commit_and_sync` are called in any
order while the log only grows by commands recorded at its end. Then every call
returns, and no index of the log is among the commands shipped by two calls, or
twice by one. What a call ships is what it hands to `network::send_data`: no
document when it selects no command, and else one document with the selected
commands. Moreover `sync_non_undoable` leaves the checkpoint as it was,
`commit_and_sync` sets it to the length of the log, and a second
`commit_and_sync` right after it ships nothing. -/
theorem network_sender_delivers_at_most_once (env : collaborators)
    (hconn : env.nconnections > 0) (obj : replay) (calls : List sender_call) :
    (∃ st1, run_sender_calls env calls (replay_network_sender.create obj) = some st1)
      ∧ (shipped_indices env calls (replay_network_sender.create obj)).flatten.Nodup
      ∧ (∀ (call : sender_call) (st st2 : replay_network_sender),
          st.upto_ ≤ st.obj_.ncommands → call.apply env st = some st2 →
          st2.upto_ ≤ st2.obj_.ncommands
            ∧ st2.sent_data = st.sent_data ++ shipped_documents st.obj_ (call.shipped env st))
      ∧ (∀ (st st2 : replay_network_sender),
          st.sync_non_undoable env = some st2 → st2.upto_ = st.upto_)
      ∧ (∀ (st st2 : replay_network_sender),
          st.upto_ ≤ st.obj_.ncommands → st.commit_and_sync env = some st2 →
          st2.upto_ = st2.obj_.ncommands ∧ st2.obj_.ncommands = st.obj_.ncommands
            ∧ sender_call.commit_and_sync.shipped env st2 = []
            ∧ ∃ st3, st2.commit_and_sync env = some st3
                ∧ st3.sent_data = st2.sent_data ∧ st3.upto_ = st2.upto_) := by
  have hcreate : (replay_network_sender.create obj).upto_
      ≤ (replay_network_sender.create obj).obj_.base_.commands.length := Nat.le_refl _
  refine ⟨run_sender_calls_returns env hconn calls _ hcreate, ?_, ?_, ?_, ?_⟩
  · obtain ⟨st1, h1⟩ := run_sender_calls_returns env hconn calls _ hcreate
    simpa using shipped_indices_nodup env hconn calls _ st1 [] hcreate List.nodup_nil
      (fun i hi => by simp at hi) h1
  · intro call st st2 hupto happ
    obtain ⟨h1, _, _, h4⟩ := sender_call_step env hconn call st st2 [] hupto List.nodup_nil
      (fun i hi => by simp at hi) happ
    exact ⟨h1, h4⟩
  · intro st st2 h
    simp only [replay_network_sender.sync_non_undoable, hconn, if_true] at h
    split at h
    · cases h
    · cases h
      rfl
  · intro st st2 hupto h
    obtain ⟨r1, hr1, hcmd⟩ := commit_and_sync_spec env st hconn hupto
    rw [hr1] at h
    cases h
    have hlen : r1.ncommands = st.obj_.ncommands := by
      simp [replay.ncommands, replay_recorder_base.size, hcmd]
    have hempty : selected_indices r1 st.obj_.ncommands r1.ncommands DATA_TYPE.ALL_DATA = [] := by
      simp [selected_indices, hlen]
    have hup2 : st.obj_.ncommands ≤ r1.base_.commands.length := by
      simp [replay.ncommands, replay_recorder_base.size, hcmd]
    obtain ⟨r2, hr2, _⟩ := commit_and_sync_spec env
      { obj_ := r1, upto_ := st.obj_.ncommands,
        sent_data := st.sent_data ++ shipped_documents st.obj_
          (selected_indices st.obj_ st.upto_ st.obj_.ncommands DATA_TYPE.ALL_DATA) } hconn hup2
    refine ⟨hlen.symm, hlen, ?_, _, hr2, ?_, ?_⟩
    · simp only [sender_call.shipped, hconn, if_true]
      exact hempty
    · simp only [hempty]
      simp [shipped_documents]
    · exact hlen

/-- Witness of C23: on the log `[start]` the game records a chat command and a
move; `sync_non_undoable` ships the chat command, the first `commit_and_sync`
ships the move, and the second one ships nothing. -/
theorem network_sender_delivers_at_most_once_witness :
    (∃ st1, run_sender_calls sample_env_connected
        [.record speak_command, .record move_command, .sync_non_undoable, .commit_and_sync,
          .commit_and_sync]
        (replay_network_sender.create (log_at_end [start_command])) = some st1)
      ∧ shipped_indices sample_env_connected
          [.record speak_command, .record move_command, .sync_non_undoable, .commit_and_sync,
            .commit_and_sync]
          (replay_network_sender.create (log_at_end [start_command]))
        = [[], [], [1], [2], []] :=
  ⟨(network_sender_delivers_at_most_once sample_env_connected (by decide)
      (log_at_end [start_command])
      [.record speak_command, .record move_command, .sync_non_undoable, .commit_and_sync,
        .commit_and_sync]).1, by decide⟩


end Replay
